import Mathlib

/-!
# arduino-flash-queue: a FIFO queue of fixed-size records over raw flash pages

Shallow embedding of `src/arduino-flash-queue.hpp` (class `FlashQueue`).

Modelling conventions.

* The target is a 32-bit microcontroller: `int` is a 32-bit two's complement integer and
  `size_t` a 32-bit unsigned integer.  Values are carried in `Int`; every arithmetic result
  of type `int` goes through `toInt32` and every result of type `size_t` through `toSizeT`.
  Signed overflow is undefined behaviour in C++; `toInt32` gives it the wrap-around meaning
  of the target, and the theorems say where they rely on the absence of overflow.
* The flash primitives `flashPageErase`, `flashWriteBlock`, the macros `ADDRESS_OF_PAGE`,
  `PAGE_FROM_ADDRESS`, the object layouts (`sizeof`, `reinterpret_cast`) and `std::sort`
  are not part of the repository; they are the fields of `Platform`.
* Global state (the flash device) is threaded explicitly as a `World`, which also records
  every primitive call that was issued, with its status code, and every `Log.error` message.
  `Log.trace` and `Log.verbose` output is not modelled.
* Addresses are mathematical integers; a byte is a natural number.
-/

namespace ArduinoFlashQueue

/-! ## Machine integers -/

/-- Conversion of an integer value to the 32-bit unsigned type `size_t`. -/
def toSizeT (x : Int) : Int := x % 4294967296

/-- Conversion of an integer value to the 32-bit two's complement type `int`. -/
def toInt32 (x : Int) : Int := (x + 2147483648) % 4294967296 - 2147483648

/-- The values of type `int`. -/
def IsInt32 (x : Int) : Prop := -2147483648 ≤ x ∧ x < 2147483648

instance (x : Int) : Decidable (IsInt32 x) := by
  unfold IsInt32
  exact inferInstance

/-! ## Data model -/

/-- Header stored at the start of every data-bearing flash page (`struct FlashPageHeader`). -/
structure FlashPageHeader (M : Type) where
  pageNumber : Int
  count : Int
  flashWriteId : Int
  metadata : M
deriving DecidableEq, Repr

/-- The platform the queue is compiled against: flash primitives, address macros, object
layouts and the library sort.  `F` is the state of the flash device, `M` the header metadata
type and `D` the record type (`DataType`).

* `flashPageErase page f` and `flashWriteBlock dst src cb f` return a status code and the
  next device state; `src` is the content of the buffer the source pointer designates.
* `load f a` is the byte read from address `a` (flash is memory mapped).
* `headerOfBytes` is the `reinterpret_cast` of `sizeofHeader` bytes to a header, and
  `headerBytes` the object representation of a header; likewise for records.
* `stdSort less l` is `std::sort` of `l` with comparison `less`. -/
structure Platform (F M D : Type) where
  ADDRESS_OF_PAGE : Int → Int
  PAGE_FROM_ADDRESS : Int → Int
  flashPageErase : Int → F → Int × F
  flashWriteBlock : Int → List Nat → Int → F → Int × F
  load : F → Int → Nat
  sizeofHeader : Nat
  sizeofData : Nat
  headerBytes : FlashPageHeader M → List Nat
  headerOfBytes : List Nat → FlashPageHeader M
  dataBytes : D → List Nat
  dataOfBytes : List Nat → D
  stdSort : (FlashPageHeader M → FlashPageHeader M → Bool) →
    List (FlashPageHeader M) → List (FlashPageHeader M)

/-- A call of a flash primitive, with the status code it returned. -/
inductive FlashCall where
  | erase (page : Int) (rc : Int)
  | write (dst : Int) (src : List Nat) (cb : Int) (rc : Int)
deriving DecidableEq, Repr

/-- The status code a recorded primitive call returned. -/
def FlashCall.status : FlashCall → Int
  | FlashCall.erase _ rc => rc
  | FlashCall.write _ _ _ rc => rc

/-- The status codes of the flash primitives: 0 (success), 1 (the flash page is reserved)
and 2 (the flash page is used by the sketch), the three codes the source tells apart. -/
def FlashCall.InStatusDomain (c : FlashCall) : Prop :=
  c.status = 0 ∨ c.status = 1 ∨ c.status = 2

/-- Deciding whether a recorded status is one of 0, 1 and 2. -/
instance FlashCall.decidableInStatusDomain (c : FlashCall) : Decidable c.InStatusDomain :=
  inferInstanceAs (Decidable (c.status = 0 ∨ c.status = 1 ∨ c.status = 2))

/-- The messages of the `Log.error` calls of the source. -/
inductive LogError where
  /-- "Cannot save new data packet - no more space!" -/
  | noMoreSpace
  /-- "Failed writing data packets to flash." -/
  | failedWritingData
  /-- "Unknown error writing data packets to flash." -/
  | unknownWriteError
  /-- "No flash data to pop." -/
  | noFlashDataToPop
  /-- "Error erasing flash page." -/
  | errorErasingPage
  /-- "Error - the flash page is reserved" -/
  | pageReserved
  /-- "Error - the flash page is used by the sketch" -/
  | pageUsedBySketch
  /-- "Invalid arguments - more data to write to page than can fit on page!" -/
  | invalidArguments
deriving DecidableEq, Repr

/-- The world outside the queue object: the flash device, the primitive calls issued so far
and the error messages logged so far (oldest first). -/
structure World (F : Type) where
  flash : F
  calls : List FlashCall
  errors : List LogError

/-- The member variables of `class FlashQueue`; the deques are lists with the front first. -/
structure FlashQueue (M : Type) where
  DataPacketsPerFlashPage : Int
  NumFlashPages : Int
  LowestFlashPageNumber : Int
  readDataPeekIndex : Int
  dataFlashPages : List (FlashPageHeader M)
  emptyFlashPages : List Int
deriving DecidableEq, Repr

section Operations

variable {F M D : Type}

/-- Effect of `Log.error`. -/
def logError (e : LogError) (w : World F) : World F :=
  { w with errors := w.errors ++ [e] }

/-- The `cb` bytes of memory starting at address `addr`. -/
def readBytes (env : Platform F M D) (f : F) (addr : Int) (cb : Nat) : List Nat :=
  (List.range cb).map (fun i : Nat => env.load f (addr + (i : Int)))

/-- The header found at the start of a page:
`*reinterpret_cast<FlashPageHeader*>(ADDRESS_OF_PAGE(page))`. -/
def readHeader (env : Platform F M D) (f : F) (page : Int) : FlashPageHeader M :=
  env.headerOfBytes (readBytes env f (env.ADDRESS_OF_PAGE page) env.sizeofHeader)

/-- Address of the first record of a page (`getDataOnPage`). -/
def getDataOnPage (env : Platform F M D) (page : Int) : Int :=
  env.ADDRESS_OF_PAGE page + env.sizeofHeader

/-- Call of the primitive `flashPageErase`, recorded in the world. -/
def callFlashPageErase (env : Platform F M D) (page : Int) (w : World F) : Int × World F :=
  let r := env.flashPageErase page w.flash
  (r.1, { w with flash := r.2, calls := w.calls ++ [FlashCall.erase page r.1] })

/-- Call of the primitive `flashWriteBlock`, recorded in the world. -/
def callFlashWriteBlock (env : Platform F M D) (dst : Int) (src : List Nat) (cb : Int)
    (w : World F) : Int × World F :=
  let r := env.flashWriteBlock dst src cb w.flash
  (r.1, { w with flash := r.2, calls := w.calls ++ [FlashCall.write dst src cb r.1] })

/-- Source function `eraseFlashPage`. -/
def eraseFlashPage (env : Platform F M D) (page : Int) (w : World F) : Int × World F :=
  let r := callFlashPageErase env page w
  if r.1 = 0 then r
  else if r.1 = 1 then (r.1, logError LogError.pageReserved r.2)
  else if r.1 = 2 then (r.1, logError LogError.pageUsedBySketch r.2)
  else r

/-- Source function `eraseThenWriteFlashPage`. -/
def eraseThenWriteFlashPage (env : Platform F M D) (page : Int) (header : List Nat)
    (numBytesHeader : Int) (data : List Nat) (numBytesData : Int) (w : World F) :
    Int × World F :=
  if env.PAGE_FROM_ADDRESS (env.ADDRESS_OF_PAGE page + numBytesHeader + numBytesData - 1)
      ≠ page then
    (-1, logError LogError.invalidArguments w)
  else
    let r1 := eraseFlashPage env page w
    if r1.1 ≠ 0 then r1
    else
      let r2 := callFlashWriteBlock env (env.ADDRESS_OF_PAGE page) header numBytesHeader r1.2
      if r2.1 = 1 then (r2.1, logError LogError.pageReserved r2.2)
      else if r2.1 = 2 then (r2.1, logError LogError.pageUsedBySketch r2.2)
      else
        let r3 := callFlashWriteBlock env (env.ADDRESS_OF_PAGE page + numBytesHeader) data
          numBytesData r2.2
        if r3.1 = 1 then (r3.1, logError LogError.pageReserved r3.2)
        else if r3.1 = 2 then (r3.1, logError LogError.pageUsedBySketch r3.2)
        else r3

/-- Source function `writeDataPacketsToFlashPage`.  The byte count of the payload is
`numDataPackets * sizeof(DataType)`, computed in `size_t` and converted to `int`. -/
def writeDataPacketsToFlashPage (env : Platform F M D) (page flashWriteId : Int)
    (metadata : M) (data : List D) (numDataPackets : Int) (w : World F) : Bool × World F :=
  let header : FlashPageHeader M := ⟨page, numDataPackets, flashWriteId, metadata⟩
  let r := eraseThenWriteFlashPage env page (env.headerBytes header)
    (toInt32 env.sizeofHeader) (data.map env.dataBytes).flatten
    (toInt32 (toSizeT (toSizeT numDataPackets * env.sizeofData))) w
  (decide (r.1 = 0), r.2)

/-- Source function `clearFlashPage`: the header is an all-zero buffer, the payload is the
null pointer with length zero. -/
def clearFlashPage (env : Platform F M D) (page : Int) (w : World F) : Bool × World F :=
  let r := eraseThenWriteFlashPage env page (List.replicate env.sizeofHeader 0)
    (toInt32 env.sizeofHeader) [] 0 w
  (decide (r.1 = 0), r.2)

/-- The scan loop of the constructor: `fuel` iterations starting at `page`, appending to the
pair (dataFlashPages, emptyFlashPages). -/
def scanLoop (env : Platform F M D) (f : F) :
    Nat → Int → List (FlashPageHeader M) × List Int → List (FlashPageHeader M) × List Int
  | 0, _, acc => acc
  | fuel + 1, page, acc =>
    let header := readHeader env f page
    if page = header.pageNumber then
      scanLoop env f fuel (toInt32 (page + 1)) (acc.1 ++ [header], acc.2)
    else
      scanLoop env f fuel (toInt32 (page + 1)) (acc.1, acc.2 ++ [page])

/-- The comparison the constructor passes to `std::sort`:
`lhs.flashWriteId < rhs.flashWriteId`. -/
def lessByWriteId (lhs rhs : FlashPageHeader M) : Bool :=
  decide (lhs.flashWriteId < rhs.flashWriteId)

/-- Number of iterations of `for (page = lowest; page < lowest + num; page++)`. -/
def scanCount (lowest num : Int) : Nat := (toInt32 (lowest + num) - lowest).toNat

/-- The constructor `FlashQueue::FlashQueue`.  It reads the flash and calls no primitive;
the world is returned as it was received. -/
def construct (env : Platform F M D) (bytesPerFlashPage lowestFlashPageAvailable
    highestFlashPageAvailable : Int) (w : World F) : FlashQueue M × World F :=
  let numFlashPages := toInt32 (highestFlashPageAvailable - lowestFlashPageAvailable + 1)
  let scanned := scanLoop env w.flash (scanCount lowestFlashPageAvailable numFlashPages)
    lowestFlashPageAvailable ([], [])
  ({ DataPacketsPerFlashPage :=
       toInt32 (toSizeT (toSizeT bytesPerFlashPage - env.sizeofHeader) / env.sizeofData)
     NumFlashPages := numFlashPages
     LowestFlashPageNumber := lowestFlashPageAvailable
     readDataPeekIndex := 0
     dataFlashPages :=
       env.stdSort lessByWriteId scanned.1
     emptyFlashPages := scanned.2 }, w)

/-- Source function `flashWriteData`. -/
def flashWriteData (env : Platform F M D) (q : FlashQueue M) (data : List D) (metadata : M)
    (w : World F) : Bool × FlashQueue M × World F :=
  match q.emptyFlashPages with
  | [] => (false, q, logError LogError.noMoreSpace w)
  | page :: rest =>
    let flashWriteId : Int :=
      match q.dataFlashPages.getLast? with
      | none => 0
      | some back => toInt32 (back.flashWriteId + 1)
    let r := writeDataPacketsToFlashPage env page flashWriteId metadata data
      q.DataPacketsPerFlashPage w
    if r.1 = false then (false, q, logError LogError.failedWritingData r.2)
    else
      let header := readHeader env r.2.flash page
      if page ≠ header.pageNumber then (false, q, logError LogError.unknownWriteError r.2)
      else
        (true, { q with emptyFlashPages := rest
                        dataFlashPages := q.dataFlashPages ++ [header] }, r.2)

/-- Source function `flashStorageFull`. -/
def flashStorageFull (q : FlashQueue M) : Bool := q.emptyFlashPages.isEmpty

/-- Source function `flashDataAvailable`. -/
def flashDataAvailable (q : FlashQueue M) : Bool := !q.dataFlashPages.isEmpty

/-- Source function `flashPeekDatum`; undefined (`none`) when no data is available. -/
def flashPeekDatum (env : Platform F M D) (q : FlashQueue M) (w : World F) : Option D :=
  match q.dataFlashPages with
  | [] => none
  | front :: _ =>
    some (env.dataOfBytes (readBytes env w.flash
      (getDataOnPage env front.pageNumber + q.readDataPeekIndex * env.sizeofData)
      env.sizeofData))

/-- Source function `flashPopDatum`. -/
def flashPopDatum (env : Platform F M D) (q : FlashQueue M) (w : World F) :
    Bool × FlashQueue M × World F :=
  match q.dataFlashPages with
  | [] => (false, q, logError LogError.noFlashDataToPop w)
  | front :: rest =>
    let idx := toInt32 (q.readDataPeekIndex + 1)
    if idx < front.count then (true, { q with readDataPeekIndex := idx }, w)
    else
      let r := clearFlashPage env front.pageNumber w
      if r.1 = true then
        (true, { q with readDataPeekIndex := 0
                        dataFlashPages := rest
                        emptyFlashPages := q.emptyFlashPages ++ [front.pageNumber] }, r.2)
      else
        (false, { q with readDataPeekIndex := toInt32 (idx - 1) },
          logError LogError.errorErasingPage r.2)

end Operations

/-! ## Observations on runs -/

section Observations

variable {F M D : Type}

/-- The write id `flashWriteData` assigns to the page it writes:
`dataFlashPages.empty() ? 0 : dataFlashPages.back().flashWriteId + 1`. -/
def nextWriteId (q : FlashQueue M) : Int :=
  match q.dataFlashPages.getLast? with
  | none => 0
  | some back => toInt32 (back.flashWriteId + 1)

/-- The pages `page, page + 1, ..., page + count - 1`. -/
def pagesFrom (page : Int) (count : Nat) : List Int :=
  (List.range count).map (fun i : Nat => page + (i : Int))

/-- The pages the constructor scans, in scan order: those of the range
`[lowest, lowest + num)`, the upper bound evaluated as the `int` expression of the loop. -/
def configuredPages (lowest num : Int) : List Int := pagesFrom lowest (scanCount lowest num)

/-- The test of the scan loop: the header stored on the page carries the page's number. -/
def isDataPage (env : Platform F M D) (f : F) (page : Int) : Bool :=
  decide (page = (readHeader env f page).pageNumber)

/-- The page numbers of the entries of dataFlashPages, front first. -/
def dataPageNumbers (q : FlashQueue M) : List Int := q.dataFlashPages.map (fun h => h.pageNumber)

/-- The error messages logged between world `w` and the later world `w2`. -/
def errorsSince (w w2 : World F) : List LogError := w2.errors.drop w.errors.length

/-- The primitive calls issued between world `w` and the later world `w2`. -/
def callsSince (w w2 : World F) : List FlashCall := w2.calls.drop w.calls.length

/-- The states reachable from the constructor, run with the given arguments in world `w0`,
by any sequence of `flashWriteData` and `flashPopDatum` calls. -/
inductive Reachable (env : Platform F M D) (bytesPerFlashPage lowest highest : Int)
    (w0 : World F) : FlashQueue M → World F → Prop where
  | init : Reachable env bytesPerFlashPage lowest highest w0
      (construct env bytesPerFlashPage lowest highest w0).1
      (construct env bytesPerFlashPage lowest highest w0).2
  | write {q : FlashQueue M} {w : World F} (data : List D) (metadata : M) :
      Reachable env bytesPerFlashPage lowest highest w0 q w →
      Reachable env bytesPerFlashPage lowest highest w0
        (flashWriteData env q data metadata w).2.1 (flashWriteData env q data metadata w).2.2
  | pop {q : FlashQueue M} {w : World F} :
      Reachable env bytesPerFlashPage lowest highest w0 q w →
      Reachable env bytesPerFlashPage lowest highest w0
        (flashPopDatum env q w).2.1 (flashPopDatum env q w).2.2

/-- The states reachable from the constructor by calls in which the write id never wraps
around: a `flashWriteData` call is only made when the back of dataFlashPages, if any, has a
`flashWriteId` whose successor is a value of type int. -/
inductive ReachableWithoutWrap (env : Platform F M D) (bytesPerFlashPage lowest highest : Int)
    (w0 : World F) : FlashQueue M → World F → Prop where
  | init : ReachableWithoutWrap env bytesPerFlashPage lowest highest w0
      (construct env bytesPerFlashPage lowest highest w0).1
      (construct env bytesPerFlashPage lowest highest w0).2
  | write {q : FlashQueue M} {w : World F} (data : List D) (metadata : M) :
      ReachableWithoutWrap env bytesPerFlashPage lowest highest w0 q w →
      (∀ back, q.dataFlashPages.getLast? = some back → IsInt32 (back.flashWriteId + 1)) →
      ReachableWithoutWrap env bytesPerFlashPage lowest highest w0
        (flashWriteData env q data metadata w).2.1 (flashWriteData env q data metadata w).2.2
  | pop {q : FlashQueue M} {w : World F} :
      ReachableWithoutWrap env bytesPerFlashPage lowest highest w0 q w →
      ReachableWithoutWrap env bytesPerFlashPage lowest highest w0
        (flashPopDatum env q w).2.1 (flashPopDatum env q w).2.2

/-- A flash that stores what is written, with the page geometry and object layouts the
queue relies on.

* Pages are intervals of addresses (`page_monotone`), a page starts at its own address and
  holds a header.
* A successful erase leaves the other pages alone; a successful block write stores the
  bytes of the source buffer and leaves the other addresses alone; block writes return
  status 0, 1 or 2.
* A header whose integers are values of type int survives the trip through its object
  representation, which has `sizeofHeader` bytes; so does every record, in `sizeofData`
  bytes; the integer at the start of an all-zero header is 0. -/
structure FaithfulFlash (env : Platform F M D) : Prop where
  page_of_address : ∀ p, env.PAGE_FROM_ADDRESS (env.ADDRESS_OF_PAGE p) = p
  page_monotone : ∀ a b, a ≤ b → env.PAGE_FROM_ADDRESS a ≤ env.PAGE_FROM_ADDRESS b
  header_fits : ∀ p, env.PAGE_FROM_ADDRESS (env.ADDRESS_OF_PAGE p + env.sizeofHeader - 1) = p
  erase_elsewhere : ∀ p f a, (env.flashPageErase p f).1 = 0 → env.PAGE_FROM_ADDRESS a ≠ p →
    env.load (env.flashPageErase p f).2 a = env.load f a
  write_stored : ∀ dst src cb f (i : Nat), (env.flashWriteBlock dst src cb f).1 = 0 →
    (i : Int) < cb → i < src.length →
    env.load (env.flashWriteBlock dst src cb f).2 (dst + i) = src.getD i 0
  write_elsewhere : ∀ dst src cb f a, (env.flashWriteBlock dst src cb f).1 = 0 →
    a < dst ∨ dst + cb ≤ a →
    env.load (env.flashWriteBlock dst src cb f).2 a = env.load f a
  write_status : ∀ dst src cb f, (env.flashWriteBlock dst src cb f).1 = 0 ∨
    (env.flashWriteBlock dst src cb f).1 = 1 ∨ (env.flashWriteBlock dst src cb f).1 = 2
  header_roundtrip : ∀ h : FlashPageHeader M, IsInt32 h.pageNumber → IsInt32 h.count →
    IsInt32 h.flashWriteId → env.headerOfBytes (env.headerBytes h) = h
  header_length : ∀ h : FlashPageHeader M, (env.headerBytes h).length = env.sizeofHeader
  sizeofHeader_small : (env.sizeofHeader : Int) < 2147483648
  zero_header : (env.headerOfBytes (List.replicate env.sizeofHeader 0)).pageNumber = 0
  data_roundtrip : ∀ d : D, env.dataOfBytes (env.dataBytes d) = d
  data_length : ∀ d : D, (env.dataBytes d).length = env.sizeofData

/-- Every flash primitive call returns status 0. -/
def AlwaysSucceeds (env : Platform F M D) : Prop :=
  (∀ p f, (env.flashPageErase p f).1 = 0) ∧
  (∀ dst src cb f, (env.flashWriteBlock dst src cb f).1 = 0)

/-- Contract of `std::sort` for the comparison by `flashWriteId`: the result is a
permutation of the input in which no element is followed by a smaller one. -/
def SortSpec (env : Platform F M D) : Prop :=
  ∀ l : List (FlashPageHeader M),
    (env.stdSort lessByWriteId l).Perm l ∧
    (env.stdSort lessByWriteId l).Pairwise (fun a b => a.flashWriteId ≤ b.flashWriteId)

/-- The partition of the configured pages between the pool and the data queue, as a
permutation. -/
def Partitioned (lo hi : Int) (q : FlashQueue M) : Prop :=
  q.LowestFlashPageNumber = lo ∧ q.NumFlashPages = toInt32 (hi - lo + 1) ∧
  (q.emptyFlashPages ++ dataPageNumbers q).Perm (configuredPages lo q.NumFlashPages)

/-- The write ids found by the constructor on the data-bearing pages of the range are
pairwise distinct. -/
def DistinctWriteIds (env : Platform F M D) (lo hi : Int) (f : F) : Prop :=
  (((configuredPages lo (toInt32 (hi - lo + 1))).filter (isDataPage env f)).map
    (fun p => (readHeader env f p).flashWriteId)).Nodup

/-- The entries of dataFlashPages are in non-decreasing order of write id, and in strictly
increasing order when `strict` holds. -/
def WriteOrdered (strict : Prop) (q : FlashQueue M) : Prop :=
  q.dataFlashPages.Pairwise (fun a b => a.flashWriteId ≤ b.flashWriteId) ∧
  (strict → q.dataFlashPages.Pairwise (fun a b => a.flashWriteId < b.flashWriteId))

/-- The queue object agrees with the flash: the pages are partitioned between the pool and
the data queue, every entry of dataFlashPages is the header stored on its page, and no page
of the pool stores a header carrying its own number. -/
def Consistent (env : Platform F M D) (lo hi : Int) (q : FlashQueue M) (f : F) : Prop :=
  Partitioned lo hi q ∧
  (∀ h ∈ q.dataFlashPages, readHeader env f h.pageNumber = h) ∧
  (∀ p ∈ q.emptyFlashPages, (readHeader env f p).pageNumber ≠ p)

/-- A sequence of `flashWriteData` calls, one per element of the list (records and
metadata); the results of the calls are returned in call order. -/
def writeAll (env : Platform F M D) (q : FlashQueue M) (w : World F) :
    List (List D × M) → List Bool × FlashQueue M × World F
  | [] => ([], q, w)
  | item :: rest =>
    let r := flashWriteData env q item.1 item.2 w
    let r2 := writeAll env r.2.1 r.2.2 rest
    (r.1 :: r2.1, r2.2)

/-- A number of rounds of `flashPeekDatum` followed by `flashPopDatum`; the peeked record
and the result of the pop are returned for every round, in call order. -/
def drain (env : Platform F M D) : Nat → FlashQueue M → World F →
    List (Option D × Bool) × FlashQueue M × World F
  | 0, q, w => ([], q, w)
  | rounds + 1, q, w =>
    let d := flashPeekDatum env q w
    let r := flashPopDatum env q w
    let r2 := drain env rounds r.2.1 r.2.2
    ((d, r.1) :: r2.1, r2.2)

/-- The record with index `i` stored on a page: `getDataOnPage(page)[i]`. -/
def readRecord (env : Platform F M D) (f : F) (page : Int) (i : Nat) : D :=
  env.dataOfBytes (readBytes env f (getDataOnPage env page + (i : Int) * env.sizeofData)
    env.sizeofData)

/-- The first `n` records stored on a page. -/
def storedRecords (env : Platform F M D) (f : F) (page : Int) (n : Nat) : List D :=
  (List.range n).map (readRecord env f page)

/-- The byte count `flashWriteData` passes for the payload of `n` records:
`numDataPackets * sizeof(DataType)` computed in `size_t` and converted to `int`. -/
def payloadBytes (env : Platform F M D) (n : Int) : Int :=
  toInt32 (toSizeT (toSizeT n * env.sizeofData))

/-- The queue holds exactly the pending pages, in order, each with `n` records, and the
flash stores the pending records on their pages. -/
def Holds (env : Platform F M D) (n : Nat) (lo hi : Int) (q : FlashQueue M) (f : F)
    (pending : List (Int × List D)) : Prop :=
  Partitioned lo hi q ∧
  q.DataPacketsPerFlashPage = n ∧
  dataPageNumbers q = pending.map Prod.fst ∧
  (∀ h ∈ q.dataFlashPages, h.count = n) ∧
  ∀ e ∈ pending, storedRecords env f e.1 n = e.2

section Runs

variable {F M D : Type}

end Runs

/-- Every header of dataFlashPages has a count between 1 and the largest int, and when the
queue is not empty the peek cursor is an index into the front page. -/
def CursorInRange (q : FlashQueue M) : Prop :=
  (∀ h ∈ q.dataFlashPages, 1 ≤ h.count ∧ h.count < 2147483648) ∧
  ∀ front rest, q.dataFlashPages = front :: rest →
    0 ≤ q.readDataPeekIndex ∧ q.readDataPeekIndex < front.count

/-- Every data-bearing page of the range stores a count between 1 and the largest int. -/
def PositiveCounts (env : Platform F M D) (lo hi : Int) (f : F) : Prop :=
  ∀ p ∈ configuredPages lo (toInt32 (hi - lo + 1)), isDataPage env f p = true →
    1 ≤ (readHeader env f p).count ∧ (readHeader env f p).count < 2147483648

end Observations

/-! ## A simulated flash device

Pages of `pageSize` bytes laid out contiguously from address 0, 32-bit little-endian
integers, `int` metadata and 4-byte records (a 16-byte header).  The device state is the
memory together with a script of status codes: each primitive call consumes the next status
code of the script (status 0 once the script is exhausted) and takes effect only when the
status is 0. -/

/-- A 32-bit word, the representation of the record and metadata types of the simulation. -/
abbrev Word32 : Type := Fin 4294967296

/-- The four bytes of a 32-bit value, least significant first. -/
def le32 (x : Int) : List Nat :=
  let u := (toSizeT x).toNat
  [u % 256, u / 256 % 256, u / 65536 % 256, u / 16777216 % 256]

/-- The unsigned value of the four bytes at offset `off` of `bs`, least significant first. -/
def ofLe32 (bs : List Nat) (off : Nat) : Nat :=
  (bs.getD off 0 % 256 + 256 * (bs.getD (off + 1) 0 % 256)
    + 65536 * (bs.getD (off + 2) 0 % 256) + 16777216 * (bs.getD (off + 3) 0 % 256))
    % 4294967296

/-- State of the simulated device. -/
structure SimFlash where
  mem : Int → Nat
  script : List Int

/-- Memory after erasing a page: all its bytes read 0xFF. -/
def simEraseMem (pageSize : Nat) (page : Int) (mem : Int → Nat) : Int → Nat :=
  fun a => if a / pageSize = page then 255 else mem a

/-- Memory after writing the first `cb` bytes of `src` at `dst`. -/
def simWriteMem (dst : Int) (src : List Nat) (cb : Int) (mem : Int → Nat) : Int → Nat :=
  fun a => if dst ≤ a ∧ a < dst + cb then src.getD (a - dst).toNat 0 else mem a

/-- One scripted primitive call: the next status code, and the effect when it is 0. -/
def simStep (effect : (Int → Nat) → Int → Nat) (f : SimFlash) : Int × SimFlash :=
  match f.script with
  | [] => (0, { mem := effect f.mem, script := [] })
  | rc :: rest => if rc = 0 then (0, { mem := effect f.mem, script := rest })
    else (rc, { mem := f.mem, script := rest })

/-- Insertion into a list of headers ordered by `flashWriteId`. -/
def insertHeader {M : Type} (less : FlashPageHeader M → FlashPageHeader M → Bool)
    (h : FlashPageHeader M) : List (FlashPageHeader M) → List (FlashPageHeader M)
  | [] => [h]
  | x :: xs => if less x h then x :: insertHeader less h xs else h :: x :: xs

/-- An implementation of `std::sort`: insertion sort. -/
def simSort {M : Type} (less : FlashPageHeader M → FlashPageHeader M → Bool) :
    List (FlashPageHeader M) → List (FlashPageHeader M)
  | [] => []
  | x :: xs => insertHeader less x (simSort less xs)

/-- The simulated platform with pages of `pageSize` bytes. -/
def simPlatform (pageSize : Nat) : Platform SimFlash Word32 Word32 where
  ADDRESS_OF_PAGE := fun page => page * pageSize
  PAGE_FROM_ADDRESS := fun a => a / pageSize
  flashPageErase := fun page f => simStep (simEraseMem pageSize page) f
  flashWriteBlock := fun dst src cb f => simStep (simWriteMem dst src cb) f
  load := fun f a => f.mem a
  sizeofHeader := 16
  sizeofData := 4
  headerBytes := fun h =>
    le32 h.pageNumber ++ le32 h.count ++ le32 h.flashWriteId ++ le32 h.metadata.val
  headerOfBytes := fun bs =>
    ⟨toInt32 (ofLe32 bs 0), toInt32 (ofLe32 bs 4), toInt32 (ofLe32 bs 8),
      Fin.ofNat (ofLe32 bs 12)⟩
  dataBytes := fun d => le32 d.val
  dataOfBytes := fun bs => Fin.ofNat (ofLe32 bs 0)
  stdSort := simSort

/-- A world over the simulated device whose memory reads `fill` everywhere, with the given
script of status codes, in which nothing has been called or logged yet. -/
def simWorld (fill : Nat) (script : List Int) : World SimFlash :=
  { flash := { mem := fun _ => fill, script := script }, calls := [], errors := [] }

/-- The simulated platform without a script: every primitive call succeeds, the device
state is the memory. -/
def idealPlatform (pageSize : Nat) : Platform (Int → Nat) Word32 Word32 where
  ADDRESS_OF_PAGE := fun page => page * pageSize
  PAGE_FROM_ADDRESS := fun a => a / pageSize
  flashPageErase := fun page mem => (0, simEraseMem pageSize page mem)
  flashWriteBlock := fun dst src cb mem => (0, simWriteMem dst src cb mem)
  load := fun mem a => mem a
  sizeofHeader := 16
  sizeofData := 4
  headerBytes := (simPlatform pageSize).headerBytes
  headerOfBytes := (simPlatform pageSize).headerOfBytes
  dataBytes := (simPlatform pageSize).dataBytes
  dataOfBytes := (simPlatform pageSize).dataOfBytes
  stdSort := simSort

/-- A world over the script-free device whose memory reads `fill` everywhere. -/
def idealWorld (fill : Nat) : World (Int → Nat) :=
  { flash := fun _ => fill, calls := [], errors := [] }

/-- A worn-out device: erases work, block writes report status 0 but store nothing. -/
def lossyPlatform (pageSize : Nat) : Platform (Int → Nat) Word32 Word32 :=
  { idealPlatform pageSize with flashWriteBlock := fun _ _ _ mem => (0, mem) }

/-! ## Concrete scenarios

The scenario of the specification: pages of 64 bytes, a 16-byte header and 4-byte records,
hence 12 records per page, over the two pages 0 and 1 of an erased flash. -/

/-- An erased simulated flash on which every primitive call succeeds. -/
def demoWorld : World SimFlash := simWorld 255 []

/-- The queue constructed over pages 0 and 1 of the erased flash. -/
def demoQueue : FlashQueue Word32 := (construct (simPlatform 64) 64 0 1 demoWorld).1

/-- Twelve records `a, a + 1, ..., a + 11`. -/
def demoRecords (a : Nat) : List Word32 := (List.range 12).map (fun i => Fin.ofNat (a + i))

/-- The scenario after writing records 0..11 (page A). -/
def demoAfterA : Bool × FlashQueue Word32 × World SimFlash :=
  flashWriteData (simPlatform 64) demoQueue (demoRecords 0) 0 demoWorld

/-- The scenario after writing records 12..23 as well (page B). -/
def demoAfterB : Bool × FlashQueue Word32 × World SimFlash :=
  flashWriteData (simPlatform 64) demoAfterA.2.1 (demoRecords 12) 0 demoAfterA.2.2

/-- The queue constructed over pages 0 and 1 of an erased flash of the worn-out device. -/
def lossyQueue : FlashQueue Word32 := (construct (lossyPlatform 64) 64 0 1 (idealWorld 255)).1

/-- A queue whose front page 0 holds 12 records and whose cursor is on the last of them. -/
def demoLastRecord : FlashQueue Word32 :=
  { DataPacketsPerFlashPage := 12, NumFlashPages := 2, LowestFlashPageNumber := 0,
    readDataPeekIndex := 11, dataFlashPages := [⟨0, 12, 0, 0⟩], emptyFlashPages := [1] }

/-- A flash with pages of 8 bytes, smaller than the 16-byte header, that holds at the
address of page 1 a header with page number 1 and one record. -/
def tinyPageWorld : World SimFlash :=
  { flash :=
      { mem := simWriteMem 8 ((simPlatform 8).headerBytes ⟨1, 1, 0, 0⟩) 16 (fun _ => 255)
        script := [] }
    calls := []
    errors := [] }

/-- The queue constructed over page 1 of the flash with 8-byte pages. -/
def tinyPageQueue : FlashQueue Word32 := (construct (simPlatform 8) 64 1 1 tinyPageWorld).1

/-- The flash left by two earlier sessions: a queue over page 1 alone wrote one page, then
a queue over page 2 alone wrote one page. -/
def twoSessionsWorld : World SimFlash :=
  (flashWriteData (simPlatform 64)
    (construct (simPlatform 64) 64 2 2
      (flashWriteData (simPlatform 64) (construct (simPlatform 64) 64 1 1 demoWorld).1
        (demoRecords 0) 0 demoWorld).2.2).1
    (demoRecords 12) 0
    (flashWriteData (simPlatform 64) (construct (simPlatform 64) 64 1 1 demoWorld).1
      (demoRecords 0) 0 demoWorld).2.2).2.2

/-- The queue constructed over pages 0 and 1 of an erased flash of the script-free device. -/
def idealQueue : FlashQueue Word32 := (construct (idealPlatform 64) 64 0 1 (idealWorld 255)).1

/-- The script-free scenario after writing records 0..11. -/
def idealAfterA : Bool × FlashQueue Word32 × World (Int → Nat) :=
  flashWriteData (idealPlatform 64) idealQueue (demoRecords 0) 0 (idealWorld 255)

/-- The script-free scenario after writing records 12..23 as well. -/
def idealAfterB : Bool × FlashQueue Word32 × World (Int → Nat) :=
  flashWriteData (idealPlatform 64) idealAfterA.2.1 (demoRecords 12) 0 idealAfterA.2.2

/-- The script-free scenario after page A was written and all its 12 records were
popped. -/
def idealDrainedA : List (Option Word32 × Bool) × FlashQueue Word32 × World (Int → Nat) :=
  drain (idealPlatform 64) 12 idealAfterA.2.1 idealAfterA.2.2

/-- The script-free scenario after a further page was written into the drained queue. -/
def idealRewritten : Bool × FlashQueue Word32 × World (Int → Nat) :=
  flashWriteData (idealPlatform 64) idealDrainedA.2.1 (demoRecords 24) 0 idealDrainedA.2.2

/-- The two-page scenario after page A was written and all its 12 records were popped. -/
def demoDrainedA : List (Option Word32 × Bool) × FlashQueue Word32 × World SimFlash :=
  drain (simPlatform 64) 12 demoAfterA.2.1 demoAfterA.2.2

/-- The queue constructed over pages 1 and 2 of an erased flash of the script-free
device. -/
def upperQueue : FlashQueue Word32 := (construct (idealPlatform 64) 64 1 2 (idealWorld 255)).1

/-- The scenario over pages 1 and 2 after one page was written and one record popped. -/
def upperMidQueue : Bool × FlashQueue Word32 × World (Int → Nat) :=
  flashPopDatum (idealPlatform 64)
    (flashWriteData (idealPlatform 64) upperQueue (demoRecords 0) 0 (idealWorld 255)).2.1
    (flashWriteData (idealPlatform 64) upperQueue (demoRecords 0) 0 (idealWorld 255)).2.2

/-- The queue constructed with `bytesPerFlashPage = 128` over pages 0 and 1 of an erased
flash whose pages have 64 bytes: 28 records per page are computed. -/
def misfitQueue : FlashQueue Word32 := (construct (idealPlatform 64) 128 0 1 (idealWorld 255)).1

/-- Twenty-eight records `0, 1, ..., 27`. -/
def misfitRecords : List Word32 := (List.range 28).map (fun i => Fin.ofNat i)

/-- The two arrays of the two-page scenario, with their metadata. -/
def demoItems : List (List Word32 × Word32) := [(demoRecords 0, 0), (demoRecords 12, 0)]

/-- The scenario over pages 1 and 2 of the scripted device in which the first write is
interrupted: the erase and the header write succeed, the payload write returns status 1. -/
def failedPayloadWrite : Bool × FlashQueue Word32 × World SimFlash :=
  flashWriteData (simPlatform 64) (construct (simPlatform 64) 64 1 2 (simWorld 255 [0, 0, 1])).1
    (demoRecords 0) 0 (simWorld 255 [0, 0, 1])

/-- The two-page scenario after page A was written and drained and a further page was
written. -/
def demoRewritten : Bool × FlashQueue Word32 × World SimFlash :=
  flashWriteData (simPlatform 64) demoDrainedA.2.1 (demoRecords 24) 0 demoDrainedA.2.2

/-- The flash left by a session constructed with `bytesPerFlashPage = 16` over pages 1 and
2 (no room for a record: DataPacketsPerFlashPage = 0) that wrote one page. -/
def headerOnlyWorld : World SimFlash :=
  (flashWriteData (simPlatform 64) (construct (simPlatform 64) 16 1 2 demoWorld).1 [] 0
    demoWorld).2.2

/-- The queue constructed with `bytesPerFlashPage = 8` over page 1 of an erased flash whose
pages have 8 bytes. -/
def spillQueue : FlashQueue Word32 := (construct (simPlatform 8) 8 1 1 demoWorld).1

/-- The write of the queue over 8-byte pages. -/
def spillWrite : Bool × FlashQueue Word32 × World SimFlash :=
  flashWriteData (simPlatform 8) spillQueue [] 0 demoWorld

/-! # Lemmas and theorems -/

section Basics

variable {F M D : Type}

theorem toInt32_of_isInt32 {x : Int} (h : IsInt32 x) : toInt32 x = x := by
  unfold IsInt32 at h
  unfold toInt32
  omega

theorem isInt32_toInt32 (x : Int) : IsInt32 (toInt32 x) := by
  unfold IsInt32 toInt32
  omega

theorem toInt32_succ_pred {i : Int} (h : IsInt32 i) : toInt32 (toInt32 (i + 1) - 1) = i := by
  unfold IsInt32 at h
  unfold toInt32
  omega

@[simp] theorem logError_flash (e : LogError) (w : World F) : (logError e w).flash = w.flash :=
  rfl

@[simp] theorem logError_calls (e : LogError) (w : World F) : (logError e w).calls = w.calls :=
  rfl

@[simp] theorem logError_errors (e : LogError) (w : World F) :
    (logError e w).errors = w.errors ++ [e] := rfl

/-- The possible outcomes of `eraseThenWriteFlashPage`, by the calls it issued. -/
theorem eraseThenWriteFlashPage_cases (env : Platform F M D) (page : Int) (header : List Nat)
    (nh : Int) (data : List Nat) (nd : Int) (w : World F) :
    let r := eraseThenWriteFlashPage env page header nh data nd w
    let e := env.flashPageErase page w.flash
    let h := env.flashWriteBlock (env.ADDRESS_OF_PAGE page) header nh e.2
    let d := env.flashWriteBlock (env.ADDRESS_OF_PAGE page + nh) data nd h.2
    (env.PAGE_FROM_ADDRESS (env.ADDRESS_OF_PAGE page + nh + nd - 1) ≠ page ∧
      r.1 = -1 ∧ r.2.flash = w.flash ∧ r.2.calls = w.calls ∧
      r.2.errors = w.errors ++ [LogError.invalidArguments]) ∨
    (env.PAGE_FROM_ADDRESS (env.ADDRESS_OF_PAGE page + nh + nd - 1) = page ∧ e.1 ≠ 0 ∧
      r.1 = e.1 ∧ r.2.flash = e.2 ∧ r.2.calls = w.calls ++ [FlashCall.erase page e.1] ∧
      ∃ es, r.2.errors = w.errors ++ es ∧
        ∀ x ∈ es, x = LogError.pageReserved ∨ x = LogError.pageUsedBySketch) ∨
    (env.PAGE_FROM_ADDRESS (env.ADDRESS_OF_PAGE page + nh + nd - 1) = page ∧ e.1 = 0 ∧
      (h.1 = 1 ∨ h.1 = 2) ∧
      r.1 = h.1 ∧ r.2.flash = h.2 ∧
      r.2.calls = w.calls ++ [FlashCall.erase page 0,
        FlashCall.write (env.ADDRESS_OF_PAGE page) header nh h.1] ∧
      ∃ es, r.2.errors = w.errors ++ es ∧
        ∀ x ∈ es, x = LogError.pageReserved ∨ x = LogError.pageUsedBySketch) ∨
    (env.PAGE_FROM_ADDRESS (env.ADDRESS_OF_PAGE page + nh + nd - 1) = page ∧ e.1 = 0 ∧
      h.1 ≠ 1 ∧ h.1 ≠ 2 ∧
      r.1 = d.1 ∧ r.2.flash = d.2 ∧
      r.2.calls = w.calls ++ [FlashCall.erase page 0,
        FlashCall.write (env.ADDRESS_OF_PAGE page) header nh h.1,
        FlashCall.write (env.ADDRESS_OF_PAGE page + nh) data nd d.1] ∧
      ∃ es, r.2.errors = w.errors ++ es ∧
        ∀ x ∈ es, x = LogError.pageReserved ∨ x = LogError.pageUsedBySketch) := by
  intro r e h d
  by_cases hb : env.PAGE_FROM_ADDRESS (env.ADDRESS_OF_PAGE page + nh + nd - 1) = page
  · right
    by_cases he : e.1 = 0
    · right
      have he0 : (env.flashPageErase page w.flash).1 = 0 := he
      by_cases hh : h.1 = 1 ∨ h.1 = 2
      · left
        have hh0 : (env.flashWriteBlock (env.ADDRESS_OF_PAGE page) header nh
            (env.flashPageErase page w.flash).2).1 = 1 ∨
            (env.flashWriteBlock (env.ADDRESS_OF_PAGE page) header nh
            (env.flashPageErase page w.flash).2).1 = 2 := hh
        refine ⟨hb, he, hh, ?_⟩
        rcases hh0 with h1 | h2
        · simp [r, h, e, eraseThenWriteFlashPage, hb, eraseFlashPage, callFlashPageErase,
            callFlashWriteBlock, he0, h1]
        · simp [r, h, e, eraseThenWriteFlashPage, hb, eraseFlashPage, callFlashPageErase,
            callFlashWriteBlock, he0, h2]
      · right
        push_neg at hh
        have hh1 : ¬ (env.flashWriteBlock (env.ADDRESS_OF_PAGE page) header nh
            (env.flashPageErase page w.flash).2).1 = 1 := hh.1
        have hh2 : ¬ (env.flashWriteBlock (env.ADDRESS_OF_PAGE page) header nh
            (env.flashPageErase page w.flash).2).1 = 2 := hh.2
        refine ⟨hb, he, hh.1, hh.2, ?_⟩
        by_cases hd1 : d.1 = 1
        · have hd1a : (env.flashWriteBlock (env.ADDRESS_OF_PAGE page + nh) data nd
            (env.flashWriteBlock (env.ADDRESS_OF_PAGE page) header nh
              (env.flashPageErase page w.flash).2).2).1 = 1 := hd1
          simp [r, h, e, d, eraseThenWriteFlashPage, hb, eraseFlashPage, callFlashPageErase,
            callFlashWriteBlock, he0, hh1, hh2, hd1a]
        · have hd1a : ¬ (env.flashWriteBlock (env.ADDRESS_OF_PAGE page + nh) data nd
            (env.flashWriteBlock (env.ADDRESS_OF_PAGE page) header nh
              (env.flashPageErase page w.flash).2).2).1 = 1 := hd1
          by_cases hd2 : d.1 = 2
          · have hd2a : (env.flashWriteBlock (env.ADDRESS_OF_PAGE page + nh) data nd
              (env.flashWriteBlock (env.ADDRESS_OF_PAGE page) header nh
                (env.flashPageErase page w.flash).2).2).1 = 2 := hd2
            simp [r, h, e, d, eraseThenWriteFlashPage, hb, eraseFlashPage, callFlashPageErase,
              callFlashWriteBlock, he0, hh1, hh2, hd2a]
          · have hd2a : ¬ (env.flashWriteBlock (env.ADDRESS_OF_PAGE page + nh) data nd
              (env.flashWriteBlock (env.ADDRESS_OF_PAGE page) header nh
                (env.flashPageErase page w.flash).2).2).1 = 2 := hd2
            simp [r, h, e, d, eraseThenWriteFlashPage, hb, eraseFlashPage, callFlashPageErase,
              callFlashWriteBlock, he0, hh1, hh2, hd1a, hd2a]
    · left
      have he0 : ¬ (env.flashPageErase page w.flash).1 = 0 := he
      refine ⟨hb, he, ?_⟩
      by_cases he1 : (env.flashPageErase page w.flash).1 = 1
      · simp [r, e, eraseThenWriteFlashPage, hb, eraseFlashPage, callFlashPageErase, he1]
      · by_cases he2 : (env.flashPageErase page w.flash).1 = 2
        · simp [r, e, eraseThenWriteFlashPage, hb, eraseFlashPage, callFlashPageErase, he2]
        · simp [r, e, eraseThenWriteFlashPage, hb, eraseFlashPage, callFlashPageErase, he0,
            he1, he2]
  · left
    refine ⟨hb, ?_⟩
    simp [r, eraseThenWriteFlashPage, hb]

end Basics

section LocalBehaviour

variable {F M D : Type}

/-- The error messages `eraseThenWriteFlashPage` can log. -/
theorem eraseThenWriteFlashPage_errors (env : Platform F M D) (page : Int) (header : List Nat)
    (nh : Int) (data : List Nat) (nd : Int) (w : World F) :
    ∃ es, (eraseThenWriteFlashPage env page header nh data nd w).2.errors = w.errors ++ es ∧
      ∀ e ∈ es, e = LogError.pageReserved ∨ e = LogError.pageUsedBySketch ∨
        e = LogError.invalidArguments := by
  rcases eraseThenWriteFlashPage_cases env page header nh data nd w with
    h | h | h | h
  · exact ⟨[LogError.invalidArguments], h.2.2.2.2, by simp⟩
  · obtain ⟨es, h1, h2⟩ := h.2.2.2.2.2
    exact ⟨es, h1, fun e he => by rcases h2 e he with h3 | h3 <;> simp [h3]⟩
  · obtain ⟨es, h1, h2⟩ := h.2.2.2.2.2.2
    exact ⟨es, h1, fun e he => by rcases h2 e he with h3 | h3 <;> simp [h3]⟩
  · obtain ⟨es, h1, h2⟩ := h.2.2.2.2.2.2.2
    exact ⟨es, h1, fun e he => by rcases h2 e he with h3 | h3 <;> simp [h3]⟩

theorem eraseThenWriteFlashPage_calls (env : Platform F M D) (page : Int) (header : List Nat)
    (nh : Int) (data : List Nat) (nd : Int) (w : World F) :
    ∃ cs, (eraseThenWriteFlashPage env page header nh data nd w).2.calls = w.calls ++ cs := by
  rcases eraseThenWriteFlashPage_cases env page header nh data nd w with
    h | h | h | h
  · exact ⟨[], by simpa using h.2.2.2.1⟩
  · exact ⟨_, h.2.2.2.2.1⟩
  · exact ⟨_, h.2.2.2.2.2.1⟩
  · exact ⟨_, h.2.2.2.2.2.2.1⟩

theorem flashWriteData_nil (env : Platform F M D) (q : FlashQueue M) (data : List D)
    (metadata : M) (w : World F) (h : q.emptyFlashPages = []) :
    flashWriteData env q data metadata w = (false, q, logError LogError.noMoreSpace w) := by
  simp [flashWriteData, h]

theorem flashWriteData_cons (env : Platform F M D) (q : FlashQueue M) (data : List D)
    (metadata : M) (w : World F) (page : Int) (rest : List Int)
    (h : q.emptyFlashPages = page :: rest) :
    flashWriteData env q data metadata w =
      (let r := writeDataPacketsToFlashPage env page (nextWriteId q) metadata data
          q.DataPacketsPerFlashPage w
       if r.1 = false then (false, q, logError LogError.failedWritingData r.2)
       else if page ≠ (readHeader env r.2.flash page).pageNumber then
         (false, q, logError LogError.unknownWriteError r.2)
       else (true, { q with emptyFlashPages := rest
                            dataFlashPages :=
                              q.dataFlashPages ++ [readHeader env r.2.flash page] }, r.2)) := by
  simp only [flashWriteData, h, nextWriteId]

theorem flashPopDatum_nil (env : Platform F M D) (q : FlashQueue M) (w : World F)
    (h : q.dataFlashPages = []) :
    flashPopDatum env q w = (false, q, logError LogError.noFlashDataToPop w) := by
  simp [flashPopDatum, h]

theorem flashPopDatum_cons (env : Platform F M D) (q : FlashQueue M) (w : World F)
    (front : FlashPageHeader M) (rest : List (FlashPageHeader M))
    (h : q.dataFlashPages = front :: rest) :
    flashPopDatum env q w =
      (if toInt32 (q.readDataPeekIndex + 1) < front.count then
         (true, { q with readDataPeekIndex := toInt32 (q.readDataPeekIndex + 1) }, w)
       else if (clearFlashPage env front.pageNumber w).1 = true then
         (true, { q with readDataPeekIndex := 0
                         dataFlashPages := rest
                         emptyFlashPages := q.emptyFlashPages ++ [front.pageNumber] },
           (clearFlashPage env front.pageNumber w).2)
       else
         (false, { q with readDataPeekIndex :=
                     toInt32 (toInt32 (q.readDataPeekIndex + 1) - 1) },
           logError LogError.errorErasingPage (clearFlashPage env front.pageNumber w).2)) := by
  simp only [flashPopDatum, h]

end LocalBehaviour

section WriteBoundary

variable {F M D : Type}

theorem writeDataPacketsToFlashPage_errors (env : Platform F M D) (page id : Int)
    (metadata : M) (data : List D) (n : Int) (w : World F) :
    ∃ es, (writeDataPacketsToFlashPage env page id metadata data n w).2.errors
        = w.errors ++ es ∧
      ∀ e ∈ es, e = LogError.pageReserved ∨ e = LogError.pageUsedBySketch ∨
        e = LogError.invalidArguments :=
  eraseThenWriteFlashPage_errors env page _ _ _ _ w

theorem clearFlashPage_errors (env : Platform F M D) (page : Int) (w : World F) :
    ∃ es, (clearFlashPage env page w).2.errors = w.errors ++ es ∧
      ∀ e ∈ es, e = LogError.pageReserved ∨ e = LogError.pageUsedBySketch ∨
        e = LogError.invalidArguments :=
  eraseThenWriteFlashPage_errors env page _ _ _ _ w

/-- What `flashWriteData` logs when the pool is not empty. -/
theorem flashWriteData_cons_errors (env : Platform F M D) (q : FlashQueue M) (data : List D)
    (metadata : M) (w : World F) (page : Int) (rest : List Int)
    (h : q.emptyFlashPages = page :: rest) :
    ∃ es, (flashWriteData env q data metadata w).2.2.errors = w.errors ++ es ∧
      LogError.noMoreSpace ∉ es := by
  obtain ⟨es, h1, h2⟩ := writeDataPacketsToFlashPage_errors env page (nextWriteId q) metadata
    data q.DataPacketsPerFlashPage w
  have hno : LogError.noMoreSpace ∉ es := fun hm => by
    rcases h2 _ hm with h3 | h3 | h3 <;> cases h3
  rw [flashWriteData_cons env q data metadata w page rest h]
  dsimp only
  split_ifs
  · exact ⟨es ++ [LogError.failedWritingData], by simp [h1], by simp [hno]⟩
  · exact ⟨es ++ [LogError.unknownWriteError], by simp [h1], by simp [hno]⟩
  · exact ⟨es, h1, hno⟩

theorem flashWriteData_cons_world (env : Platform F M D) (q : FlashQueue M) (data : List D)
    (metadata : M) (w : World F) (page : Int) (rest : List Int)
    (h : q.emptyFlashPages = page :: rest) :
    (flashWriteData env q data metadata w).2.2.calls =
      (writeDataPacketsToFlashPage env page (nextWriteId q) metadata data
        q.DataPacketsPerFlashPage w).2.calls ∧
    (flashWriteData env q data metadata w).2.2.flash =
      (writeDataPacketsToFlashPage env page (nextWriteId q) metadata data
        q.DataPacketsPerFlashPage w).2.flash := by
  rw [flashWriteData_cons env q data metadata w page rest h]
  dsimp only
  split_ifs <;> simp

theorem flashWriteData_cons_result (env : Platform F M D) (q : FlashQueue M) (data : List D)
    (metadata : M) (w : World F) (page : Int) (rest : List Int)
    (h : q.emptyFlashPages = page :: rest) :
    (flashWriteData env q data metadata w).1 = true ↔
      ((writeDataPacketsToFlashPage env page (nextWriteId q) metadata data
        q.DataPacketsPerFlashPage w).1 = true ∧
       page = (readHeader env (writeDataPacketsToFlashPage env page (nextWriteId q) metadata
        data q.DataPacketsPerFlashPage w).2.flash page).pageNumber) := by
  rw [flashWriteData_cons env q data metadata w page rest h]
  dsimp only
  split_ifs with h1 h2
  · simp [h1]
  · simp [h2]
  · simp only [ne_eq, not_not] at h2
    simp only [Bool.not_eq_false] at h1
    simp [h1, ← h2]

theorem callsSince_append (w w2 : World F) (cs : List FlashCall)
    (h : w2.calls = w.calls ++ cs) : callsSince w w2 = cs := by
  simp [callsSince, h]

/-- When `eraseThenWriteFlashPage` issued exactly three calls, all with status 0, it
returned 0. -/
theorem eraseThenWriteFlashPage_three_ok (env : Platform F M D) (page : Int)
    (header : List Nat) (nh : Int) (data : List Nat) (nd : Int) (w : World F)
    (p0 a1 n1 a2 n2 : Int) (s1 s2 : List Nat)
    (h : callsSince w (eraseThenWriteFlashPage env page header nh data nd w).2 =
      [FlashCall.erase p0 0, FlashCall.write a1 s1 n1 0, FlashCall.write a2 s2 n2 0]) :
    (eraseThenWriteFlashPage env page header nh data nd w).1 = 0 := by
  rcases eraseThenWriteFlashPage_cases env page header nh data nd w with
    hc | hc | hc | hc
  · rw [callsSince_append w _ [] (by simpa using hc.2.2.2.1)] at h
    cases h
  · rw [callsSince_append w _ _ hc.2.2.2.2.1] at h
    simp at h
  · rw [callsSince_append w _ _ hc.2.2.2.2.2.1] at h
    simp at h
  · rw [callsSince_append w _ _ hc.2.2.2.2.2.2.1] at h
    simp only [List.cons.injEq, FlashCall.erase.injEq, FlashCall.write.injEq] at h
    rw [hc.2.2.2.2.1]
    exact h.2.2.1.2.2.2

/-- Claim C5.  No-space boundary of `flashWriteData`: the pool is empty exactly when
`flashStorageFull` is true and exactly when the call logs the no-space error; in that case
the call returns false, issues no primitive call, and leaves the flash and the whole queue
object (both deques and the peek cursor) unchanged; when the pool is not empty and the call
issued a successful erase and two successful block writes and the header read back carries
the page number, the call returns true. -/
theorem flashWriteData_no_space_boundary (env : Platform F M D) (q : FlashQueue M)
    (data : List D) (metadata : M) (w : World F) :
    (flashStorageFull q = true ↔ q.emptyFlashPages = []) ∧
    (LogError.noMoreSpace ∈ errorsSince w (flashWriteData env q data metadata w).2.2 ↔
      q.emptyFlashPages = []) ∧
    (q.emptyFlashPages = [] →
      (flashWriteData env q data metadata w).1 = false ∧
      (flashWriteData env q data metadata w).2.1 = q ∧
      callsSince w (flashWriteData env q data metadata w).2.2 = [] ∧
      (flashWriteData env q data metadata w).2.2.calls = w.calls ∧
      (flashWriteData env q data metadata w).2.2.flash = w.flash) ∧
    (∀ page rest a1 s1 n1 a2 s2 n2, q.emptyFlashPages = page :: rest →
      callsSince w (flashWriteData env q data metadata w).2.2 =
        [FlashCall.erase page 0, FlashCall.write a1 s1 n1 0, FlashCall.write a2 s2 n2 0] →
      (readHeader env (flashWriteData env q data metadata w).2.2.flash page).pageNumber = page →
      (flashWriteData env q data metadata w).1 = true) := by
  refine ⟨?_, ?_, ?_, ?_⟩
  · simp [flashStorageFull]
  · constructor
    · intro hmem
      cases hq : q.emptyFlashPages with
      | nil => rfl
      | cons page rest =>
        exfalso
        obtain ⟨es, h1, h2⟩ := flashWriteData_cons_errors env q data metadata w page rest hq
        rw [errorsSince, h1] at hmem
        simp at hmem
        exact h2 hmem
    · intro hq
      rw [flashWriteData_nil env q data metadata w hq]
      simp [errorsSince]
  · intro hq
    rw [flashWriteData_nil env q data metadata w hq]
    simp [callsSince]
  · intro page rest a1 s1 n1 a2 s2 n2 hq hcalls hver
    obtain ⟨hc, hf⟩ := flashWriteData_cons_world env q data metadata w page rest hq
    rw [hf] at hver
    have hcalls2 : callsSince w (writeDataPacketsToFlashPage env page (nextWriteId q)
        metadata data q.DataPacketsPerFlashPage w).2 =
        [FlashCall.erase page 0, FlashCall.write a1 s1 n1 0, FlashCall.write a2 s2 n2 0] := by
      rw [← hcalls]
      simp only [callsSince, hc]
    rw [flashWriteData_cons_result env q data metadata w page rest hq]
    refine ⟨?_, hver.symm⟩
    have h0 := eraseThenWriteFlashPage_three_ok env page _ _ _ _ w _ _ _ _ _ _ _ hcalls2
    simp only [writeDataPacketsToFlashPage]
    simpa using h0

end WriteBoundary

section PopBoundary

variable {F M D : Type}

/-- What `flashPopDatum` logs when the queue is not empty. -/
theorem flashPopDatum_cons_errors (env : Platform F M D) (q : FlashQueue M) (w : World F)
    (front : FlashPageHeader M) (rest : List (FlashPageHeader M))
    (h : q.dataFlashPages = front :: rest) :
    ∃ es, (flashPopDatum env q w).2.2.errors = w.errors ++ es ∧
      LogError.noFlashDataToPop ∉ es := by
  obtain ⟨es, h1, h2⟩ := clearFlashPage_errors env front.pageNumber w
  have hno : LogError.noFlashDataToPop ∉ es := fun hm => by
    rcases h2 _ hm with h3 | h3 | h3 <;> cases h3
  rw [flashPopDatum_cons env q w front rest h]
  split_ifs
  · exact ⟨[], by simp, by simp⟩
  · exact ⟨es, h1, hno⟩
  · exact ⟨es ++ [LogError.errorErasingPage], by simp [h1], by simp [hno]⟩

/-- Claim C6.  Empty boundary of `flashPopDatum`: the queue is empty exactly when
`flashDataAvailable` is false and exactly when the call logs the nothing-to-pop error (so a
non-empty queue never takes the empty-failure branch); on an empty queue the call returns
false, issues no primitive call, and leaves the flash and the whole queue object (peek
cursor and both deques) unchanged. -/
theorem flashPopDatum_empty_boundary (env : Platform F M D) (q : FlashQueue M)
    (w : World F) :
    (flashDataAvailable q = false ↔ q.dataFlashPages = []) ∧
    (LogError.noFlashDataToPop ∈ errorsSince w (flashPopDatum env q w).2.2 ↔
      q.dataFlashPages = []) ∧
    (q.dataFlashPages = [] →
      (flashPopDatum env q w).1 = false ∧
      (flashPopDatum env q w).2.1 = q ∧
      callsSince w (flashPopDatum env q w).2.2 = [] ∧
      (flashPopDatum env q w).2.2.calls = w.calls ∧
      (flashPopDatum env q w).2.2.flash = w.flash) := by
  refine ⟨?_, ?_, ?_⟩
  · simp [flashDataAvailable]
  · constructor
    · intro hmem
      cases hq : q.dataFlashPages with
      | nil => rfl
      | cons front rest =>
        exfalso
        obtain ⟨es, h1, h2⟩ := flashPopDatum_cons_errors env q w front rest hq
        rw [errorsSince, h1] at hmem
        simp at hmem
        exact h2 hmem
    · intro hq
      rw [flashPopDatum_nil env q w hq]
      simp [errorsSince]
  · intro hq
    rw [flashPopDatum_nil env q w hq]
    simp [callsSince]

/-- Claim C7.  Atomicity of a failed write: whenever `flashWriteData` returns false, for
whatever reason, the queue object after the call (dataFlashPages, emptyFlashPages, the peek
cursor and the constants) equals the queue object before the call. -/
theorem flashWriteData_failure_atomic (env : Platform F M D) (q : FlashQueue M)
    (data : List D) (metadata : M) (w : World F)
    (hfail : (flashWriteData env q data metadata w).1 = false) :
    (flashWriteData env q data metadata w).2.1 = q := by
  cases hq : q.emptyFlashPages with
  | nil => rw [flashWriteData_nil env q data metadata w hq]
  | cons page rest =>
    rw [flashWriteData_cons env q data metadata w page rest hq] at hfail ⊢
    dsimp only at hfail ⊢
    split_ifs at hfail ⊢ <;> simp_all

/-- Claim C8, as amended.  When the header read back after the write does not carry the
target page number, `flashWriteData` returns false, logs the unknown-write-error message
and leaves the queue object unchanged: the target page is still the front of
emptyFlashPages, and dataFlashPages has gained nothing. -/
theorem flashWriteData_verification_failure (env : Platform F M D) (q : FlashQueue M)
    (data : List D) (metadata : M) (w : World F) (page : Int) (rest : List Int)
    (hq : q.emptyFlashPages = page :: rest)
    (hwritten : (writeDataPacketsToFlashPage env page (nextWriteId q) metadata data
      q.DataPacketsPerFlashPage w).1 = true)
    (hverify : (readHeader env (writeDataPacketsToFlashPage env page (nextWriteId q) metadata
      data q.DataPacketsPerFlashPage w).2.flash page).pageNumber ≠ page) :
    (flashWriteData env q data metadata w).1 = false ∧
    (flashWriteData env q data metadata w).2.1 = q ∧
    (flashWriteData env q data metadata w).2.1.emptyFlashPages.head? = some page ∧
    (flashWriteData env q data metadata w).2.1.dataFlashPages = q.dataFlashPages ∧
    LogError.unknownWriteError ∈ errorsSince w (flashWriteData env q data metadata w).2.2 := by
  obtain ⟨es, h1, -⟩ := writeDataPacketsToFlashPage_errors env page (nextWriteId q) metadata
    data q.DataPacketsPerFlashPage w
  rw [flashWriteData_cons env q data metadata w page rest hq]
  dsimp only
  rw [if_neg (by simp [hwritten]), if_pos (fun h => hverify h.symm)]
  simp [hq, errorsSince, h1]

/-- Claim C9.  Pop rollback: on a non-empty queue whose cursor `i` is on the last record of
the front page (`count ≤ i + 1`, with `i` and `i + 1` values of type int), when
`clearFlashPage` fails the call returns false and the queue object (peek cursor,
dataFlashPages, emptyFlashPages) equals its value before the call; a following
`flashPopDatum`, in any world, again calls `clearFlashPage` on the same page: it issues the
calls of that clear and succeeds exactly when the clear succeeds. -/
theorem flashPopDatum_rollback (env : Platform F M D) (q : FlashQueue M) (w : World F)
    (front : FlashPageHeader M) (rest : List (FlashPageHeader M))
    (hq : q.dataFlashPages = front :: rest)
    (hi : IsInt32 q.readDataPeekIndex) (hi1 : IsInt32 (q.readDataPeekIndex + 1))
    (hlast : front.count ≤ q.readDataPeekIndex + 1)
    (hclear : (clearFlashPage env front.pageNumber w).1 = false) :
    (flashPopDatum env q w).1 = false ∧
    (flashPopDatum env q w).2.1 = q ∧
    ∀ w2 : World F,
      (flashPopDatum env (flashPopDatum env q w).2.1 w2).1
        = (clearFlashPage env front.pageNumber w2).1 ∧
      (flashPopDatum env (flashPopDatum env q w).2.1 w2).2.2.calls
        = (clearFlashPage env front.pageNumber w2).2.calls := by
  have hnot : ¬ toInt32 (q.readDataPeekIndex + 1) < front.count := by
    rw [toInt32_of_isInt32 hi1]
    omega
  have hsame : (flashPopDatum env q w).2.1 = q := by
    rw [flashPopDatum_cons env q w front rest hq, if_neg hnot, if_neg (by simp [hclear])]
    simp only [toInt32_succ_pred hi]
  refine ⟨?_, hsame, ?_⟩
  · rw [flashPopDatum_cons env q w front rest hq, if_neg hnot, if_neg (by simp [hclear])]
  · intro w2
    rw [hsame, flashPopDatum_cons env q w2 front rest hq, if_neg hnot]
    split_ifs with h2
    · simp [h2]
    · simp only [Bool.not_eq_true] at h2
      simp [h2]

/-- Claim C10, as amended.  Deferred erase: for a non-empty queue with front page count `c`
and peek cursor `i` (with `i + 1` a value of type int), if `i + 1 < c` then `flashPopDatum`
returns true, changes only the cursor (to `i + 1`), and issues no primitive call and leaves
the flash as it was; if `c ≤ i + 1` then `flashPopDatum` calls `clearFlashPage` on the front
page: when the bounds check accepts the header (its last byte lies in that page) the first
call issued is the flash erase of the front page's page number, and when the bounds check
rejects it no call is issued and the pop returns false. -/
theorem flashPopDatum_deferred_erase (env : Platform F M D) (q : FlashQueue M) (w : World F)
    (front : FlashPageHeader M) (rest : List (FlashPageHeader M))
    (hq : q.dataFlashPages = front :: rest)
    (hi1 : IsInt32 (q.readDataPeekIndex + 1)) :
    (q.readDataPeekIndex + 1 < front.count →
      (flashPopDatum env q w).1 = true ∧
      (flashPopDatum env q w).2.1 = { q with readDataPeekIndex := q.readDataPeekIndex + 1 } ∧
      (flashPopDatum env q w).2.2 = w ∧
      callsSince w (flashPopDatum env q w).2.2 = []) ∧
    (front.count ≤ q.readDataPeekIndex + 1 →
      (env.PAGE_FROM_ADDRESS (env.ADDRESS_OF_PAGE front.pageNumber
          + toInt32 env.sizeofHeader + 0 - 1) = front.pageNumber →
        ∃ rc cs, callsSince w (flashPopDatum env q w).2.2
          = FlashCall.erase front.pageNumber rc :: cs) ∧
      (env.PAGE_FROM_ADDRESS (env.ADDRESS_OF_PAGE front.pageNumber
          + toInt32 env.sizeofHeader + 0 - 1) ≠ front.pageNumber →
        (flashPopDatum env q w).1 = false ∧
        callsSince w (flashPopDatum env q w).2.2 = [])) := by
  rw [flashPopDatum_cons env q w front rest hq, toInt32_of_isInt32 hi1]
  constructor
  · intro hlt
    rw [if_pos hlt]
    simp [callsSince]
  · intro hge
    have hnot : ¬ q.readDataPeekIndex + 1 < front.count := by omega
    rw [if_neg hnot]
    have hworld : ∀ (x y : Bool × FlashQueue M × World F),
        x.2.2.calls = (clearFlashPage env front.pageNumber w).2.calls →
        y.2.2.calls = (clearFlashPage env front.pageNumber w).2.calls →
        callsSince w (if (clearFlashPage env front.pageNumber w).1 = true then x else y).2.2
          = callsSince w (clearFlashPage env front.pageNumber w).2 := by
      intro x y hx hy
      split_ifs <;> simp [callsSince, hx, hy]
    rw [hworld _ _ rfl rfl]
    rcases eraseThenWriteFlashPage_cases env front.pageNumber
        (List.replicate env.sizeofHeader 0) (toInt32 env.sizeofHeader) [] 0 w with
      hc | hc | hc | hc
    · refine ⟨fun hfit => absurd hfit hc.1, fun _ => ?_⟩
      have hrc : (clearFlashPage env front.pageNumber w).1 = false := by
        simp [clearFlashPage, hc.2.1]
      rw [if_neg (by simp [hrc])]
      refine ⟨rfl, ?_⟩
      exact callsSince_append w _ [] (by simpa [clearFlashPage] using hc.2.2.2.1)
    · refine ⟨fun _ => ⟨_, _, callsSince_append w _ _ hc.2.2.2.2.1⟩,
        fun hfit => absurd hc.1 hfit⟩
    · refine ⟨fun _ => ⟨_, _, callsSince_append w _ _ hc.2.2.2.2.2.1⟩,
        fun hfit => absurd hc.1 hfit⟩
    · refine ⟨fun _ => ⟨_, _, callsSince_append w _ _ hc.2.2.2.2.2.2.1⟩,
        fun hfit => absurd hc.1 hfit⟩

end PopBoundary

section LocalWitnesses

/-- Witness for C5 on the two-page scenario: with both pages written the pool is empty and
a third write fails; on the fresh queue the write goes through. -/
theorem flashWriteData_no_space_boundary_witness :
    (demoAfterB.2.1.emptyFlashPages = [] ∧
      (flashWriteData (simPlatform 64) demoAfterB.2.1 (demoRecords 24) 0 demoAfterB.2.2).1
        = false) ∧
    (demoQueue.emptyFlashPages = [0, 1] ∧
      (flashWriteData (simPlatform 64) demoQueue (demoRecords 0) 0 demoWorld).1 = true) :=
  ⟨⟨by decide,
    ((flashWriteData_no_space_boundary (simPlatform 64) demoAfterB.2.1 (demoRecords 24) 0
      demoAfterB.2.2).2.2.1 (by decide)).1⟩,
   ⟨by decide,
    (flashWriteData_no_space_boundary (simPlatform 64) demoQueue (demoRecords 0) 0
      demoWorld).2.2.2 0 [1] 0 ((simPlatform 64).headerBytes ⟨0, 12, 0, 0⟩) 16 16
      (((demoRecords 0).map (simPlatform 64).dataBytes).flatten) 48
      (by decide) (by decide) (by decide)⟩⟩

/-- Witness for C6: popping the freshly constructed, empty queue fails. -/
theorem flashPopDatum_empty_boundary_witness :
    demoQueue.dataFlashPages = [] ∧
    (flashPopDatum (simPlatform 64) demoQueue demoWorld).1 = false :=
  ⟨by decide,
    ((flashPopDatum_empty_boundary (simPlatform 64) demoQueue demoWorld).2.2 (by decide)).1⟩

/-- Witness for C7: a write whose page erase returns status 1 fails and leaves the queue as
it was. -/
theorem flashWriteData_failure_atomic_witness :
    (flashWriteData (simPlatform 64) demoQueue (demoRecords 0) 0 (simWorld 255 [1])).1 = false ∧
    (flashWriteData (simPlatform 64) demoQueue (demoRecords 0) 0 (simWorld 255 [1])).2.1
      = demoQueue :=
  ⟨by decide,
    flashWriteData_failure_atomic (simPlatform 64) demoQueue (demoRecords 0) 0
      (simWorld 255 [1]) (by decide)⟩

/-- Counterexample to C8 as stated: on a worn-out flash whose block writes report success
without storing anything, the write to page 0 passes `writeDataPacketsToFlashPage`, the
header read back from page 0 does not carry page number 0, the call returns false with the
unknown-write-error message, and page 0 is still in emptyFlashPages (at its front). -/
theorem flashWriteData_verification_leak_counterexample :
    lossyQueue.emptyFlashPages = [0, 1] ∧
    (writeDataPacketsToFlashPage (lossyPlatform 64) 0 (nextWriteId lossyQueue) 0
      (demoRecords 0) lossyQueue.DataPacketsPerFlashPage (idealWorld 255)).1 = true ∧
    (readHeader (lossyPlatform 64)
      (flashWriteData (lossyPlatform 64) lossyQueue (demoRecords 0) 0
        (idealWorld 255)).2.2.flash 0).pageNumber ≠ 0 ∧
    (flashWriteData (lossyPlatform 64) lossyQueue (demoRecords 0) 0 (idealWorld 255)).1
      = false ∧
    (flashWriteData (lossyPlatform 64) lossyQueue (demoRecords 0) 0
      (idealWorld 255)).2.2.errors = [LogError.unknownWriteError] ∧
    (0 : Int) ∈ (flashWriteData (lossyPlatform 64) lossyQueue (demoRecords 0) 0
      (idealWorld 255)).2.1.emptyFlashPages := by
  decide

/-- Witness for the amended C8 on the same run. -/
theorem flashWriteData_verification_failure_witness :
    (flashWriteData (lossyPlatform 64) lossyQueue (demoRecords 0) 0
      (idealWorld 255)).2.1.emptyFlashPages.head? = some 0 :=
  (flashWriteData_verification_failure (lossyPlatform 64) lossyQueue (demoRecords 0) 0
    (idealWorld 255) 0 [1] (by decide) (by decide) (by decide)).2.2.1

/-- Witness for C9: the cursor is on the last record of page 0 and the erase returns
status 1. -/
theorem flashPopDatum_rollback_witness :
    (flashPopDatum (simPlatform 64) demoLastRecord (simWorld 255 [1])).1 = false ∧
    (flashPopDatum (simPlatform 64) demoLastRecord (simWorld 255 [1])).2.1 = demoLastRecord :=
  ⟨(flashPopDatum_rollback (simPlatform 64) demoLastRecord (simWorld 255 [1]) ⟨0, 12, 0, 0⟩ []
      (by decide) (by decide) (by decide) (by decide) (by decide)).1,
   (flashPopDatum_rollback (simPlatform 64) demoLastRecord (simWorld 255 [1]) ⟨0, 12, 0, 0⟩ []
      (by decide) (by decide) (by decide) (by decide) (by decide)).2.1⟩

/-- Counterexample to C10 as stated: on a platform whose pages (8 bytes) cannot hold the
16-byte header, the queue constructed over page 1 has that page at its front with count 1
and cursor 0, so the cursor is on the last record; `flashPopDatum` issues no erase at all,
because the bounds check rejects the clear, and returns false. -/
theorem flashPopDatum_deferred_erase_counterexample :
    tinyPageQueue.dataFlashPages = [⟨1, 1, 0, 0⟩] ∧
    tinyPageQueue.readDataPeekIndex = 0 ∧
    (flashPopDatum (simPlatform 8) tinyPageQueue tinyPageWorld).1 = false ∧
    (flashPopDatum (simPlatform 8) tinyPageQueue tinyPageWorld).2.2.calls = [] := by
  decide

/-- Witness for the amended C10: in the two-page scenario the first pop only moves the
cursor, and with the cursor on the last record the pop starts with the erase of page 0. -/
theorem flashPopDatum_deferred_erase_witness :
    (flashPopDatum (simPlatform 64) demoAfterA.2.1 demoAfterA.2.2).2.1.readDataPeekIndex = 1 ∧
    ∃ rc cs, callsSince demoWorld (flashPopDatum (simPlatform 64) demoLastRecord demoWorld).2.2
      = FlashCall.erase 0 rc :: cs :=
  ⟨by
    rw [((flashPopDatum_deferred_erase (simPlatform 64) demoAfterA.2.1 demoAfterA.2.2
      ⟨0, 12, 0, 0⟩ [] (by decide) (by decide)).1 (by decide)).2.1]
    decide,
   ((flashPopDatum_deferred_erase (simPlatform 64) demoLastRecord demoWorld
      ⟨0, 12, 0, 0⟩ [] (by decide) (by decide)).2 (by decide)).1 (by decide)⟩

end LocalWitnesses

section Scan

variable {F M D : Type}

theorem pagesFrom_zero (page : Int) : pagesFrom page 0 = [] := rfl

theorem pagesFrom_succ (page : Int) (n : Nat) :
    pagesFrom page (n + 1) = page :: pagesFrom (page + 1) n := by
  simp only [pagesFrom, List.range_succ_eq_map, List.map_cons, List.map_map]
  congr 1
  · simp
  · apply List.map_congr_left
    intro i _
    simp only [Function.comp, Nat.succ_eq_add_one]
    push_cast
    ring

theorem mem_pagesFrom {page : Int} {n : Nat} {p : Int} :
    p ∈ pagesFrom page n ↔ page ≤ p ∧ p < page + n := by
  simp only [pagesFrom, List.mem_map, List.mem_range]
  constructor
  · rintro ⟨i, hi, rfl⟩
    omega
  · rintro ⟨h1, h2⟩
    refine ⟨(p - page).toNat, ?_, ?_⟩ <;> omega

theorem nodup_pagesFrom (page : Int) (n : Nat) : (pagesFrom page n).Nodup := by
  apply List.Nodup.map _ (List.nodup_range n)
  intro a b h
  simpa using h

/-- The scan loop appends, in scan order, the headers of the data-bearing pages to the
first list and the numbers of the other pages to the second. -/
theorem scanLoop_eq (env : Platform F M D) (f : F) (fuel : Nat) :
    ∀ (page : Int) (acc : List (FlashPageHeader M) × List Int),
      -2147483648 ≤ page → page + fuel ≤ 2147483648 →
      scanLoop env f fuel page acc =
        (acc.1 ++ ((pagesFrom page fuel).filter (isDataPage env f)).map (readHeader env f),
         acc.2 ++ (pagesFrom page fuel).filter (fun p => !isDataPage env f p)) := by
  induction fuel with
  | zero =>
    intro page acc _ _
    simp [scanLoop, pagesFrom_zero]
  | succ n ih =>
    intro page acc h1 h2
    have hnext : scanLoop env f n (toInt32 (page + 1)) = scanLoop env f n (page + 1) := by
      cases n with
      | zero => funext acc; simp [scanLoop]
      | succ m =>
        rw [toInt32_of_isInt32]
        unfold IsInt32
        push_cast at h2
        omega
    rw [pagesFrom_succ]
    by_cases hd : page = (readHeader env f page).pageNumber
    · have hd2 : isDataPage env f page = true := by simp [isDataPage, ← hd]
      rw [scanLoop, if_pos hd, hnext, ih (page + 1) _ (by omega) (by push_cast at h2; omega)]
      simp [List.filter_cons, hd2]
    · have hd2 : isDataPage env f page = false := by simp [isDataPage, hd]
      rw [scanLoop, if_neg hd, hnext, ih (page + 1) _ (by omega) (by push_cast at h2; omega)]
      simp [List.filter_cons, hd2]

/-- The two lists the scan of the constructor produces. -/
theorem scanLoop_construct (env : Platform F M D) (f : F) (lo num : Int) (hlo : IsInt32 lo) :
    scanLoop env f (scanCount lo num) lo ([], []) =
      (((configuredPages lo num).filter (isDataPage env f)).map (readHeader env f),
       (configuredPages lo num).filter (fun p => !isDataPage env f p)) := by
  have h := scanLoop_eq env f (scanCount lo num) lo ([], []) hlo.1 (by
    have := (isInt32_toInt32 (lo + num)).2
    have := hlo.2
    unfold scanCount
    omega)
  simpa [configuredPages] using h

theorem mem_configuredPages {lo num p : Int} :
    p ∈ configuredPages lo num ↔ lo ≤ p ∧ p < toInt32 (lo + num) := by
  rw [configuredPages, mem_pagesFrom, scanCount]
  omega

theorem map_pageNumber_filter_isDataPage (env : Platform F M D) (f : F) (l : List Int) :
    ((l.filter (isDataPage env f)).map (readHeader env f)).map (fun h => h.pageNumber)
      = l.filter (isDataPage env f) := by
  rw [List.map_map]
  conv_rhs => rw [← List.map_id (l.filter (isDataPage env f))]
  apply List.map_congr_left
  intro p hp
  have := (List.mem_filter.mp hp).2
  simp only [isDataPage, decide_eq_true_eq] at this
  simp [Function.comp, ← this]

end Scan

section Partition

variable {F M D : Type}

/-- The queue object after `flashWriteData`: unchanged, or the front of the pool moved to
the back of the data queue as the header read back from that page. -/
theorem flashWriteData_queue_cases (env : Platform F M D) (q : FlashQueue M) (data : List D)
    (metadata : M) (w : World F) :
    ((flashWriteData env q data metadata w).1 = false ∧
      (flashWriteData env q data metadata w).2.1 = q) ∨
    (∃ page rest,
      q.emptyFlashPages = page :: rest ∧
      (flashWriteData env q data metadata w).1 = true ∧
      (writeDataPacketsToFlashPage env page (nextWriteId q) metadata data
        q.DataPacketsPerFlashPage w).1 = true ∧
      (flashWriteData env q data metadata w).2.2 =
        (writeDataPacketsToFlashPage env page (nextWriteId q) metadata data
          q.DataPacketsPerFlashPage w).2 ∧
      (readHeader env (flashWriteData env q data metadata w).2.2.flash page).pageNumber
        = page ∧
      (flashWriteData env q data metadata w).2.1 =
        { q with emptyFlashPages := rest
                 dataFlashPages := q.dataFlashPages ++
                   [readHeader env (flashWriteData env q data metadata w).2.2.flash page] }) := by
  have hshape : q.emptyFlashPages = [] ∨ ∃ page rest, q.emptyFlashPages = page :: rest := by
    cases q.emptyFlashPages <;> simp
  rcases hshape with hq | ⟨page, rest, hq⟩
  · left
    rw [flashWriteData_nil env q data metadata w hq]
    exact ⟨rfl, rfl⟩
  · rw [flashWriteData_cons env q data metadata w page rest hq]
    dsimp only
    split_ifs with h1 h2
    · left; exact ⟨rfl, rfl⟩
    · left; exact ⟨rfl, rfl⟩
    · right
      simp only [ne_eq, not_not] at h2
      simp only [Bool.not_eq_false] at h1
      exact ⟨page, rest, hq, rfl, h1, rfl, h2.symm, rfl⟩

/-- The queue object after `flashPopDatum`: unchanged up to the cursor, or the front of the
data queue moved to the back of the pool with the cursor reset. -/
theorem flashPopDatum_queue_cases (env : Platform F M D) (q : FlashQueue M) (w : World F) :
    (∃ i, (flashPopDatum env q w).2.1 = { q with readDataPeekIndex := i }) ∨
    (∃ front rest,
      q.dataFlashPages = front :: rest ∧
      ¬ toInt32 (q.readDataPeekIndex + 1) < front.count ∧
      (clearFlashPage env front.pageNumber w).1 = true ∧
      (flashPopDatum env q w).1 = true ∧
      (flashPopDatum env q w).2.2 = (clearFlashPage env front.pageNumber w).2 ∧
      (flashPopDatum env q w).2.1 =
        { q with readDataPeekIndex := 0
                 dataFlashPages := rest
                 emptyFlashPages := q.emptyFlashPages ++ [front.pageNumber] }) := by
  have hshape : q.dataFlashPages = [] ∨ ∃ front rest, q.dataFlashPages = front :: rest := by
    cases q.dataFlashPages <;> simp
  rcases hshape with hq | ⟨front, rest, hq⟩
  · left
    rw [flashPopDatum_nil env q w hq]
    exact ⟨q.readDataPeekIndex, rfl⟩
  · rw [flashPopDatum_cons env q w front rest hq]
    split_ifs with h1 h2
    · left; exact ⟨_, rfl⟩
    · right; exact ⟨front, rest, hq, h1, h2, rfl, rfl, rfl⟩
    · left; exact ⟨_, rfl⟩

theorem partitioned_construct (env : Platform F M D)
    (hperm : ∀ l, (env.stdSort lessByWriteId l).Perm l) (b lo hi : Int) (hlo : IsInt32 lo)
    (w0 : World F) : Partitioned lo hi (construct env b lo hi w0).1 := by
  refine ⟨rfl, rfl, ?_⟩
  simp only [construct, dataPageNumbers]
  rw [scanLoop_construct env w0.flash lo _ hlo]
  dsimp only
  refine List.Perm.trans ?_ (List.filter_append_perm (isDataPage env w0.flash) _)
  refine List.Perm.trans List.perm_append_comm ?_
  refine List.Perm.append_right _ ?_
  refine List.Perm.trans ((hperm _).map _) ?_
  rw [map_pageNumber_filter_isDataPage]

theorem partitioned_write (env : Platform F M D) (lo hi : Int) (q : FlashQueue M)
    (data : List D) (metadata : M) (w : World F) (h : Partitioned lo hi q) :
    Partitioned lo hi (flashWriteData env q data metadata w).2.1 := by
  rcases flashWriteData_queue_cases env q data metadata w with
    ⟨-, hq⟩ | ⟨page, rest, hq, -, -, -, hver, hres⟩
  · rw [hq]; exact h
  · rw [hres]
    obtain ⟨h1, h2, h3⟩ := h
    refine ⟨h1, h2, ?_⟩
    simp only [dataPageNumbers, List.map_append, List.map_cons, List.map_nil, hver]
    refine List.Perm.trans ?_ h3
    rw [hq, dataPageNumbers, ← List.append_assoc, List.cons_append]
    exact List.perm_append_singleton page _

theorem partitioned_pop (env : Platform F M D) (lo hi : Int) (q : FlashQueue M)
    (w : World F) (h : Partitioned lo hi q) :
    Partitioned lo hi (flashPopDatum env q w).2.1 := by
  rcases flashPopDatum_queue_cases env q w with ⟨i, hq⟩ | ⟨front, rest, hq, -, -, -, -, hres⟩
  · rw [hq]; exact h
  · rw [hres]
    obtain ⟨h1, h2, h3⟩ := h
    refine ⟨h1, h2, ?_⟩
    simp only [dataPageNumbers]
    refine List.Perm.trans ?_ h3
    rw [dataPageNumbers, hq]
    simp

theorem partitioned_of_reachable (env : Platform F M D)
    (hperm : ∀ l, (env.stdSort lessByWriteId l).Perm l) (b lo hi : Int) (hlo : IsInt32 lo)
    (w0 : World F) (q : FlashQueue M) (w : World F)
    (h : Reachable env b lo hi w0 q w) : Partitioned lo hi q := by
  induction h with
  | init => exact partitioned_construct env hperm b lo hi hlo w0
  | write data metadata _ ih => exact partitioned_write env lo hi _ data metadata _ ih
  | pop _ ih => exact partitioned_pop env lo hi _ _ ih

theorem count_of_partitioned {lo hi : Int} {q : FlashQueue M} (h : Partitioned lo hi q)
    (p : Int) :
    (q.emptyFlashPages ++ dataPageNumbers q).count p =
      if q.LowestFlashPageNumber ≤ p ∧
        p < toInt32 (q.LowestFlashPageNumber + q.NumFlashPages) then 1 else 0 := by
  obtain ⟨h1, h2, h3⟩ := h
  rw [h3.count_eq, h1]
  split_ifs with hp
  · exact List.count_eq_one_of_mem (nodup_pagesFrom _ _) (mem_configuredPages.mpr hp)
  · exact List.count_eq_zero_of_not_mem (fun hm => hp (mem_configuredPages.mp hm))

/-- Claim C2.  Partition invariant: in every state reachable from the constructor by
`flashWriteData` and `flashPopDatum` calls, on any platform (whatever the flash primitives
return; `std::sort` only has to return a permutation of its input, and the lowest page is a
value of type int), every page number occurs in emptyFlashPages together with the
pageNumber fields of dataFlashPages exactly once if it lies in the configured range
`[LowestFlashPageNumber, LowestFlashPageNumber + NumFlashPages)` and not at all otherwise.
The upper bound is the `int` expression of the scan loop; where the sum does not overflow
it is the mathematical sum. -/
theorem partition_invariant (env : Platform F M D)
    (hperm : ∀ l, (env.stdSort lessByWriteId l).Perm l) (b lo hi : Int) (hlo : IsInt32 lo)
    (w0 : World F) (q : FlashQueue M) (w : World F)
    (h : Reachable env b lo hi w0 q w) :
    (∀ p : Int, (q.emptyFlashPages ++ dataPageNumbers q).count p =
      if q.LowestFlashPageNumber ≤ p ∧
        p < toInt32 (q.LowestFlashPageNumber + q.NumFlashPages) then 1 else 0) ∧
    (IsInt32 (q.LowestFlashPageNumber + q.NumFlashPages) →
      ∀ p : Int, (q.emptyFlashPages ++ dataPageNumbers q).count p =
        if q.LowestFlashPageNumber ≤ p ∧
          p < q.LowestFlashPageNumber + q.NumFlashPages then 1 else 0) := by
  have hpart := partitioned_of_reachable env hperm b lo hi hlo w0 q w h
  refine ⟨count_of_partitioned hpart, fun hsum p => ?_⟩
  have := count_of_partitioned hpart p
  rwa [toInt32_of_isInt32 hsum] at this

end Partition

section PageLevel

variable {F M D : Type}

theorem map_range_getD (l : List Nat) (n : Nat) (h : l.length = n) :
    (List.range n).map (fun i => l.getD i 0) = l := by
  subst h
  apply List.ext_getElem
  · simp
  · intro i h1 h2
    simp [List.getD_eq_getElem?_getD, h2]

theorem readBytes_congr (env : Platform F M D) (f g : F) (addr : Int) (cb : Nat)
    (h : ∀ i : Nat, i < cb → env.load f (addr + i) = env.load g (addr + i)) :
    readBytes env f addr cb = readBytes env g addr cb := by
  unfold readBytes
  apply List.map_congr_left
  intro i hi
  exact h i (List.mem_range.mp hi)

/-- A successful `eraseThenWriteFlashPage` on a faithful flash passed the bounds check and
made three successful primitive calls. -/
theorem eraseThenWriteFlashPage_success (env : Platform F M D) (hf : FaithfulFlash env)
    (page : Int) (header : List Nat) (nh : Int) (data : List Nat) (nd : Int) (w : World F)
    (h0 : (eraseThenWriteFlashPage env page header nh data nd w).1 = 0) :
    env.PAGE_FROM_ADDRESS (env.ADDRESS_OF_PAGE page + nh + nd - 1) = page ∧
    (env.flashPageErase page w.flash).1 = 0 ∧
    (env.flashWriteBlock (env.ADDRESS_OF_PAGE page) header nh
      (env.flashPageErase page w.flash).2).1 = 0 ∧
    (env.flashWriteBlock (env.ADDRESS_OF_PAGE page + nh) data nd
      (env.flashWriteBlock (env.ADDRESS_OF_PAGE page) header nh
        (env.flashPageErase page w.flash).2).2).1 = 0 ∧
    (eraseThenWriteFlashPage env page header nh data nd w).2.flash =
      (env.flashWriteBlock (env.ADDRESS_OF_PAGE page + nh) data nd
        (env.flashWriteBlock (env.ADDRESS_OF_PAGE page) header nh
          (env.flashPageErase page w.flash).2).2).2 := by
  rcases eraseThenWriteFlashPage_cases env page header nh data nd w with
    hc | hc | hc | hc
  · rw [hc.2.1] at h0; cases h0
  · exact absurd (hc.2.2.1 ▸ h0) hc.2.1
  · rw [hc.2.2.2.1] at h0
    rcases hc.2.2.1 with h1 | h1 <;> rw [h1] at h0 <;> cases h0
  · obtain ⟨hb, he, hh1, hh2, hr, hfl, -⟩ := hc
    refine ⟨hb, he, ?_, hr ▸ h0, hfl⟩
    rcases hf.write_status (env.ADDRESS_OF_PAGE page) header nh
      (env.flashPageErase page w.flash).2 with h | h | h
    · exact h
    · exact absurd h hh1
    · exact absurd h hh2

/-- After a successful `eraseThenWriteFlashPage` the header bytes read back. -/
theorem eraseThenWriteFlashPage_header (env : Platform F M D) (hf : FaithfulFlash env)
    (page : Int) (header : List Nat) (data : List Nat) (nd : Int) (w : World F)
    (hlen : header.length = env.sizeofHeader)
    (h0 : (eraseThenWriteFlashPage env page header (toInt32 env.sizeofHeader) data nd w).1
      = 0) :
    readBytes env (eraseThenWriteFlashPage env page header (toInt32 env.sizeofHeader) data nd
      w).2.flash (env.ADDRESS_OF_PAGE page) env.sizeofHeader = header := by
  have hsz : toInt32 env.sizeofHeader = env.sizeofHeader :=
    toInt32_of_isInt32 ⟨by have := hf.sizeofHeader_small; omega, hf.sizeofHeader_small⟩
  rw [hsz] at h0 ⊢
  obtain ⟨-, -, hh, hd, hfl⟩ := eraseThenWriteFlashPage_success env hf page header _ data nd w h0
  rw [hfl]
  conv_rhs => rw [← map_range_getD header env.sizeofHeader hlen]
  unfold readBytes
  apply List.map_congr_left
  intro i hi
  have hi2 : i < env.sizeofHeader := List.mem_range.mp hi
  rw [hf.write_elsewhere _ _ _ _ _ hd (Or.inl (by omega))]
  exact hf.write_stored _ _ _ _ i hh (by omega) (by omega)

/-- A successful `eraseThenWriteFlashPage` changes no byte outside the target page. -/
theorem eraseThenWriteFlashPage_elsewhere (env : Platform F M D) (hf : FaithfulFlash env)
    (page : Int) (header : List Nat) (data : List Nat) (nd : Int) (w : World F)
    (h0 : (eraseThenWriteFlashPage env page header (toInt32 env.sizeofHeader) data nd w).1
      = 0)
    (a : Int) (ha : env.PAGE_FROM_ADDRESS a ≠ page) :
    env.load (eraseThenWriteFlashPage env page header (toInt32 env.sizeofHeader) data nd
      w).2.flash a = env.load w.flash a := by
  have hsz : toInt32 env.sizeofHeader = env.sizeofHeader :=
    toInt32_of_isInt32 ⟨by have := hf.sizeofHeader_small; omega, hf.sizeofHeader_small⟩
  rw [hsz] at h0 ⊢
  obtain ⟨hb, he, hh, hd, hfl⟩ :=
    eraseThenWriteFlashPage_success env hf page header _ data nd w h0
  have hin : ∀ x, env.ADDRESS_OF_PAGE page ≤ a → a ≤ x → env.PAGE_FROM_ADDRESS x = page →
      False := by
    intro x h1 h2 h3
    have m1 := hf.page_monotone _ _ h1
    have m2 := hf.page_monotone _ _ h2
    rw [hf.page_of_address] at m1
    rw [h3] at m2
    exact ha (le_antisymm m2 m1)
  rw [hfl, hf.write_elsewhere _ _ _ _ _ hd, hf.write_elsewhere _ _ _ _ _ hh,
    hf.erase_elsewhere _ _ _ he ha]
  · by_contra hcon
    push_neg at hcon
    exact hin _ hcon.1 (by omega) (hf.header_fits page)
  · by_contra hcon
    push_neg at hcon
    exact hin _ (by omega) (by omega) hb

/-- A successful `eraseThenWriteFlashPage` leaves the headers of the other pages as they
were. -/
theorem eraseThenWriteFlashPage_other_header (env : Platform F M D) (hf : FaithfulFlash env)
    (page : Int) (header : List Nat) (data : List Nat) (nd : Int) (w : World F)
    (h0 : (eraseThenWriteFlashPage env page header (toInt32 env.sizeofHeader) data nd w).1
      = 0)
    (p : Int) (hp : p ≠ page) :
    readHeader env (eraseThenWriteFlashPage env page header (toInt32 env.sizeofHeader) data nd
      w).2.flash p = readHeader env w.flash p := by
  unfold readHeader
  congr 1
  apply readBytes_congr
  intro i hi
  apply eraseThenWriteFlashPage_elsewhere env hf page header data nd w h0
  have m1 := hf.page_monotone (env.ADDRESS_OF_PAGE p) (env.ADDRESS_OF_PAGE p + i) (by omega)
  have m2 := hf.page_monotone (env.ADDRESS_OF_PAGE p + i)
    (env.ADDRESS_OF_PAGE p + env.sizeofHeader - 1) (by omega)
  rw [hf.page_of_address] at m1
  rw [hf.header_fits] at m2
  rw [le_antisymm m2 m1]
  exact hp

end PageLevel

section SimulatedDevice

theorem insertHeader_perm {M : Type} (less : FlashPageHeader M → FlashPageHeader M → Bool)
    (h : FlashPageHeader M) (l : List (FlashPageHeader M)) :
    (insertHeader less h l).Perm (h :: l) := by
  induction l with
  | nil => simp [insertHeader]
  | cons x xs ih =>
    simp only [insertHeader]
    split_ifs
    · exact (List.Perm.cons x ih).trans (List.Perm.swap h x xs)
    · exact List.Perm.refl _

theorem simSort_perm {M : Type} (less : FlashPageHeader M → FlashPageHeader M → Bool)
    (l : List (FlashPageHeader M)) : (simSort less l).Perm l := by
  induction l with
  | nil => simp [simSort]
  | cons x xs ih =>
    simp only [simSort]
    exact (insertHeader_perm less x _).trans (List.Perm.cons x ih)

theorem insertHeader_sorted {M : Type} (h : FlashPageHeader M)
    (l : List (FlashPageHeader M))
    (hl : l.Pairwise (fun a b => a.flashWriteId ≤ b.flashWriteId)) :
    (insertHeader lessByWriteId h l).Pairwise (fun a b => a.flashWriteId ≤ b.flashWriteId) := by
  induction l with
  | nil => simp [insertHeader]
  | cons x xs ih =>
    simp only [insertHeader]
    rw [List.pairwise_cons] at hl
    split_ifs with hlt
    · simp only [lessByWriteId, decide_eq_true_eq] at hlt
      rw [List.pairwise_cons]
      refine ⟨?_, ih hl.2⟩
      intro y hy
      rcases List.mem_cons.mp ((insertHeader_perm lessByWriteId h xs).mem_iff.mp hy) with
        rfl | hy1
      · omega
      · exact hl.1 y hy1
    · simp only [lessByWriteId, decide_eq_true_eq, not_lt] at hlt
      rw [List.pairwise_cons, List.pairwise_cons]
      refine ⟨?_, hl⟩
      intro y hy
      rcases List.mem_cons.mp hy with rfl | hy1
      · exact hlt
      · exact le_trans hlt (hl.1 y hy1)

theorem simSort_sorted {M : Type} (l : List (FlashPageHeader M)) :
    (simSort lessByWriteId l).Pairwise (fun a b => a.flashWriteId ≤ b.flashWriteId) := by
  induction l with
  | nil => simp [simSort]
  | cons x xs ih => exact insertHeader_sorted x _ ih

theorem sortSpec_idealPlatform (pageSize : Nat) : SortSpec (idealPlatform pageSize) :=
  fun l => ⟨simSort_perm _ l, simSort_sorted l⟩

theorem sortSpec_simPlatform (pageSize : Nat) : SortSpec (simPlatform pageSize) :=
  fun l => ⟨simSort_perm _ l, simSort_sorted l⟩

theorem alwaysSucceeds_idealPlatform (pageSize : Nat) : AlwaysSucceeds (idealPlatform pageSize) :=
  ⟨fun _ _ => rfl, fun _ _ _ _ => rfl⟩

theorem toInt32_ofLe32_le32 (x : Int) (hx : IsInt32 x) (pre post : List Nat) (off : Nat)
    (hoff : off = pre.length) :
    toInt32 (ofLe32 (pre ++ le32 x ++ post) off) = x := by
  subst hoff
  unfold IsInt32 at hx
  simp only [ofLe32, le32, toSizeT, List.append_assoc, List.getD_eq_getElem?_getD,
    List.getElem?_append_right (Nat.le_refl _), List.getElem?_append_right (Nat.le_add_right _ _),
    Nat.sub_self, Nat.add_sub_cancel_left, List.cons_append, List.getElem?_cons_zero,
    List.getElem?_cons_succ, Option.getD_some, toInt32]
  omega

end SimulatedDevice

section IdealDevice

theorem ofLe32_le32 (x : Int) (pre post : List Nat) (off : Nat) (hoff : off = pre.length) :
    (ofLe32 (pre ++ le32 x ++ post) off : Int) = toSizeT x := by
  subst hoff
  simp only [ofLe32, le32, toSizeT, List.append_assoc, List.getD_eq_getElem?_getD,
    List.getElem?_append_right (Nat.le_refl _), List.getElem?_append_right (Nat.le_add_right _ _),
    Nat.sub_self, Nat.add_sub_cancel_left, List.cons_append, List.getElem?_cons_zero,
    List.getElem?_cons_succ, Option.getD_some]
  omega

theorem le32_length (x : Int) : (le32 x).length = 4 := rfl

theorem word32_ofNat_ofLe32 (d : Word32) (pre post : List Nat) (off : Nat)
    (hoff : off = pre.length) :
    (Fin.ofNat (ofLe32 (pre ++ le32 d.val ++ post) off) : Word32) = d := by
  apply Fin.ext
  have h := ofLe32_le32 d.val pre post off hoff
  have hd := d.isLt
  simp only [Fin.ofNat, toSizeT] at h ⊢
  omega

theorem faithfulFlash_idealPlatform (pageSize : Nat) (hps : 16 ≤ pageSize) :
    FaithfulFlash (idealPlatform pageSize) where
  page_of_address := fun p => by
    show p * (pageSize : Int) / (pageSize : Int) = p
    exact Int.mul_ediv_cancel p (by omega)
  page_monotone := fun a b hab => by
    show a / (pageSize : Int) ≤ b / (pageSize : Int)
    exact Int.ediv_le_ediv (by omega) hab
  header_fits := fun p => by
    show (p * (pageSize : Int) + ((16 : Nat) : Int) - 1) / (pageSize : Int) = p
    have h1 : p * (pageSize : Int) + ((16 : Nat) : Int) - 1 = 15 + p * (pageSize : Int) := by
      push_cast; ring
    rw [h1, Int.add_mul_ediv_right _ _ (by omega), Int.ediv_eq_zero_of_lt (by omega) (by omega)]
    simp
  erase_elsewhere := fun p f a _ ha => by
    show simEraseMem pageSize p f a = f a
    simp only [simEraseMem]
    exact if_neg ha
  write_stored := fun dst src cb f i _ hi _ => by
    show simWriteMem dst src cb f (dst + i) = src.getD i 0
    simp only [simWriteMem]
    rw [if_pos ⟨by omega, by omega⟩]
    congr 1
    omega
  write_elsewhere := fun dst src cb f a _ ha => by
    show simWriteMem dst src cb f a = f a
    simp only [simWriteMem]
    rw [if_neg (by omega)]
  write_status := fun _ _ _ _ => Or.inl rfl
  header_roundtrip := fun h h1 h2 h3 => by
    show (⟨_, _, _, _⟩ : FlashPageHeader Word32) = h
    cases h with
    | mk pn c id m =>
      simp only [simPlatform, FlashPageHeader.mk.injEq]
      refine ⟨?_, ?_, ?_, ?_⟩
      · have := toInt32_ofLe32_le32 pn h1 [] (le32 c ++ le32 id ++ le32 m.val) 0 rfl
        simpa using this
      · have := toInt32_ofLe32_le32 c h2 (le32 pn) (le32 id ++ le32 m.val) 4 rfl
        simpa using this
      · have := toInt32_ofLe32_le32 id h3 (le32 pn ++ le32 c) (le32 m.val) 8 rfl
        simpa using this
      · have := word32_ofNat_ofLe32 m (le32 pn ++ le32 c ++ le32 id) [] 12 rfl
        simpa using this
  header_length := fun h => rfl
  sizeofHeader_small := by
    show ((16 : Nat) : Int) < 2147483648
    omega
  zero_header := by
    show toInt32 (ofLe32 (List.replicate 16 0) 0) = 0
    decide
  data_roundtrip := fun d => by
    have := word32_ofNat_ofLe32 d [] [] 0 rfl
    simpa [idealPlatform, simPlatform] using this
  data_length := fun d => rfl

end IdealDevice

section WriteOrder

variable {F M D : Type}

theorem isInt32_nextWriteId (q : FlashQueue M) : IsInt32 (nextWriteId q) := by
  unfold nextWriteId
  split
  · decide
  · exact isInt32_toInt32 _

theorem isInt32_of_mem_configuredPages {lo num p : Int} (hlo : IsInt32 lo)
    (hp : p ∈ configuredPages lo num) : IsInt32 p := by
  have h := mem_configuredPages.mp hp
  have h2 := (isInt32_toInt32 (lo + num)).2
  unfold IsInt32 at hlo ⊢
  omega

theorem mem_configuredPages_of_partitioned {lo hi : Int} {q : FlashQueue M}
    (h : Partitioned lo hi q) {p : Int} (hp : p ∈ q.emptyFlashPages ++ dataPageNumbers q) :
    p ∈ configuredPages lo q.NumFlashPages :=
  h.2.2.mem_iff.mp hp

/-- On a faithful flash the header read back after a successful write is the header that
was written. -/
theorem writeDataPacketsToFlashPage_header (env : Platform F M D) (hf : FaithfulFlash env)
    (page id : Int) (metadata : M) (data : List D) (n : Int) (w : World F)
    (hpage : IsInt32 page) (hid : IsInt32 id) (hn : IsInt32 n)
    (hok : (writeDataPacketsToFlashPage env page id metadata data n w).1 = true) :
    readHeader env (writeDataPacketsToFlashPage env page id metadata data n w).2.flash page
      = ⟨page, n, id, metadata⟩ := by
  simp only [writeDataPacketsToFlashPage, decide_eq_true_eq] at hok
  simp only [writeDataPacketsToFlashPage, readHeader]
  rw [eraseThenWriteFlashPage_header env hf page _ _ _ w (hf.header_length _) hok]
  exact hf.header_roundtrip _ hpage hn hid

/-- Every entry of a list ordered by write id is at most the last one. -/
theorem le_getLast_of_pairwise {l : List (FlashPageHeader M)} {back : FlashPageHeader M}
    (hl : l.Pairwise (fun a b => a.flashWriteId ≤ b.flashWriteId))
    (hb : l.getLast? = some back) : ∀ a ∈ l, a.flashWriteId ≤ back.flashWriteId := by
  obtain ⟨ys, rfl⟩ := List.getLast?_eq_some_iff.mp hb
  intro a ha
  rw [List.pairwise_append] at hl
  rcases List.mem_append.mp ha with h1 | h1
  · exact hl.2.2 a h1 back (by simp)
  · simp only [List.mem_singleton] at h1
    rw [h1]

/-- The write id assigned to a new page exceeds every write id in an ordered queue, when
the increment does not wrap around. -/
theorem lt_nextWriteId (q : FlashQueue M)
    (hl : q.dataFlashPages.Pairwise (fun a b => a.flashWriteId ≤ b.flashWriteId))
    (hnw : ∀ back, q.dataFlashPages.getLast? = some back → IsInt32 (back.flashWriteId + 1)) :
    ∀ a ∈ q.dataFlashPages, a.flashWriteId < nextWriteId q := by
  intro a ha
  unfold nextWriteId
  cases hb : q.dataFlashPages.getLast? with
  | none =>
    rw [List.getLast?_eq_none_iff.mp hb] at ha
    cases ha
  | some back =>
    have := le_getLast_of_pairwise hl hb a ha
    simp only
    rw [toInt32_of_isInt32 (hnw back hb)]
    omega

theorem pairwise_lt_of_le_of_nodup {l : List (FlashPageHeader M)}
    (hl : l.Pairwise (fun a b => a.flashWriteId ≤ b.flashWriteId))
    (hn : (l.map (fun h => h.flashWriteId)).Nodup) :
    l.Pairwise (fun a b => a.flashWriteId < b.flashWriteId) := by
  rw [List.Nodup, List.pairwise_map] at hn
  exact (hl.and hn).imp (fun h => lt_of_le_of_ne h.1 h.2)

end WriteOrder

section WriteOrderInvariant

variable {F M D : Type}

theorem reachable_of_withoutWrap (env : Platform F M D) (b lo hi : Int) (w0 : World F)
    (q : FlashQueue M) (w : World F) (h : ReachableWithoutWrap env b lo hi w0 q w) :
    Reachable env b lo hi w0 q w := by
  induction h with
  | init => exact Reachable.init
  | write data metadata _ _ ih => exact Reachable.write data metadata ih
  | pop _ ih => exact Reachable.pop ih

theorem isInt32_packets_of_reachable (env : Platform F M D) (b lo hi : Int) (w0 : World F)
    (q : FlashQueue M) (w : World F) (h : Reachable env b lo hi w0 q w) :
    q.DataPacketsPerFlashPage = (construct env b lo hi w0).1.DataPacketsPerFlashPage := by
  induction h with
  | init => rfl
  | @write q w data metadata _ ih =>
    rcases flashWriteData_queue_cases env q data metadata w with
      ⟨-, hq⟩ | ⟨page, rest, -, -, -, -, -, hres⟩
    · rw [hq]; exact ih
    · rw [hres]; exact ih
  | @pop q w _ ih =>
    rcases flashPopDatum_queue_cases env q w with ⟨i, hq⟩ | ⟨front, rest, -, -, -, -, -, hres⟩
    · rw [hq]; exact ih
    · rw [hres]; exact ih

theorem writeOrdered_construct (env : Platform F M D) (hsort : SortSpec env) (b lo hi : Int)
    (hlo : IsInt32 lo) (w0 : World F) :
    WriteOrdered (DistinctWriteIds env lo hi w0.flash) (construct env b lo hi w0).1 := by
  refine ⟨(hsort _).2, fun hd => ?_⟩
  apply pairwise_lt_of_le_of_nodup (hsort _).2
  refine (((hsort _).1.map _).nodup_iff).mpr ?_
  rw [scanLoop_construct env w0.flash lo _ hlo]
  dsimp only
  rw [List.map_map]
  exact hd

theorem writeOrdered_pop (env : Platform F M D) (strict : Prop) (q : FlashQueue M)
    (w : World F) (h : WriteOrdered strict q) :
    WriteOrdered strict (flashPopDatum env q w).2.1 := by
  rcases flashPopDatum_queue_cases env q w with ⟨i, hq⟩ | ⟨front, rest, hq, -, -, -, -, hres⟩
  · rw [hq]; exact h
  · rw [hres]
    obtain ⟨h1, h2⟩ := h
    rw [hq] at h1 h2
    exact ⟨(List.pairwise_cons.mp h1).2, fun hs => (List.pairwise_cons.mp (h2 hs)).2⟩

theorem writeOrdered_write (env : Platform F M D) (hf : FaithfulFlash env) (strict : Prop)
    (lo hi : Int) (hlo : IsInt32 lo) (q : FlashQueue M) (data : List D) (metadata : M)
    (w : World F) (hpart : Partitioned lo hi q) (hn : IsInt32 q.DataPacketsPerFlashPage)
    (hnw : ∀ back, q.dataFlashPages.getLast? = some back → IsInt32 (back.flashWriteId + 1))
    (h : WriteOrdered strict q) :
    WriteOrdered strict (flashWriteData env q data metadata w).2.1 := by
  rcases flashWriteData_queue_cases env q data metadata w with
    ⟨-, hq⟩ | ⟨page, rest, hq, -, hok, hw, -, hres⟩
  · rw [hq]; exact h
  · rw [hres, hw]
    have hpage : IsInt32 page := isInt32_of_mem_configuredPages hlo
      (mem_configuredPages_of_partitioned hpart (by rw [hq]; simp))
    rw [writeDataPacketsToFlashPage_header env hf page _ metadata data _ w hpage
      (isInt32_nextWriteId q) hn hok]
    have hlt := lt_nextWriteId q h.1 hnw
    refine ⟨?_, fun hs => ?_⟩
    · rw [List.pairwise_append]
      exact ⟨h.1, by simp, fun a ha b hb => by
        simp only [List.mem_singleton] at hb
        rw [hb]
        exact le_of_lt (hlt a ha)⟩
    · rw [List.pairwise_append]
      exact ⟨h.2 hs, by simp, fun a ha b hb => by
        simp only [List.mem_singleton] at hb
        rw [hb]
        exact hlt a ha⟩

theorem writeOrdered_of_reachable (env : Platform F M D) (hf : FaithfulFlash env)
    (hsort : SortSpec env) (b lo hi : Int) (hlo : IsInt32 lo) (w0 : World F)
    (q : FlashQueue M) (w : World F) (h : ReachableWithoutWrap env b lo hi w0 q w) :
    WriteOrdered (DistinctWriteIds env lo hi w0.flash) q := by
  induction h with
  | init => exact writeOrdered_construct env hsort b lo hi hlo w0
  | @write q w data metadata hr hnw ih =>
    have hreach := reachable_of_withoutWrap env b lo hi w0 q w hr
    have hpart := partitioned_of_reachable env (fun l => (hsort l).1) b lo hi hlo w0 q w hreach
    have hn : IsInt32 q.DataPacketsPerFlashPage := by
      rw [isInt32_packets_of_reachable env b lo hi w0 q w hreach]
      exact isInt32_toInt32 _
    exact writeOrdered_write env hf _ lo hi hlo q data metadata w hpart hn hnw ih
  | @pop q w _ ih => exact writeOrdered_pop env _ q w ih

/-- Claim C3, as amended.  Ordering invariant: over a flash that stores what is written,
with `std::sort` meeting its contract and the lowest page a value of type int, in every
state reachable from the constructor by `flashWriteData` and `flashPopDatum` calls in which
the write id does not wrap around, dataFlashPages is in non-decreasing order of
flashWriteId from front to back; it is in strictly increasing order when the data-bearing
pages the constructor found carried pairwise distinct flashWriteIds. -/
theorem write_order_invariant (env : Platform F M D) (hf : FaithfulFlash env)
    (hsort : SortSpec env) (b lo hi : Int) (hlo : IsInt32 lo) (w0 : World F)
    (q : FlashQueue M) (w : World F) (h : ReachableWithoutWrap env b lo hi w0 q w) :
    q.dataFlashPages.Pairwise (fun a b => a.flashWriteId ≤ b.flashWriteId) ∧
    (DistinctWriteIds env lo hi w0.flash →
      q.dataFlashPages.Pairwise (fun a b => a.flashWriteId < b.flashWriteId)) := by
  have hord := writeOrdered_of_reachable env hf hsort b lo hi hlo w0 q w h
  unfold WriteOrdered at hord
  exact ⟨hord.1, fun hdistinct => hord.2 hdistinct⟩

end WriteOrderInvariant

section InvariantWitnesses

/-- Witness for C2: after the first write of the two-page scenario, page 0 and page 1 each
occur once and page 2 does not occur. -/
theorem partition_invariant_witness :
    IsInt32 0 ∧
    (demoAfterA.2.1.emptyFlashPages ++ dataPageNumbers demoAfterA.2.1).count 0 = 1 ∧
    (demoAfterA.2.1.emptyFlashPages ++ dataPageNumbers demoAfterA.2.1).count 1 = 1 ∧
    (demoAfterA.2.1.emptyFlashPages ++ dataPageNumbers demoAfterA.2.1).count 2 = 0 :=
  have h := (partition_invariant (simPlatform 64) (fun l => simSort_perm _ l) 64 0 1
    (by decide) demoWorld demoAfterA.2.1 demoAfterA.2.2
    (Reachable.write (demoRecords 0) 0 Reachable.init)).1
  ⟨by decide, (h 0).trans (by decide), (h 1).trans (by decide), (h 2).trans (by decide)⟩

/-- Counterexample to C3 as stated: over the flash left by two earlier sessions, pages 1
and 2 both hold a header with flashWriteId 0, and the queue the constructor builds over
pages 1..2 is not strictly increasing in flashWriteId. -/
theorem write_order_counterexample :
    (construct (simPlatform 64) 64 1 2 twoSessionsWorld).1.dataFlashPages
      = [⟨1, 12, 0, 0⟩, ⟨2, 12, 0, 0⟩] ∧
    ¬ (construct (simPlatform 64) 64 1 2 twoSessionsWorld).1.dataFlashPages.Pairwise
      (fun a b => a.flashWriteId < b.flashWriteId) := by
  decide

/-- Witness for the amended C3: the script-free two-page scenario after both writes. -/
theorem write_order_invariant_witness :
    IsInt32 0 ∧ DistinctWriteIds (idealPlatform 64) 0 1 (idealWorld 255).flash ∧
    idealAfterB.2.1.dataFlashPages.Pairwise (fun a b => a.flashWriteId < b.flashWriteId) :=
  have hd : DistinctWriteIds (idealPlatform 64) 0 1 (idealWorld 255).flash := by
    unfold DistinctWriteIds
    decide
  ⟨by decide, hd,
    (write_order_invariant (idealPlatform 64) (faithfulFlash_idealPlatform 64 (by decide))
      (sortSpec_idealPlatform 64) 64 0 1 (by decide) (idealWorld 255)
      idealAfterB.2.1 idealAfterB.2.2
      (ReachableWithoutWrap.write (demoRecords 12) 0
        (ReachableWithoutWrap.write (demoRecords 0) 0 ReachableWithoutWrap.init
          (fun back hb => by
            have h0 : idealQueue.dataFlashPages = [] := by decide
            rw [h0] at hb
            cases hb))
        (fun back hb => by
          have h0 : idealAfterA.2.1.dataFlashPages = [⟨0, 12, 0, 0⟩] := by decide
          rw [h0] at hb
          cases hb
          decide))).2 hd⟩

end InvariantWitnesses

section Recovery

variable {F M D : Type}

theorem nodup_of_partitioned {lo hi : Int} {q : FlashQueue M} (h : Partitioned lo hi q) :
    (q.emptyFlashPages ++ dataPageNumbers q).Nodup :=
  (h.2.2.nodup_iff).mpr (nodup_pagesFrom _ _)

/-- When every primitive call succeeds, `eraseThenWriteFlashPage` fails only by rejecting
the request, and then the flash is untouched. -/
theorem eraseThenWriteFlashPage_failure (env : Platform F M D) (hok : AlwaysSucceeds env)
    (page : Int) (header : List Nat) (nh : Int) (data : List Nat) (nd : Int) (w : World F)
    (h0 : (eraseThenWriteFlashPage env page header nh data nd w).1 ≠ 0) :
    (eraseThenWriteFlashPage env page header nh data nd w).2.flash = w.flash ∧
    env.PAGE_FROM_ADDRESS (env.ADDRESS_OF_PAGE page + nh + nd - 1) ≠ page := by
  rcases eraseThenWriteFlashPage_cases env page header nh data nd w with
    hc | hc | hc | hc
  · exact ⟨hc.2.2.1, hc.1⟩
  · exact absurd (hok.1 _ _) hc.2.1
  · have := hok.2 (env.ADDRESS_OF_PAGE page) header nh (env.flashPageErase page w.flash).2
    rcases hc.2.2.1 with h1 | h1 <;> rw [h1] at this <;> cases this
  · exact absurd (hc.2.2.2.2.1.trans (hok.2 _ _ _ _)) h0

theorem consistent_construct (env : Platform F M D) (hsort : SortSpec env) (b lo hi : Int)
    (hlo : IsInt32 lo) (w0 : World F) :
    Consistent env lo hi (construct env b lo hi w0).1 (construct env b lo hi w0).2.flash := by
  refine ⟨partitioned_construct env (fun l => (hsort l).1) b lo hi hlo w0, ?_, ?_⟩
  · intro h hh
    simp only [construct] at hh ⊢
    rw [scanLoop_construct env w0.flash lo _ hlo] at hh
    have hh2 := (hsort _).1.mem_iff.mp hh
    obtain ⟨p, hp, rfl⟩ := List.mem_map.mp hh2
    have := (List.mem_filter.mp hp).2
    simp only [isDataPage, decide_eq_true_eq] at this
    rw [← this]
  · intro p hp
    simp only [construct] at hp ⊢
    rw [scanLoop_construct env w0.flash lo _ hlo] at hp
    have := (List.mem_filter.mp hp).2
    simp only [isDataPage, Bool.not_eq_true', decide_eq_false_iff_not] at this
    exact fun h => this h.symm

theorem consistent_write (env : Platform F M D) (hf : FaithfulFlash env)
    (hok : AlwaysSucceeds env) (lo hi : Int) (hlo : IsInt32 lo) (q : FlashQueue M)
    (data : List D) (metadata : M) (w : World F) (hn : IsInt32 q.DataPacketsPerFlashPage)
    (h : Consistent env lo hi q w.flash) :
    Consistent env lo hi (flashWriteData env q data metadata w).2.1
      (flashWriteData env q data metadata w).2.2.flash := by
  obtain ⟨hpart, hdata, hempty⟩ := h
  have hshape : q.emptyFlashPages = [] ∨ ∃ page rest, q.emptyFlashPages = page :: rest := by
    cases q.emptyFlashPages <;> simp
  rcases hshape with hq | ⟨page, rest, hq⟩
  · rw [flashWriteData_nil env q data metadata w hq]
    exact ⟨hpart, hdata, hempty⟩
  · have hpage : IsInt32 page := isInt32_of_mem_configuredPages hlo
      (mem_configuredPages_of_partitioned hpart (by rw [hq]; simp))
    have hnodup := nodup_of_partitioned hpart
    rw [hq] at hnodup
    by_cases hw : (writeDataPacketsToFlashPage env page (nextWriteId q) metadata data
        q.DataPacketsPerFlashPage w).1 = true
    · have hhead := writeDataPacketsToFlashPage_header env hf page _ metadata data _ w hpage
        (isInt32_nextWriteId q) hn hw
      have hrc : (eraseThenWriteFlashPage env page
          (env.headerBytes ⟨page, q.DataPacketsPerFlashPage, nextWriteId q, metadata⟩)
          (toInt32 env.sizeofHeader) (data.map env.dataBytes).flatten
          (toInt32 (toSizeT (toSizeT q.DataPacketsPerFlashPage * env.sizeofData))) w).1
          = 0 := by
        simpa [writeDataPacketsToFlashPage] using hw
      have hother : ∀ p, p ≠ page →
          readHeader env (writeDataPacketsToFlashPage env page (nextWriteId q) metadata data
            q.DataPacketsPerFlashPage w).2.flash p = readHeader env w.flash p := fun p hp =>
        eraseThenWriteFlashPage_other_header env hf page _ _ _ w hrc p hp
      rw [flashWriteData_cons env q data metadata w page rest hq]
      dsimp only
      rw [if_neg (by simp [hw]), hhead, if_neg (by simp)]
      refine ⟨?_, ?_, ?_⟩
      · have := partitioned_write env lo hi q data metadata w hpart
        rw [flashWriteData_cons env q data metadata w page rest hq] at this
        dsimp only at this
        rw [if_neg (by simp [hw]), hhead, if_neg (by simp)] at this
        exact this
      · intro h hh
        rcases List.mem_append.mp hh with h1 | h1
        · have hne : h.pageNumber ≠ page := by
            intro heq
            have hmem : page ∈ dataPageNumbers q :=
              List.mem_map.mpr ⟨h, h1, heq⟩
            have := List.nodup_append.mp hnodup
            exact this.2.2 (List.mem_cons_self _ _) hmem
          show readHeader env _ h.pageNumber = h
          rw [hother _ hne]
          exact hdata h h1
        · simp only [List.mem_singleton] at h1
          subst h1
          exact hhead
      · intro p hp
        have hne : p ≠ page := by
          rintro rfl
          have := (List.nodup_append.mp hnodup).1
          exact (List.nodup_cons.mp this).1 hp
        show (readHeader env _ p).pageNumber ≠ p
        rw [hother _ hne]
        exact hempty p (by rw [hq]; exact List.mem_cons_of_mem _ hp)
    · have hrc : (eraseThenWriteFlashPage env page
          (env.headerBytes ⟨page, q.DataPacketsPerFlashPage, nextWriteId q, metadata⟩)
          (toInt32 env.sizeofHeader) (data.map env.dataBytes).flatten
          (toInt32 (toSizeT (toSizeT q.DataPacketsPerFlashPage * env.sizeofData))) w).1
          ≠ 0 := by
        simpa [writeDataPacketsToFlashPage] using hw
      have hfl := (eraseThenWriteFlashPage_failure env hok page _ _ _ _ w hrc).1
      rw [flashWriteData_cons env q data metadata w page rest hq]
      dsimp only
      rw [if_pos (by simpa using hw)]
      refine ⟨hpart, ?_, ?_⟩
      · intro h hh
        show readHeader env (eraseThenWriteFlashPage env page _ _ _ _ w).2.flash _ = h
        rw [hfl]
        exact hdata h hh
      · intro p hp
        show (readHeader env (eraseThenWriteFlashPage env page _ _ _ _ w).2.flash p).pageNumber
          ≠ p
        rw [hfl]
        exact hempty p hp

end Recovery

section RecoveryPop

variable {F M D : Type}

/-- On a faithful flash a successful `clearFlashPage` leaves a header on the page whose
page number field is 0. -/
theorem clearFlashPage_header (env : Platform F M D) (hf : FaithfulFlash env) (page : Int)
    (w : World F) (hok : (clearFlashPage env page w).1 = true) :
    (readHeader env (clearFlashPage env page w).2.flash page).pageNumber = 0 := by
  simp only [clearFlashPage, decide_eq_true_eq] at hok
  simp only [clearFlashPage, readHeader]
  rw [eraseThenWriteFlashPage_header env hf page _ _ _ w (by simp) hok]
  exact hf.zero_header

theorem clearFlashPage_other_header (env : Platform F M D) (hf : FaithfulFlash env)
    (page : Int) (w : World F) (hok : (clearFlashPage env page w).1 = true)
    (p : Int) (hp : p ≠ page) :
    readHeader env (clearFlashPage env page w).2.flash p = readHeader env w.flash p := by
  simp only [clearFlashPage, decide_eq_true_eq] at hok
  exact eraseThenWriteFlashPage_other_header env hf page _ _ _ w hok p hp

theorem clearFlashPage_failure (env : Platform F M D) (hok : AlwaysSucceeds env) (page : Int)
    (w : World F) (hfail : ¬ (clearFlashPage env page w).1 = true) :
    (clearFlashPage env page w).2.flash = w.flash := by
  simp only [clearFlashPage, decide_eq_true_eq] at hfail
  exact (eraseThenWriteFlashPage_failure env hok page _ _ _ _ w hfail).1

theorem consistent_pop (env : Platform F M D) (hf : FaithfulFlash env)
    (hok : AlwaysSucceeds env) (lo hi : Int) (q : FlashQueue M) (w : World F)
    (hzero : (0 : Int) ∉ configuredPages lo (toInt32 (hi - lo + 1)))
    (h : Consistent env lo hi q w.flash) :
    Consistent env lo hi (flashPopDatum env q w).2.1 (flashPopDatum env q w).2.2.flash := by
  obtain ⟨hpart, hdata, hempty⟩ := h
  have hshape : q.dataFlashPages = [] ∨ ∃ front rest, q.dataFlashPages = front :: rest := by
    cases q.dataFlashPages <;> simp
  rcases hshape with hq | ⟨front, rest, hq⟩
  · rw [flashPopDatum_nil env q w hq]
    exact ⟨hpart, hdata, hempty⟩
  · have hnodup := nodup_of_partitioned hpart
    rw [dataPageNumbers, hq, List.map_cons] at hnodup
    have hfront : front.pageNumber ∈ configuredPages lo q.NumFlashPages :=
      mem_configuredPages_of_partitioned hpart (by simp [dataPageNumbers, hq])
    rw [flashPopDatum_cons env q w front rest hq]
    split_ifs with h1 h2
    · exact ⟨hpart, hdata, hempty⟩
    · have hother := clearFlashPage_other_header env hf front.pageNumber w h2
      refine ⟨?_, ?_, ?_⟩
      · have := partitioned_pop env lo hi q w hpart
        rw [flashPopDatum_cons env q w front rest hq, if_neg h1, if_pos h2] at this
        exact this
      · intro h hh
        have hne : h.pageNumber ≠ front.pageNumber := by
          intro heq
          have h3 := (List.nodup_append.mp hnodup).2.1
          have h4 := (List.nodup_cons.mp h3).1
          exact h4 (heq ▸ List.mem_map.mpr ⟨h, hh, rfl⟩)
        show readHeader env _ h.pageNumber = h
        rw [hother _ hne]
        exact hdata h (by rw [hq]; exact List.mem_cons_of_mem _ hh)
      · intro p hp
        show (readHeader env _ p).pageNumber ≠ p
        rcases List.mem_append.mp hp with h3 | h3
        · have hne : p ≠ front.pageNumber := by
            rintro rfl
            exact (List.nodup_append.mp hnodup).2.2 h3 (List.mem_cons_self _ _)
          rw [hother _ hne]
          exact hempty p h3
        · simp only [List.mem_singleton] at h3
          subst h3
          rw [clearFlashPage_header env hf _ w h2]
          intro h0
          rw [← h0, hpart.2.1] at hfront
          exact hzero hfront
    · have hfl := clearFlashPage_failure env hok front.pageNumber w h2
      refine ⟨hpart, ?_, ?_⟩
      · intro h hh
        show readHeader env (clearFlashPage env front.pageNumber w).2.flash _ = h
        rw [hfl]
        exact hdata h hh
      · intro p hp
        show (readHeader env (clearFlashPage env front.pageNumber w).2.flash p).pageNumber ≠ p
        rw [hfl]
        exact hempty p hp

theorem consistent_of_reachable (env : Platform F M D) (hf : FaithfulFlash env)
    (hok : AlwaysSucceeds env) (hsort : SortSpec env) (b lo hi : Int) (hlo : IsInt32 lo)
    (hzero : (0 : Int) ∉ configuredPages lo (toInt32 (hi - lo + 1)))
    (w0 : World F) (q : FlashQueue M) (w : World F) (h : Reachable env b lo hi w0 q w) :
    Consistent env lo hi q w.flash := by
  induction h with
  | init => exact consistent_construct env hsort b lo hi hlo w0
  | @write q w data metadata hr ih =>
    have hn : IsInt32 q.DataPacketsPerFlashPage := by
      rw [isInt32_packets_of_reachable env b lo hi w0 q w hr]
      exact isInt32_toInt32 _
    exact consistent_write env hf hok lo hi hlo q data metadata w hn ih
  | @pop q w _ ih => exact consistent_pop env hf hok lo hi q w hzero ih

/-- The constructor rebuilds a consistent queue object: the same pool up to order, and the
same data queue when that one is strictly ordered by write id. -/
theorem construct_of_consistent (env : Platform F M D) (hsort : SortSpec env)
    (b lo hi : Int) (hlo : IsInt32 lo) (q : FlashQueue M) (w : World F)
    (h : Consistent env lo hi q w.flash)
    (hord : q.dataFlashPages.Pairwise (fun a b => a.flashWriteId < b.flashWriteId)) :
    (construct env b lo hi w).1.dataFlashPages = q.dataFlashPages ∧
    (construct env b lo hi w).1.emptyFlashPages.Perm q.emptyFlashPages := by
  obtain ⟨⟨-, hnum, hperm⟩, hdata, hempty⟩ := h
  rw [hnum] at hperm
  simp only [construct]
  rw [scanLoop_construct env w.flash lo _ hlo]
  dsimp only
  have hfd : (q.emptyFlashPages ++ dataPageNumbers q).filter (isDataPage env w.flash)
      = dataPageNumbers q := by
    rw [List.filter_append, List.filter_eq_nil_iff.mpr, List.filter_eq_self.mpr, List.nil_append]
    · intro p hp
      obtain ⟨h, hh, rfl⟩ := List.mem_map.mp hp
      simp [isDataPage, hdata h hh]
    · intro p hp
      simpa [isDataPage] using fun heq => hempty p hp heq.symm
  have hfe : (q.emptyFlashPages ++ dataPageNumbers q).filter
      (fun p => !isDataPage env w.flash p) = q.emptyFlashPages := by
    rw [List.filter_append, List.filter_eq_self.mpr, List.filter_eq_nil_iff.mpr, List.append_nil]
    · intro p hp
      obtain ⟨h, hh, rfl⟩ := List.mem_map.mp hp
      simp [isDataPage, hdata h hh]
    · intro p hp
      simpa [isDataPage] using fun heq => hempty p hp heq.symm
  have hd : (((configuredPages lo (toInt32 (hi - lo + 1))).filter
      (isDataPage env w.flash)).map (readHeader env w.flash)).Perm q.dataFlashPages := by
    refine List.Perm.trans (((hperm.filter _).symm).map _) ?_
    rw [hfd, dataPageNumbers, List.map_map]
    have : q.dataFlashPages.map (readHeader env w.flash ∘ fun h => h.pageNumber)
        = q.dataFlashPages.map id :=
      List.map_congr_left (fun h hh => hdata h hh)
    rw [this, List.map_id]
  constructor
  · have hp2 := (hsort _).1.trans hd
    have hs2 : (env.stdSort lessByWriteId
        (((configuredPages lo (toInt32 (hi - lo + 1))).filter
          (isDataPage env w.flash)).map (readHeader env w.flash))).Pairwise
        (fun a b => a.flashWriteId < b.flashWriteId) := by
      apply pairwise_lt_of_le_of_nodup (hsort _).2
      refine ((hp2.map _).nodup_iff).mpr ?_
      rw [List.Nodup, List.pairwise_map]
      exact hord.imp (fun h => ne_of_lt h)
    haveI : IsAntisymm (FlashPageHeader M) (fun a b => a.flashWriteId < b.flashWriteId) :=
      ⟨fun a b h1 h2 => absurd h1 (not_lt_of_gt h2)⟩
    exact List.eq_of_perm_of_sorted hp2 hs2 hord
  · refine List.Perm.trans ((hperm.filter _).symm) ?_
    rw [hfe]

end RecoveryPop

section RecoveryIdempotence

variable {F M D : Type}

/-- Claim C4, as amended.  Recovery idempotence: over a flash that stores what is written
and whose primitive calls all succeed, for a page range that does not contain page 0 and
whose data-bearing pages carried pairwise distinct write ids when the queue was
constructed, in every state reached from the constructor by `flashWriteData` and
`flashPopDatum` calls in which the write id does not wrap around, running the constructor
again over the current flash yields the same dataFlashPages (same headers, same order), an
emptyFlashPages that is a permutation of the current one, the same constants, and the peek
cursor 0. -/
theorem recovery_idempotence (env : Platform F M D) (hf : FaithfulFlash env)
    (hok : AlwaysSucceeds env) (hsort : SortSpec env) (b lo hi : Int) (hlo : IsInt32 lo)
    (hzero : (0 : Int) ∉ configuredPages lo (toInt32 (hi - lo + 1)))
    (w0 : World F) (hdist : DistinctWriteIds env lo hi w0.flash)
    (q : FlashQueue M) (w : World F) (h : ReachableWithoutWrap env b lo hi w0 q w) :
    (construct env b lo hi w).1.dataFlashPages = q.dataFlashPages ∧
    (construct env b lo hi w).1.emptyFlashPages.Perm q.emptyFlashPages ∧
    (construct env b lo hi w).1.readDataPeekIndex = 0 ∧
    (construct env b lo hi w).1.DataPacketsPerFlashPage = q.DataPacketsPerFlashPage ∧
    (construct env b lo hi w).1.NumFlashPages = q.NumFlashPages ∧
    (construct env b lo hi w).1.LowestFlashPageNumber = q.LowestFlashPageNumber := by
  have hreach := reachable_of_withoutWrap env b lo hi w0 q w h
  have hcons := consistent_of_reachable env hf hok hsort b lo hi hlo hzero w0 q w hreach
  have hord := (writeOrdered_of_reachable env hf hsort b lo hi hlo w0 q w h).2 hdist
  obtain ⟨h1, h2⟩ := construct_of_consistent env hsort b lo hi hlo q w hcons hord
  refine ⟨h1, h2, rfl, ?_, ?_, ?_⟩
  · rw [isInt32_packets_of_reachable env b lo hi w0 q w hreach]
    rfl
  · exact hcons.1.2.1.symm
  · exact hcons.1.1.symm

end RecoveryIdempotence

section RecoveryWitnesses

/-- Counterexample to C4 as stated, in two runs.  First, over pages 1 and 2: a write whose
payload write returns status 1 returns false and leaves the queue empty with the pool
[1, 2], but the header it wrote is on page 1, and the constructor run over that flash
returns a queue holding page 1 and the pool [2].  Second, on a flash whose calls all
succeed, over pages 0 and 1: after page 0 was written and drained the queue is empty and
the pool is [1, 0]; the constructor run over that flash finds the cleared page 0
data-bearing (its all-zero header carries page number 0) and returns a queue holding one
page and the pool [1]. -/
theorem recovery_idempotence_counterexample :
    (failedPayloadWrite.1 = false ∧
      failedPayloadWrite.2.1.dataFlashPages = [] ∧
      failedPayloadWrite.2.1.emptyFlashPages = [1, 2] ∧
      (construct (simPlatform 64) 64 1 2 failedPayloadWrite.2.2).1.dataFlashPages
        = [⟨1, 12, 0, 0⟩] ∧
      (construct (simPlatform 64) 64 1 2 failedPayloadWrite.2.2).1.emptyFlashPages = [2]) ∧
    (demoDrainedA.2.1.dataFlashPages = [] ∧
      demoDrainedA.2.1.emptyFlashPages = [1, 0] ∧
      (construct (simPlatform 64) 64 0 1 demoDrainedA.2.2).1.dataFlashPages
        = [⟨0, 0, 0, 0⟩] ∧
      (construct (simPlatform 64) 64 0 1 demoDrainedA.2.2).1.emptyFlashPages = [1]) := by
  decide

/-- Witness for the amended C4: over pages 1 and 2, with one page written and one record
popped, the constructor rebuilds the same data queue. -/
theorem recovery_idempotence_witness :
    (0 : Int) ∉ configuredPages 1 (toInt32 (2 - 1 + 1)) ∧
    DistinctWriteIds (idealPlatform 64) 1 2 (idealWorld 255).flash ∧
    (construct (idealPlatform 64) 64 1 2 upperMidQueue.2.2).1.dataFlashPages
      = upperMidQueue.2.1.dataFlashPages :=
  have hz : (0 : Int) ∉ configuredPages 1 (toInt32 (2 - 1 + 1)) := by decide
  have hd : DistinctWriteIds (idealPlatform 64) 1 2 (idealWorld 255).flash := by
    unfold DistinctWriteIds
    decide
  ⟨hz, hd,
    (recovery_idempotence (idealPlatform 64) (faithfulFlash_idealPlatform 64 (by decide))
      (alwaysSucceeds_idealPlatform 64) (sortSpec_idealPlatform 64) 64 1 2 (by decide) hz
      (idealWorld 255) hd upperMidQueue.2.1 upperMidQueue.2.2
      (ReachableWithoutWrap.pop
        (ReachableWithoutWrap.write (demoRecords 0) 0 ReachableWithoutWrap.init
          (fun back hb => by
            have h0 : upperQueue.dataFlashPages = [] := by decide
            rw [h0] at hb
            cases hb)))).1⟩

end RecoveryWitnesses

section Payload

variable {F M D : Type}

/-- Byte `i * c + j` of the concatenation of chunks of `c` bytes is byte `j` of chunk `i`. -/
theorem getD_flatten_chunks (c : Nat) (l : List (List Nat)) (hl : ∀ x ∈ l, x.length = c) :
    ∀ (i j : Nat) (hi : i < l.length), j < c →
      l.flatten.getD (i * c + j) 0 = (l.get ⟨i, hi⟩).getD j 0 := by
  induction l with
  | nil => intro i j hi; cases hi
  | cons x xs ih =>
    intro i j hi hj
    have hx : x.length = c := hl x (List.mem_cons_self _ _)
    cases i with
    | zero =>
      simp only [List.flatten_cons, Nat.zero_mul, Nat.zero_add, List.get_eq_getElem,
        List.getElem_cons_zero, List.getD_eq_getElem?_getD]
      rw [List.getElem?_append_left (by omega)]
    | succ i =>
      have hi2 : i < xs.length := by simpa using hi
      have := ih (fun y hy => hl y (List.mem_cons_of_mem _ hy)) i j hi2 hj
      simp only [List.flatten_cons, List.get_eq_getElem, List.getElem_cons_succ,
        List.getD_eq_getElem?_getD] at this ⊢
      rw [List.getElem?_append_right (by rw [hx, Nat.succ_mul]; omega)]
      rw [← this]
      congr 2
      rw [hx, Nat.succ_mul]
      omega

theorem length_flatten_chunks (c : Nat) (l : List (List Nat)) (hl : ∀ x ∈ l, x.length = c) :
    l.flatten.length = l.length * c := by
  induction l with
  | nil => simp
  | cons x xs ih =>
    rw [List.flatten_cons, List.length_append, ih (fun y hy => hl y (List.mem_cons_of_mem _ hy)),
      hl x (List.mem_cons_self _ _), List.length_cons, Nat.succ_mul]
    omega

/-- After a successful `eraseThenWriteFlashPage` the payload bytes read back. -/
theorem eraseThenWriteFlashPage_data (env : Platform F M D) (hf : FaithfulFlash env)
    (page : Int) (header : List Nat) (data : List Nat) (nd : Int) (w : World F)
    (h0 : (eraseThenWriteFlashPage env page header (toInt32 env.sizeofHeader) data nd w).1
      = 0)
    (k : Nat) (hk1 : (k : Int) < nd) (hk2 : k < data.length) :
    env.load (eraseThenWriteFlashPage env page header (toInt32 env.sizeofHeader) data nd
      w).2.flash (env.ADDRESS_OF_PAGE page + env.sizeofHeader + k) = data.getD k 0 := by
  have hsz : toInt32 env.sizeofHeader = env.sizeofHeader :=
    toInt32_of_isInt32 ⟨by have := hf.sizeofHeader_small; omega, hf.sizeofHeader_small⟩
  rw [hsz] at h0 ⊢
  obtain ⟨-, -, -, hd, hfl⟩ := eraseThenWriteFlashPage_success env hf page header _ data nd w h0
  rw [hfl]
  exact hf.write_stored _ _ _ _ k hd hk1 hk2

/-- When every primitive call succeeds, `eraseThenWriteFlashPage` returns 0 for a request
the bounds check accepts. -/
theorem eraseThenWriteFlashPage_ok (env : Platform F M D) (hok : AlwaysSucceeds env)
    (page : Int) (header : List Nat) (nh : Int) (data : List Nat) (nd : Int) (w : World F)
    (hb : env.PAGE_FROM_ADDRESS (env.ADDRESS_OF_PAGE page + nh + nd - 1) = page) :
    (eraseThenWriteFlashPage env page header nh data nd w).1 = 0 := by
  by_contra h
  exact (eraseThenWriteFlashPage_failure env hok page header nh data nd w h).2 hb

theorem payloadBytes_eq (env : Platform F M D) (n : Nat)
    (hbytes : (n : Int) * env.sizeofData < 2147483648) :
    payloadBytes env n = (n : Int) * env.sizeofData := by
  have h0 : (0 : Int) ≤ (n : Int) * env.sizeofData := by positivity
  unfold payloadBytes
  by_cases hz : env.sizeofData = 0
  · simp [hz, toSizeT, toInt32]
  · have hpos : (1 : Int) ≤ env.sizeofData := by omega
    have hn : (n : Int) ≤ (n : Int) * env.sizeofData := by nlinarith
    have h1 : toSizeT (n : Int) = n := by unfold toSizeT; omega
    rw [h1]
    generalize (n : Int) * (env.sizeofData : Int) = x at *
    unfold toSizeT toInt32
    omega

end Payload

section StoredRecords

variable {F M D : Type}

/-- After a successful `eraseThenWriteFlashPage` whose payload is the object representation
of `n` records, the page stores those records. -/
theorem storedRecords_written (env : Platform F M D) (hf : FaithfulFlash env) (page : Int)
    (header : List Nat) (data : List D) (n : Nat) (w : World F) (hlen : data.length = n)
    (h0 : (eraseThenWriteFlashPage env page header (toInt32 env.sizeofHeader)
      (data.map env.dataBytes).flatten ((n : Int) * env.sizeofData) w).1 = 0) :
    storedRecords env (eraseThenWriteFlashPage env page header (toInt32 env.sizeofHeader)
      (data.map env.dataBytes).flatten ((n : Int) * env.sizeofData) w).2.flash page n
      = data := by
  have hchunks : ∀ x ∈ data.map env.dataBytes, x.length = env.sizeofData := by
    intro x hx
    obtain ⟨d, -, rfl⟩ := List.mem_map.mp hx
    exact hf.data_length d
  have hflat := length_flatten_chunks env.sizeofData _ hchunks
  rw [List.length_map, hlen] at hflat
  apply List.ext_getElem
  · simp [storedRecords, hlen]
  · intro i h1 h2
    have hi : i < n := by simpa [storedRecords] using h1
    simp only [storedRecords, List.getElem_map, List.getElem_range, readRecord]
    have hbytes : readBytes env (eraseThenWriteFlashPage env page header
        (toInt32 env.sizeofHeader) (data.map env.dataBytes).flatten
        ((n : Int) * env.sizeofData) w).2.flash
        (getDataOnPage env page + (i : Int) * env.sizeofData) env.sizeofData
        = env.dataBytes (data.get ⟨i, h2⟩) := by
      conv_rhs => rw [← map_range_getD (env.dataBytes (data.get ⟨i, h2⟩)) env.sizeofData
        (hf.data_length _)]
      unfold readBytes
      apply List.map_congr_left
      intro j hj
      have hj2 : j < env.sizeofData := List.mem_range.mp hj
      have hlt : i * env.sizeofData + j < n * env.sizeofData := by
        have := Nat.mul_le_mul_right env.sizeofData (Nat.succ_le_of_lt hi)
        rw [Nat.succ_mul] at this
        omega
      have hload := eraseThenWriteFlashPage_data env hf page header
        (data.map env.dataBytes).flatten ((n : Int) * env.sizeofData) w h0
        (i * env.sizeofData + j) (by exact_mod_cast hlt) (by rw [hflat]; exact hlt)
      have haddr : getDataOnPage env page + (i : Int) * env.sizeofData + (j : Int)
          = env.ADDRESS_OF_PAGE page + env.sizeofHeader + ((i * env.sizeofData + j : Nat) : Int) := by
        unfold getDataOnPage
        push_cast
        ring
      rw [haddr, hload]
      have hi3 : i < (data.map env.dataBytes).length := by simpa using h2
      rw [getD_flatten_chunks env.sizeofData _ hchunks i j hi3 hj2]
      simp
    rw [hbytes]
    simpa using hf.data_roundtrip (data.get ⟨i, h2⟩)

/-- A successful `eraseThenWriteFlashPage` leaves the records of every other page that
holds them within its bounds as they were. -/
theorem storedRecords_elsewhere (env : Platform F M D) (hf : FaithfulFlash env) (page : Int)
    (header : List Nat) (data : List Nat) (nd : Int) (w : World F)
    (h0 : (eraseThenWriteFlashPage env page header (toInt32 env.sizeofHeader) data nd w).1
      = 0)
    (p : Int) (hp : p ≠ page) (n : Nat)
    (hfit : env.PAGE_FROM_ADDRESS (env.ADDRESS_OF_PAGE p + env.sizeofHeader
      + (n : Int) * env.sizeofData - 1) = p) :
    storedRecords env (eraseThenWriteFlashPage env page header (toInt32 env.sizeofHeader)
      data nd w).2.flash p n = storedRecords env w.flash p n := by
  unfold storedRecords
  apply List.map_congr_left
  intro i hi
  have hi2 : i < n := List.mem_range.mp hi
  unfold readRecord
  congr 1
  apply readBytes_congr
  intro j hj
  apply eraseThenWriteFlashPage_elsewhere env hf page header data nd w h0
  have hlt : i * env.sizeofData + j < n * env.sizeofData := by
    have := Nat.mul_le_mul_right env.sizeofData (Nat.succ_le_of_lt hi2)
    rw [Nat.succ_mul] at this
    omega
  have hlt2 : (i : Int) * env.sizeofData + j < (n : Int) * env.sizeofData := by
    exact_mod_cast hlt
  have hnn : (0 : Int) ≤ (i : Int) * env.sizeofData := by positivity
  have m1 := hf.page_monotone (env.ADDRESS_OF_PAGE p)
    (getDataOnPage env p + (i : Int) * env.sizeofData + j) (by unfold getDataOnPage; omega)
  have m2 := hf.page_monotone (getDataOnPage env p + (i : Int) * env.sizeofData + j)
    (env.ADDRESS_OF_PAGE p + env.sizeofHeader + (n : Int) * env.sizeofData - 1)
    (by unfold getDataOnPage; omega)
  rw [hf.page_of_address] at m1
  rw [hfit] at m2
  rw [le_antisymm m2 m1]
  exact hp

end StoredRecords

section RoundTripSteps

variable {F M D : Type}

/-- One write of the round trip: it succeeds, takes the front page of the pool, leaves the
cursor alone, and the flash then stores the new records behind the pending ones. -/
theorem holds_write (env : Platform F M D) (hf : FaithfulFlash env) (hok : AlwaysSucceeds env)
    (n : Nat) (hn31 : (n : Int) < 2147483648) (lo hi : Int) (hlo : IsInt32 lo)
    (hbytes : (n : Int) * env.sizeofData < 2147483648)
    (hfit : ∀ p ∈ configuredPages lo (toInt32 (hi - lo + 1)),
      env.PAGE_FROM_ADDRESS (env.ADDRESS_OF_PAGE p + env.sizeofHeader
        + (n : Int) * env.sizeofData - 1) = p)
    (q : FlashQueue M) (w : World F) (pending : List (Int × List D)) (page : Int)
    (rest : List Int) (hq : q.emptyFlashPages = page :: rest) (data : List D) (metadata : M)
    (hlen : data.length = n) (h : Holds env n lo hi q w.flash pending) :
    (flashWriteData env q data metadata w).1 = true ∧
    (flashWriteData env q data metadata w).2.1.emptyFlashPages = rest ∧
    (flashWriteData env q data metadata w).2.1.readDataPeekIndex = q.readDataPeekIndex ∧
    Holds env n lo hi (flashWriteData env q data metadata w).2.1
      (flashWriteData env q data metadata w).2.2.flash (pending ++ [(page, data)]) := by
  obtain ⟨hpart, hcount, hpages, hcounts, hstored⟩ := h
  have hmem : ∀ p, p ∈ q.emptyFlashPages ++ dataPageNumbers q →
      p ∈ configuredPages lo (toInt32 (hi - lo + 1)) := fun p hp => by
    have := mem_configuredPages_of_partitioned hpart hp
    rwa [hpart.2.1] at this
  have hpagemem := hmem page (by rw [hq]; simp)
  have hpage : IsInt32 page := isInt32_of_mem_configuredPages hlo hpagemem
  have hnodup := nodup_of_partitioned hpart
  rw [hq] at hnodup
  have hsz : toInt32 env.sizeofHeader = env.sizeofHeader :=
    toInt32_of_isInt32 ⟨by have := hf.sizeofHeader_small; omega, hf.sizeofHeader_small⟩
  have hpay : toInt32 (toSizeT (toSizeT q.DataPacketsPerFlashPage * env.sizeofData))
      = (n : Int) * env.sizeofData := by
    rw [hcount]
    exact payloadBytes_eq env n hbytes
  have hrc : (eraseThenWriteFlashPage env page
      (env.headerBytes ⟨page, q.DataPacketsPerFlashPage, nextWriteId q, metadata⟩)
      (toInt32 env.sizeofHeader) (data.map env.dataBytes).flatten
      ((n : Int) * env.sizeofData) w).1 = 0 := by
    apply eraseThenWriteFlashPage_ok env hok
    rw [hsz]
    exact hfit page hpagemem
  have hw : (writeDataPacketsToFlashPage env page (nextWriteId q) metadata data
      q.DataPacketsPerFlashPage w).1 = true := by
    simp only [writeDataPacketsToFlashPage, hpay, decide_eq_true_eq]
    exact hrc
  have hflash : (writeDataPacketsToFlashPage env page (nextWriteId q) metadata data
      q.DataPacketsPerFlashPage w).2.flash = (eraseThenWriteFlashPage env page
      (env.headerBytes ⟨page, q.DataPacketsPerFlashPage, nextWriteId q, metadata⟩)
      (toInt32 env.sizeofHeader) (data.map env.dataBytes).flatten
      ((n : Int) * env.sizeofData) w).2.flash := by
    simp only [writeDataPacketsToFlashPage, hpay]
  have hhead := writeDataPacketsToFlashPage_header env hf page _ metadata data _ w hpage
    (isInt32_nextWriteId q) (by rw [hcount]; unfold IsInt32; omega) hw
  have hres : flashWriteData env q data metadata w =
      (true, { q with emptyFlashPages := rest
                      dataFlashPages := q.dataFlashPages ++
                        [⟨page, q.DataPacketsPerFlashPage, nextWriteId q, metadata⟩] },
        (writeDataPacketsToFlashPage env page (nextWriteId q) metadata data
          q.DataPacketsPerFlashPage w).2) := by
    rw [flashWriteData_cons env q data metadata w page rest hq]
    dsimp only
    rw [if_neg (by simp [hw]), hhead, if_neg (by simp)]
  have hpart2 := partitioned_write env lo hi q data metadata w hpart
  rw [hres] at hpart2 ⊢
  refine ⟨rfl, rfl, rfl, hpart2, hcount, ?_, ?_, ?_⟩
  · simp only [dataPageNumbers, List.map_append, List.map_cons, List.map_nil]
    rw [← hpages, dataPageNumbers]
  · intro h hh
    rcases List.mem_append.mp hh with h1 | h1
    · exact hcounts h h1
    · simp only [List.mem_singleton] at h1
      rw [h1]
      exact hcount
  · intro e he
    show storedRecords env (writeDataPacketsToFlashPage env page (nextWriteId q) metadata data
      q.DataPacketsPerFlashPage w).2.flash e.1 n = e.2
    rw [hflash]
    rcases List.mem_append.mp he with h1 | h1
    · have he1 : e.1 ∈ dataPageNumbers q := by
        rw [hpages]
        exact List.mem_map.mpr ⟨e, h1, rfl⟩
      have hne : e.1 ≠ page := by
        intro heq
        exact (List.nodup_append.mp hnodup).2.2 (List.mem_cons_self _ _) (heq ▸ he1)
      rw [storedRecords_elsewhere env hf page _ _ _ w hrc e.1 hne n
        (hfit e.1 (hmem e.1 (List.mem_append_right _ he1)))]
      exact hstored e h1
    · simp only [List.mem_singleton] at h1
      rw [h1]
      exact storedRecords_written env hf page _ data n w hlen hrc

theorem flashPeekDatum_cons (env : Platform F M D) (q : FlashQueue M) (w : World F)
    (front : FlashPageHeader M) (rest : List (FlashPageHeader M))
    (hq : q.dataFlashPages = front :: rest) (i : Nat) (hcur : q.readDataPeekIndex = i) :
    flashPeekDatum env q w = some (readRecord env w.flash front.pageNumber i) := by
  simp only [flashPeekDatum, hq, hcur, readRecord]

/-- One round of the read-out: the peek returns record `i` of the front page and the pop
succeeds; the cursor advances within the page, or the page is cleared and leaves the
queue. -/
theorem holds_pop (env : Platform F M D) (hf : FaithfulFlash env) (hok : AlwaysSucceeds env)
    (n : Nat) (hn31 : (n : Int) < 2147483648) (lo hi : Int)
    (hfit : ∀ p ∈ configuredPages lo (toInt32 (hi - lo + 1)),
      env.PAGE_FROM_ADDRESS (env.ADDRESS_OF_PAGE p + env.sizeofHeader
        + (n : Int) * env.sizeofData - 1) = p)
    (q : FlashQueue M) (w : World F) (p : Int) (recs : List D)
    (pending : List (Int × List D)) (i : Nat) (hin : i < n) (hcur : q.readDataPeekIndex = i)
    (h : Holds env n lo hi q w.flash ((p, recs) :: pending)) :
    flashPeekDatum env q w = recs.get? i ∧
    (flashPopDatum env q w).1 = true ∧
    (i + 1 < n →
      (flashPopDatum env q w).2.1.readDataPeekIndex = ((i + 1 : Nat) : Int) ∧
      Holds env n lo hi (flashPopDatum env q w).2.1 (flashPopDatum env q w).2.2.flash
        ((p, recs) :: pending)) ∧
    (¬ i + 1 < n →
      (flashPopDatum env q w).2.1.readDataPeekIndex = 0 ∧
      Holds env n lo hi (flashPopDatum env q w).2.1 (flashPopDatum env q w).2.2.flash
        pending) := by
  obtain ⟨hpart, hcount, hpages, hcounts, hstored⟩ := h
  have hshape : ∃ front rest, q.dataFlashPages = front :: rest ∧ front.pageNumber = p ∧
      rest.map (fun h => h.pageNumber) = pending.map Prod.fst := by
    rw [dataPageNumbers] at hpages
    cases hd : q.dataFlashPages with
    | nil => rw [hd] at hpages; simp at hpages
    | cons front rest =>
      rw [hd] at hpages
      simp only [List.map_cons, List.cons.injEq] at hpages
      exact ⟨front, rest, rfl, hpages.1, hpages.2⟩
  obtain ⟨front, rest, hq, hfp, hrest⟩ := hshape
  have hfc : front.count = n := hcounts front (by rw [hq]; simp)
  have hrecs : storedRecords env w.flash p n = recs := hstored (p, recs) (by simp)
  have hmem : ∀ x, x ∈ q.emptyFlashPages ++ dataPageNumbers q →
      x ∈ configuredPages lo (toInt32 (hi - lo + 1)) := fun x hx => by
    have := mem_configuredPages_of_partitioned hpart hx
    rwa [hpart.2.1] at this
  have hidx : toInt32 (q.readDataPeekIndex + 1) = ((i + 1 : Nat) : Int) := by
    rw [hcur, toInt32_of_isInt32]
    · push_cast; rfl
    · unfold IsInt32; omega
  refine ⟨?_, ?_, ?_, ?_⟩
  · rw [flashPeekDatum_cons env q w front rest hq i hcur, hfp, ← hrecs]
    simp [storedRecords, List.getElem?_range hin, hin]
  · rw [flashPopDatum_cons env q w front rest hq, hidx, hfc]
    split_ifs with h1 h2
    · rfl
    · rfl
    · exfalso
      apply h2
      simp only [clearFlashPage, decide_eq_true_eq]
      apply eraseThenWriteFlashPage_ok env hok
      have hsz : toInt32 env.sizeofHeader = env.sizeofHeader :=
        toInt32_of_isInt32 ⟨by have := hf.sizeofHeader_small; omega, hf.sizeofHeader_small⟩
      rw [hsz, add_zero]
      exact hf.header_fits _
  · intro hlt
    have hlt2 : ((i + 1 : Nat) : Int) < (n : Int) := by exact_mod_cast hlt
    rw [flashPopDatum_cons env q w front rest hq, hidx, hfc, if_pos hlt2]
    exact ⟨rfl, hpart, hcount, hpages, hcounts, hstored⟩
  · intro hge
    have hge2 : ¬ ((i + 1 : Nat) : Int) < (n : Int) := by exact_mod_cast hge
    have hsz : toInt32 env.sizeofHeader = env.sizeofHeader :=
      toInt32_of_isInt32 ⟨by have := hf.sizeofHeader_small; omega, hf.sizeofHeader_small⟩
    have hrc : (eraseThenWriteFlashPage env front.pageNumber
        (List.replicate env.sizeofHeader 0) (toInt32 env.sizeofHeader) [] 0 w).1 = 0 := by
      apply eraseThenWriteFlashPage_ok env hok
      rw [hsz, add_zero]
      exact hf.header_fits _
    have hclear : (clearFlashPage env front.pageNumber w).1 = true := by
      simp only [clearFlashPage, decide_eq_true_eq]
      exact hrc
    have hpart2 := partitioned_pop env lo hi q w hpart
    rw [flashPopDatum_cons env q w front rest hq, hidx, hfc, if_neg hge2, if_pos hclear]
      at hpart2 ⊢
    have hnodup := nodup_of_partitioned hpart
    rw [dataPageNumbers, hq, List.map_cons] at hnodup
    refine ⟨rfl, hpart2, hcount, hrest, fun h hh => hcounts h (by rw [hq]; simp [hh]), ?_⟩
    intro e he
    show storedRecords env (eraseThenWriteFlashPage env front.pageNumber
      (List.replicate env.sizeofHeader 0) (toInt32 env.sizeofHeader) [] 0 w).2.flash e.1 n = e.2
    have he1 : e.1 ∈ rest.map (fun h => h.pageNumber) := by
      rw [hrest]
      exact List.mem_map.mpr ⟨e, he, rfl⟩
    have hne : e.1 ≠ front.pageNumber := by
      intro heq
      have h3 := (List.nodup_append.mp hnodup).2.1
      exact (List.nodup_cons.mp h3).1 (heq ▸ he1)
    rw [storedRecords_elsewhere env hf front.pageNumber _ _ _ w hrc e.1 hne n
      (hfit e.1 (hmem e.1 (List.mem_append_right _ (by
        rw [dataPageNumbers, hq, List.map_cons]
        exact List.mem_cons_of_mem _ he1))))]
    exact hstored e (List.mem_cons_of_mem _ he)

end RoundTripSteps

section RoundTrip

variable {F M D : Type}

theorem writeAll_holds (env : Platform F M D) (hf : FaithfulFlash env)
    (hok : AlwaysSucceeds env) (n : Nat) (hn31 : (n : Int) < 2147483648) (lo hi : Int)
    (hlo : IsInt32 lo) (hbytes : (n : Int) * env.sizeofData < 2147483648)
    (hfit : ∀ p ∈ configuredPages lo (toInt32 (hi - lo + 1)),
      env.PAGE_FROM_ADDRESS (env.ADDRESS_OF_PAGE p + env.sizeofHeader
        + (n : Int) * env.sizeofData - 1) = p)
    (items : List (List D × M)) :
    ∀ (q : FlashQueue M) (w : World F) (pending : List (Int × List D)),
      items.length ≤ q.emptyFlashPages.length →
      (∀ item ∈ items, item.1.length = n) →
      Holds env n lo hi q w.flash pending →
      (writeAll env q w items).1 = List.replicate items.length true ∧
      (writeAll env q w items).2.1.readDataPeekIndex = q.readDataPeekIndex ∧
      ∃ pages : List Int, pages.length = items.length ∧
        Holds env n lo hi (writeAll env q w items).2.1 (writeAll env q w items).2.2.flash
          (pending ++ pages.zip (items.map Prod.fst)) := by
  induction items with
  | nil =>
    intro q w pending _ _ h
    exact ⟨rfl, rfl, [], rfl, by simpa [writeAll] using h⟩
  | cons item items ih =>
    intro q w pending hk hlen h
    have hshape : ∃ page rest, q.emptyFlashPages = page :: rest := by
      cases hq : q.emptyFlashPages with
      | nil => rw [hq] at hk; simp at hk
      | cons page rest => exact ⟨page, rest, rfl⟩
    obtain ⟨page, rest, hq⟩ := hshape
    obtain ⟨h1, h2, h3, h4⟩ := holds_write env hf hok n hn31 lo hi hlo hbytes hfit q w pending
      page rest hq item.1 item.2 (hlen item (List.mem_cons_self _ _)) h
    obtain ⟨i1, i2, pages, i3, i4⟩ := ih (flashWriteData env q item.1 item.2 w).2.1
      (flashWriteData env q item.1 item.2 w).2.2 (pending ++ [(page, item.1)])
      (by rw [h2]; rw [hq] at hk; simpa using hk)
      (fun x hx => hlen x (List.mem_cons_of_mem _ hx)) h4
    refine ⟨?_, ?_, page :: pages, by simp [i3], ?_⟩
    · simp only [writeAll, h1, i1, List.length_cons, List.replicate_succ]
    · simp only [writeAll, i2, h3]
    · simpa [writeAll] using i4

theorem drain_add (env : Platform F M D) (a b : Nat) :
    ∀ (q : FlashQueue M) (w : World F),
      drain env (a + b) q w =
        ((drain env a q w).1 ++ (drain env b (drain env a q w).2.1 (drain env a q w).2.2).1,
          (drain env b (drain env a q w).2.1 (drain env a q w).2.2).2) := by
  induction a with
  | zero => intro q w; simp [drain]
  | succ a ih =>
    intro q w
    rw [Nat.succ_add]
    simp only [drain, ih, List.cons_append]

/-- Reading out the rest of the front page: `m + 1` rounds starting at record `i`, with
`i + m + 1 = n`, return the records from index `i` on and leave the page cleared. -/
theorem drain_page (env : Platform F M D) (hf : FaithfulFlash env) (hok : AlwaysSucceeds env)
    (n : Nat) (hn31 : (n : Int) < 2147483648) (lo hi : Int)
    (hfit : ∀ p ∈ configuredPages lo (toInt32 (hi - lo + 1)),
      env.PAGE_FROM_ADDRESS (env.ADDRESS_OF_PAGE p + env.sizeofHeader
        + (n : Int) * env.sizeofData - 1) = p)
    (p : Int) (recs : List D) (hrecs : recs.length = n) (pending : List (Int × List D))
    (m : Nat) :
    ∀ (i : Nat) (q : FlashQueue M) (w : World F), i + m + 1 = n →
      q.readDataPeekIndex = i →
      Holds env n lo hi q w.flash ((p, recs) :: pending) →
      (drain env (m + 1) q w).1 = (recs.drop i).map (fun d => (some d, true)) ∧
      (drain env (m + 1) q w).2.1.readDataPeekIndex = 0 ∧
      Holds env n lo hi (drain env (m + 1) q w).2.1 (drain env (m + 1) q w).2.2.flash
        pending := by
  induction m with
  | zero =>
    intro i q w him hcur h
    obtain ⟨h1, h2, -, h4⟩ := holds_pop env hf hok n hn31 lo hi hfit q w p recs pending i
      (by omega) hcur h
    obtain ⟨h5, h6⟩ := h4 (by omega)
    have hget : recs.get? i = some (recs.get ⟨i, by omega⟩) := List.get?_eq_get _
    have hdrop : recs.drop i = [recs.get ⟨i, by omega⟩] := by
      rw [List.drop_eq_getElem_cons (by omega), List.drop_of_length_le (by omega)]
      rfl
    refine ⟨?_, h5, h6⟩
    simp only [drain, h1, h2, hget, hdrop, List.map_cons, List.map_nil]
  | succ m ih =>
    intro i q w him hcur h
    obtain ⟨h1, h2, h3, -⟩ := holds_pop env hf hok n hn31 lo hi hfit q w p recs pending i
      (by omega) hcur h
    obtain ⟨h5, h6⟩ := h3 (by omega)
    obtain ⟨i1, i2, i3⟩ := ih (i + 1) (flashPopDatum env q w).2.1 (flashPopDatum env q w).2.2
      (by omega) h5 h6
    have hget : recs.get? i = some (recs.get ⟨i, by omega⟩) := List.get?_eq_get _
    have hdrop : recs.drop i = recs.get ⟨i, by omega⟩ :: recs.drop (i + 1) := by
      rw [List.drop_eq_getElem_cons (by omega)]
      rfl
    refine ⟨?_, ?_, ?_⟩
    · rw [drain]
      simp only [h1, h2, hget, hdrop, List.map_cons, i1]
    · rw [drain]; exact i2
    · rw [drain]; exact i3

/-- Reading out every pending page returns all pending records in order and empties the
queue. -/
theorem drain_all (env : Platform F M D) (hf : FaithfulFlash env) (hok : AlwaysSucceeds env)
    (n : Nat) (hn1 : 1 ≤ n) (hn31 : (n : Int) < 2147483648) (lo hi : Int)
    (hfit : ∀ p ∈ configuredPages lo (toInt32 (hi - lo + 1)),
      env.PAGE_FROM_ADDRESS (env.ADDRESS_OF_PAGE p + env.sizeofHeader
        + (n : Int) * env.sizeofData - 1) = p)
    (pending : List (Int × List D)) :
    ∀ (q : FlashQueue M) (w : World F), (∀ e ∈ pending, e.2.length = n) →
      q.readDataPeekIndex = 0 →
      Holds env n lo hi q w.flash pending →
      (drain env (pending.length * n) q w).1 =
        (pending.map Prod.snd).flatten.map (fun d => (some d, true)) ∧
      (drain env (pending.length * n) q w).2.1.dataFlashPages = [] := by
  induction pending with
  | nil =>
    intro q w _ _ h
    refine ⟨by simp [drain], ?_⟩
    have := h.2.2.1
    simp only [dataPageNumbers, List.map_nil, List.map_eq_nil_iff] at this
    simpa [drain] using this
  | cons e pending ih =>
    intro q w hlen hcur h
    obtain ⟨p, recs⟩ := e
    have hrecs : recs.length = n := hlen (p, recs) (List.mem_cons_self _ _)
    obtain ⟨m, hm⟩ : ∃ m, n = m + 1 := ⟨n - 1, by omega⟩
    obtain ⟨h1, h2, h3⟩ := drain_page env hf hok n hn31 lo hi hfit p recs hrecs pending m 0 q w
      (by omega) (by simpa using hcur) h
    rw [← hm] at h1 h2 h3
    obtain ⟨i1, i2⟩ := ih (drain env n q w).2.1 (drain env n q w).2.2
      (fun x hx => hlen x (List.mem_cons_of_mem _ hx)) h2 h3
    have hsplit : (List.length ((p, recs) :: pending)) * n = n + pending.length * n := by
      rw [List.length_cons, Nat.succ_mul]
      omega
    rw [hsplit, drain_add]
    refine ⟨?_, i2⟩
    simp only [h1, i1, List.drop_zero, List.map_cons, List.flatten_cons, List.map_append]

end RoundTrip

section RoundTripTheorem

variable {F M D : Type}

/-- The queue constructed over a range without data-bearing pages: an empty data queue and
the whole range, in increasing order, as the pool. -/
theorem construct_blank (env : Platform F M D) (hsort : SortSpec env) (b lo hi : Int)
    (hlo : IsInt32 lo) (w0 : World F)
    (hblank : ∀ p ∈ configuredPages lo (toInt32 (hi - lo + 1)),
      isDataPage env w0.flash p = false) :
    (construct env b lo hi w0).1.dataFlashPages = [] ∧
    (construct env b lo hi w0).1.emptyFlashPages
      = configuredPages lo (toInt32 (hi - lo + 1)) := by
  simp only [construct]
  rw [scanLoop_construct env w0.flash lo _ hlo]
  dsimp only
  have h1 : (configuredPages lo (toInt32 (hi - lo + 1))).filter (isDataPage env w0.flash)
      = [] := List.filter_eq_nil_iff.mpr (fun p hp => by simp [hblank p hp])
  have h2 : (configuredPages lo (toInt32 (hi - lo + 1))).filter
      (fun p => !isDataPage env w0.flash p) = configuredPages lo (toInt32 (hi - lo + 1)) :=
    List.filter_eq_self.mpr (fun p hp => by simp [hblank p hp])
  rw [h1, h2]
  exact ⟨List.Perm.eq_nil (hsort []).1, rfl⟩

/-- Claim C1, as amended.  Round trip: over a flash that stores what is written and whose
primitive calls all succeed, starting from the queue constructed over a range without
data-bearing pages (lowest page and loop bound values of type int), with
DataPacketsPerFlashPage = n ≥ 1 such that the header and n records fit in every page of the
range (the bounds check of `eraseThenWriteFlashPage` accepts them, and the payload size is
below 2^31), for every k ≤ NumFlashPages and every k arrays of n records: the k
`flashWriteData` calls all return true, the following k * n rounds of `flashPeekDatum`,
`flashPopDatum` return exactly the written records in the order written with every pop
returning true, and afterwards `flashDataAvailable` is false. -/
theorem round_trip (env : Platform F M D) (hf : FaithfulFlash env) (hok : AlwaysSucceeds env)
    (hsort : SortSpec env) (b lo hi : Int) (hlo : IsInt32 lo)
    (hrange : IsInt32 (lo + toInt32 (hi - lo + 1))) (w0 : World F)
    (hblank : ∀ p ∈ configuredPages lo (toInt32 (hi - lo + 1)),
      isDataPage env w0.flash p = false)
    (n : Nat) (hn1 : 1 ≤ n)
    (hn : (construct env b lo hi w0).1.DataPacketsPerFlashPage = n)
    (hbytes : (n : Int) * env.sizeofData < 2147483648)
    (hfit : ∀ p ∈ configuredPages lo (toInt32 (hi - lo + 1)),
      env.PAGE_FROM_ADDRESS (env.ADDRESS_OF_PAGE p + env.sizeofHeader
        + (n : Int) * env.sizeofData - 1) = p)
    (items : List (List D × M))
    (hk : (items.length : Int) ≤ (construct env b lo hi w0).1.NumFlashPages)
    (hlen : ∀ item ∈ items, item.1.length = n) :
    (writeAll env (construct env b lo hi w0).1 (construct env b lo hi w0).2 items).1
      = List.replicate items.length true ∧
    (drain env (items.length * n)
      (writeAll env (construct env b lo hi w0).1 (construct env b lo hi w0).2 items).2.1
      (writeAll env (construct env b lo hi w0).1 (construct env b lo hi w0).2 items).2.2).1
      = (items.map Prod.fst).flatten.map (fun d => (some d, true)) ∧
    flashDataAvailable (drain env (items.length * n)
      (writeAll env (construct env b lo hi w0).1 (construct env b lo hi w0).2 items).2.1
      (writeAll env (construct env b lo hi w0).1 (construct env b lo hi w0).2 items).2.2).2.1
      = false := by
  obtain ⟨hd, he⟩ := construct_blank env hsort b lo hi hlo w0 hblank
  have hn31 : (n : Int) < 2147483648 := by
    rw [← hn]
    exact (isInt32_toInt32 _).2
  have hpool : items.length ≤ (construct env b lo hi w0).1.emptyFlashPages.length := by
    rw [he]
    simp only [configuredPages, pagesFrom, List.length_map, List.length_range, scanCount]
    rw [toInt32_of_isInt32 hrange]
    have hk2 : (items.length : Int) ≤ toInt32 (hi - lo + 1) := hk
    omega
  have hinit : Holds env n lo hi (construct env b lo hi w0).1
      (construct env b lo hi w0).2.flash ([] : List (Int × List D)) :=
    ⟨partitioned_construct env (fun l => (hsort l).1) b lo hi hlo w0, hn,
      by simp [dataPageNumbers, hd], by simp [hd], by simp⟩
  obtain ⟨h1, h2, pages, h3, h4⟩ := writeAll_holds env hf hok n hn31 lo hi hlo hbytes hfit items
    (construct env b lo hi w0).1 (construct env b lo hi w0).2 [] hpool hlen hinit
  rw [List.nil_append] at h4
  have hlenz : (pages.zip (items.map Prod.fst)).length = items.length := by
    simp [h3]
  have hsnd : (pages.zip (items.map Prod.fst)).map Prod.snd = items.map Prod.fst := by
    apply List.map_snd_zip
    simp [h3]
  obtain ⟨h5, h6⟩ := drain_all env hf hok n hn1 hn31 lo hi hfit (pages.zip (items.map Prod.fst))
    _ _ (fun e he => by
      have h7 : e.2 ∈ (pages.zip (items.map Prod.fst)).map Prod.snd :=
        List.mem_map.mpr ⟨e, he, rfl⟩
      rw [hsnd] at h7
      obtain ⟨item, hitem, heq⟩ := List.mem_map.mp h7
      rw [← heq]
      exact hlen item hitem)
    (h2.trans rfl) h4
  rw [hlenz, hsnd] at h5
  rw [hlenz] at h6
  exact ⟨h1, h5, by simp [flashDataAvailable, h6]⟩

end RoundTripTheorem

section RoundTripWitnesses

/-- Counterexample to C1 as stated: on a device with 64-byte pages whose primitive calls
always succeed, the queue constructed with `bytesPerFlashPage = 128` over the erased pages
0 and 1 has DataPacketsPerFlashPage = 28 ≥ 1, no data-bearing page and NumFlashPages = 2;
the single write (k = 1) of 28 records returns false: the bounds check rejects it, and no
primitive is called. -/
theorem round_trip_counterexample :
    misfitQueue.DataPacketsPerFlashPage = 28 ∧
    misfitQueue.dataFlashPages = [] ∧
    misfitQueue.NumFlashPages = 2 ∧
    misfitRecords.length = 28 ∧
    (writeAll (idealPlatform 64) misfitQueue (idealWorld 255) [(misfitRecords, 0)]).1
      = [false] ∧
    (writeAll (idealPlatform 64) misfitQueue (idealWorld 255)
      [(misfitRecords, 0)]).2.2.calls = [] := by
  decide

/-- Witness for the amended C1: the two-page scenario, 12 records per page, two arrays. -/
theorem round_trip_witness :
    (drain (idealPlatform 64) (demoItems.length * 12)
      (writeAll (idealPlatform 64) (construct (idealPlatform 64) 64 0 1 (idealWorld 255)).1
        (construct (idealPlatform 64) 64 0 1 (idealWorld 255)).2 demoItems).2.1
      (writeAll (idealPlatform 64) (construct (idealPlatform 64) 64 0 1 (idealWorld 255)).1
        (construct (idealPlatform 64) 64 0 1 (idealWorld 255)).2 demoItems).2.2).1
      = (demoItems.map Prod.fst).flatten.map (fun d => (some d, true)) :=
  (round_trip (idealPlatform 64) (faithfulFlash_idealPlatform 64 (by decide))
    (alwaysSucceeds_idealPlatform 64) (sortSpec_idealPlatform 64) 64 0 1 (by decide)
    (by decide) (idealWorld 255) (by decide) 12 (by decide) (by decide) (by decide)
    (by decide) demoItems (by decide) (by decide)).2.1

end RoundTripWitnesses

section RoundRobin

variable {F M D : Type}

end RoundRobin

section WritePostcondition

variable {F M D : Type}

theorem nextWriteId_of_nil (q : FlashQueue M) (h : q.dataFlashPages = []) :
    nextWriteId q = 0 := by
  simp [nextWriteId, h]

theorem nextWriteId_of_back (q : FlashQueue M) (back : FlashPageHeader M)
    (h : q.dataFlashPages.getLast? = some back) (hnw : IsInt32 (back.flashWriteId + 1)) :
    nextWriteId q = back.flashWriteId + 1 := by
  simp only [nextWriteId, h]
  exact toInt32_of_isInt32 hnw

/-- Claim C12.  Successful-write postcondition: over a flash that stores what is written,
with DataPacketsPerFlashPage and the front page of the pool values of type int, when
`flashWriteData` returns true the pool was not empty, emptyFlashPages has lost exactly its
front element `p`, dataFlashPages has gained at the back the header with pageNumber `p`,
count DataPacketsPerFlashPage, the supplied metadata, and flashWriteId 0 if the queue was
empty and the previous back's flashWriteId + 1 otherwise (where that sum is a value of type
int); the earlier entries, the peek cursor and the constants are unchanged. -/
theorem flashWriteData_success (env : Platform F M D) (hf : FaithfulFlash env)
    (q : FlashQueue M) (data : List D) (metadata : M) (w : World F)
    (hn : IsInt32 q.DataPacketsPerFlashPage)
    (hpage : ∀ p, q.emptyFlashPages.head? = some p → IsInt32 p)
    (hok : (flashWriteData env q data metadata w).1 = true) :
    ∃ p rest id,
      q.emptyFlashPages = p :: rest ∧
      (flashWriteData env q data metadata w).2.1.emptyFlashPages = rest ∧
      (flashWriteData env q data metadata w).2.1.dataFlashPages =
        q.dataFlashPages ++ [⟨p, q.DataPacketsPerFlashPage, id, metadata⟩] ∧
      (q.dataFlashPages = [] → id = 0) ∧
      (∀ back, q.dataFlashPages.getLast? = some back → IsInt32 (back.flashWriteId + 1) →
        id = back.flashWriteId + 1) ∧
      (flashWriteData env q data metadata w).2.1.readDataPeekIndex = q.readDataPeekIndex ∧
      (flashWriteData env q data metadata w).2.1 =
        { q with emptyFlashPages := rest
                 dataFlashPages := q.dataFlashPages ++
                   [⟨p, q.DataPacketsPerFlashPage, id, metadata⟩] } := by
  rcases flashWriteData_queue_cases env q data metadata w with
    ⟨hfalse, -⟩ | ⟨page, rest, hq, -, hwritten, hworld, -, hres⟩
  · rw [hfalse] at hok
    cases hok
  · have hhead := writeDataPacketsToFlashPage_header env hf page (nextWriteId q) metadata data
      q.DataPacketsPerFlashPage w (hpage page (by rw [hq]; rfl)) (isInt32_nextWriteId q) hn
      hwritten
    rw [hworld, hhead] at hres
    refine ⟨page, rest, nextWriteId q, hq, ?_, ?_, nextWriteId_of_nil q,
      fun back hb hnw => nextWriteId_of_back q back hb hnw, ?_, hres⟩
    · rw [hres]
    · rw [hres]
    · rw [hres]

end WritePostcondition

section RecoveryScan

variable {F M D : Type}

theorem pairwise_lt_pagesFrom (page : Int) (n : Nat) :
    (pagesFrom page n).Pairwise (fun a b => a < b) := by
  unfold pagesFrom
  rw [List.pairwise_map]
  exact (List.pairwise_lt_range n).imp (fun h => by omega)

/-- Claim C18.  Recovery scan: for every flash content and page range (lowest page a value
of type int, `std::sort` meeting its contract), after construction emptyFlashPages is
exactly the list, in increasing order, of the pages `p` of the range whose stored header
pageNumber differs from `p`; dataFlashPages is a permutation of the stored headers of
exactly the pages `p` of the range whose stored header pageNumber equals `p`, arranged in
non-decreasing flashWriteId; the peek cursor is 0; and the world (the flash, the calls
issued, the messages logged) is as it was: the scan calls no primitive. -/
theorem construct_scan (env : Platform F M D) (hsort : SortSpec env) (b lo hi : Int)
    (hlo : IsInt32 lo) (w0 : World F) :
    (construct env b lo hi w0).1.emptyFlashPages =
      (configuredPages lo (toInt32 (hi - lo + 1))).filter
        (fun p => decide ((readHeader env w0.flash p).pageNumber ≠ p)) ∧
    (construct env b lo hi w0).1.emptyFlashPages.Pairwise (fun a b => a < b) ∧
    (∀ p, p ∈ (construct env b lo hi w0).1.emptyFlashPages ↔
      (lo ≤ p ∧ p < toInt32 (lo + toInt32 (hi - lo + 1))) ∧
        (readHeader env w0.flash p).pageNumber ≠ p) ∧
    (construct env b lo hi w0).1.dataFlashPages.Perm
      (((configuredPages lo (toInt32 (hi - lo + 1))).filter
        (fun p => decide ((readHeader env w0.flash p).pageNumber = p))).map
          (readHeader env w0.flash)) ∧
    (∀ h, h ∈ (construct env b lo hi w0).1.dataFlashPages ↔
      ∃ p, (lo ≤ p ∧ p < toInt32 (lo + toInt32 (hi - lo + 1))) ∧
        (readHeader env w0.flash p).pageNumber = p ∧ h = readHeader env w0.flash p) ∧
    (construct env b lo hi w0).1.dataFlashPages.Pairwise
      (fun x y => x.flashWriteId ≤ y.flashWriteId) ∧
    (construct env b lo hi w0).1.readDataPeekIndex = 0 ∧
    (construct env b lo hi w0).2 = w0 := by
  have hfe : (configuredPages lo (toInt32 (hi - lo + 1))).filter
      (fun p => !isDataPage env w0.flash p) =
      (configuredPages lo (toInt32 (hi - lo + 1))).filter
        (fun p => decide ((readHeader env w0.flash p).pageNumber ≠ p)) := by
    apply List.filter_congr
    intro p _
    by_cases h : p = (readHeader env w0.flash p).pageNumber
    · simp [isDataPage, ← h]
    · simp [isDataPage, h, Ne.symm h]
  have hfd : (configuredPages lo (toInt32 (hi - lo + 1))).filter (isDataPage env w0.flash) =
      (configuredPages lo (toInt32 (hi - lo + 1))).filter
        (fun p => decide ((readHeader env w0.flash p).pageNumber = p)) := by
    apply List.filter_congr
    intro p _
    by_cases h : p = (readHeader env w0.flash p).pageNumber
    · simp [isDataPage, ← h]
    · simp [isDataPage, h, Ne.symm h]
  have hempty : (construct env b lo hi w0).1.emptyFlashPages =
      (configuredPages lo (toInt32 (hi - lo + 1))).filter
        (fun p => decide ((readHeader env w0.flash p).pageNumber ≠ p)) := by
    simp only [construct]
    rw [scanLoop_construct env w0.flash lo _ hlo, hfe]
  have hdata : (construct env b lo hi w0).1.dataFlashPages.Perm
      (((configuredPages lo (toInt32 (hi - lo + 1))).filter
        (fun p => decide ((readHeader env w0.flash p).pageNumber = p))).map
          (readHeader env w0.flash)) := by
    simp only [construct]
    rw [scanLoop_construct env w0.flash lo _ hlo, hfd]
    exact (hsort _).1
  refine ⟨hempty, ?_, ?_, hdata, ?_, (hsort _).2, rfl, rfl⟩
  · rw [hempty]
    exact (pairwise_lt_pagesFrom _ _).sublist (List.filter_sublist _)
  · intro p
    rw [hempty, List.mem_filter, mem_configuredPages]
    simp
  · intro h
    rw [hdata.mem_iff, List.mem_map]
    constructor
    · rintro ⟨p, hp, rfl⟩
      rw [List.mem_filter, mem_configuredPages] at hp
      exact ⟨p, hp.1, by simpa using hp.2, rfl⟩
    · rintro ⟨p, hp, hpn, rfl⟩
      exact ⟨p, by rw [List.mem_filter, mem_configuredPages]; exact ⟨hp, by simpa using hpn⟩,
        rfl⟩

end RecoveryScan

section CursorOnEmptyQueue

variable {F M D : Type}

theorem cursor_zero_of_reachable (env : Platform F M D) (b lo hi : Int) (w0 : World F)
    (q : FlashQueue M) (w : World F) (h : Reachable env b lo hi w0 q w) :
    q.dataFlashPages = [] → q.readDataPeekIndex = 0 := by
  induction h with
  | init => intro _; rfl
  | @write q w data metadata _ ih =>
    rcases flashWriteData_queue_cases env q data metadata w with
      ⟨-, hq⟩ | ⟨page, rest, -, -, -, -, -, hres⟩
    · rw [hq]; exact ih
    · rw [hres]
      intro hnil
      simp at hnil
  | @pop q w _ ih =>
    have hshape : q.dataFlashPages = [] ∨ ∃ front rest, q.dataFlashPages = front :: rest := by
      cases q.dataFlashPages <;> simp
    rcases hshape with hq | ⟨front, rest, hq⟩
    · rw [flashPopDatum_nil env q w hq]
      exact ih
    · rw [flashPopDatum_cons env q w front rest hq]
      split_ifs
      · intro hnil
        exact absurd (hq.symm.trans hnil) (by simp)
      · intro _; rfl
      · intro hnil
        exact absurd (hq.symm.trans hnil) (by simp)

/-- A run of peek-and-pop rounds stays within the reachable states. -/
theorem reachable_drain (env : Platform F M D) (b lo hi : Int) (w0 : World F) (rounds : Nat) :
    ∀ (q : FlashQueue M) (w : World F), Reachable env b lo hi w0 q w →
      Reachable env b lo hi w0 (drain env rounds q w).2.1 (drain env rounds q w).2.2 := by
  induction rounds with
  | zero => intro q w h; exact h
  | succ n ih =>
    intro q w h
    exact ih _ _ (Reachable.pop h)

/-- After a successful `flashWriteData` of `n` records over a flash that stores what is
written, record 0 of the written page is the first record of the array. -/
theorem readRecord_zero_written (env : Platform F M D) (hf : FaithfulFlash env)
    (q : FlashQueue M) (data : List D) (metadata : M) (w : World F) (n : Nat)
    (hn : q.DataPacketsPerFlashPage = n) (hlen : data.length = n) (hn1 : 1 ≤ n)
    (hbytes : (n : Int) * env.sizeofData < 2147483648)
    (page : Int) (rest : List Int) (hq : q.emptyFlashPages = page :: rest)
    (hok : (flashWriteData env q data metadata w).1 = true) :
    some (readRecord env (flashWriteData env q data metadata w).2.2.flash page 0)
      = data.head? := by
  have hw := ((flashWriteData_cons_result env q data metadata w page rest hq).mp hok).1
  have hpay : toInt32 (toSizeT (toSizeT q.DataPacketsPerFlashPage * env.sizeofData))
      = (n : Int) * env.sizeofData := by
    rw [hn]
    exact payloadBytes_eq env n hbytes
  have hrc : (eraseThenWriteFlashPage env page
      (env.headerBytes ⟨page, q.DataPacketsPerFlashPage, nextWriteId q, metadata⟩)
      (toInt32 env.sizeofHeader) (data.map env.dataBytes).flatten
      ((n : Int) * env.sizeofData) w).1 = 0 := by
    simp only [writeDataPacketsToFlashPage, hpay, decide_eq_true_eq] at hw
    exact hw
  have hflash : (flashWriteData env q data metadata w).2.2.flash =
      (eraseThenWriteFlashPage env page
      (env.headerBytes ⟨page, q.DataPacketsPerFlashPage, nextWriteId q, metadata⟩)
      (toInt32 env.sizeofHeader) (data.map env.dataBytes).flatten
      ((n : Int) * env.sizeofData) w).2.flash := by
    rw [(flashWriteData_cons_world env q data metadata w page rest hq).2]
    simp only [writeDataPacketsToFlashPage, hpay]
  have hs := storedRecords_written env hf page _ data n w hlen hrc
  rw [hflash]
  obtain ⟨m, rfl⟩ : ∃ m, n = m + 1 := ⟨n - 1, by omega⟩
  conv_rhs => rw [← hs]
  simp [storedRecords, List.range_succ_eq_map]

/-- Claim C20.  Cursor is zero on an empty queue: in every state reachable from the
constructor by `flashWriteData` and `flashPopDatum` calls, on any platform, if
dataFlashPages is empty then readDataPeekIndex = 0; so after a `flashWriteData` call into
an empty queue that returned true, the queue holds exactly the newly written page (the
page that was the front of the pool), the cursor is still 0, and `flashPeekDatum` returns
the record with index 0 stored on that page; over a flash that stores what is written
that record is the first record of the array just written. -/
theorem cursor_zero_on_empty_queue (env : Platform F M D) (b lo hi : Int) (w0 : World F)
    (q : FlashQueue M) (w : World F) (h : Reachable env b lo hi w0 q w)
    (hempty : q.dataFlashPages = []) :
    q.readDataPeekIndex = 0 ∧
    (∀ (data : List D) (metadata : M), (flashWriteData env q data metadata w).1 = true →
      ∃ front,
        (flashWriteData env q data metadata w).2.1.dataFlashPages = [front] ∧
        q.emptyFlashPages.head? = some front.pageNumber ∧
        (flashWriteData env q data metadata w).2.1.readDataPeekIndex = 0 ∧
        flashPeekDatum env (flashWriteData env q data metadata w).2.1
          (flashWriteData env q data metadata w).2.2
          = some (readRecord env (flashWriteData env q data metadata w).2.2.flash
              front.pageNumber 0)) ∧
    (FaithfulFlash env →
      ∀ (data : List D) (metadata : M) (n : Nat), q.DataPacketsPerFlashPage = n →
        data.length = n → 1 ≤ n → (n : Int) * env.sizeofData < 2147483648 →
        (flashWriteData env q data metadata w).1 = true →
        flashPeekDatum env (flashWriteData env q data metadata w).2.1
          (flashWriteData env q data metadata w).2.2 = data.head?) := by
  have hcur := cursor_zero_of_reachable env b lo hi w0 q w h hempty
  have hpeek : ∀ (data : List D) (metadata : M) (page : Int) (rest : List Int),
      q.emptyFlashPages = page :: rest →
      (flashWriteData env q data metadata w).2.1 =
        { q with emptyFlashPages := rest
                 dataFlashPages := q.dataFlashPages ++
                   [readHeader env (flashWriteData env q data metadata w).2.2.flash page] } →
      (readHeader env (flashWriteData env q data metadata w).2.2.flash page).pageNumber
        = page →
      flashPeekDatum env (flashWriteData env q data metadata w).2.1
          (flashWriteData env q data metadata w).2.2
        = some (readRecord env (flashWriteData env q data metadata w).2.2.flash page 0) := by
    intro data metadata page rest _ hres hver
    have hd : (flashWriteData env q data metadata w).2.1.dataFlashPages =
        readHeader env (flashWriteData env q data metadata w).2.2.flash page :: [] := by
      rw [hres, hempty]
      rfl
    have hc : (flashWriteData env q data metadata w).2.1.readDataPeekIndex
        = ((0 : Nat) : Int) := by
      rw [hres]
      exact hcur
    rw [flashPeekDatum_cons env _ _ _ [] hd 0 hc, hver]
  refine ⟨hcur, fun data metadata hok => ?_, fun hf data metadata n hn hlen hn1 hbytes hok => ?_⟩
  · rcases flashWriteData_queue_cases env q data metadata w with
      ⟨hfalse, -⟩ | ⟨page, rest, hq, -, -, -, hver, hres⟩
    · rw [hfalse] at hok
      cases hok
    · refine ⟨readHeader env (flashWriteData env q data metadata w).2.2.flash page,
        ?_, ?_, ?_, ?_⟩
      · rw [hres, hempty]
        rfl
      · rw [hq, hver]
        rfl
      · rw [hres]
        exact hcur
      · rw [hpeek data metadata page rest hq hres hver, hver]
  · rcases flashWriteData_queue_cases env q data metadata w with
      ⟨hfalse, -⟩ | ⟨page, rest, hq, -, -, -, hver, hres⟩
    · rw [hfalse] at hok
      cases hok
    · rw [hpeek data metadata page rest hq hres hver]
      exact readRecord_zero_written env hf q data metadata w n hn hlen hn1 hbytes page rest hq
        hok

end CursorOnEmptyQueue

section CursorRange

variable {F M D : Type}

theorem cursorInRange_construct (env : Platform F M D) (hsort : SortSpec env) (b lo hi : Int)
    (hlo : IsInt32 lo) (w0 : World F) (hcounts : PositiveCounts env lo hi w0.flash) :
    CursorInRange (construct env b lo hi w0).1 := by
  have hall : ∀ h ∈ (construct env b lo hi w0).1.dataFlashPages,
      1 ≤ h.count ∧ h.count < 2147483648 := by
    intro h hh
    simp only [construct] at hh
    rw [scanLoop_construct env w0.flash lo _ hlo] at hh
    obtain ⟨p, hp, rfl⟩ := List.mem_map.mp ((hsort _).1.mem_iff.mp hh)
    exact hcounts p (List.mem_filter.mp hp).1 (List.mem_filter.mp hp).2
  refine ⟨hall, fun front rest hq => ?_⟩
  have := hall front (by rw [hq]; simp)
  show (0 : Int) ≤ 0 ∧ (0 : Int) < front.count
  omega

theorem cursorInRange_write (env : Platform F M D) (hf : FaithfulFlash env)
    (q : FlashQueue M) (data : List D) (metadata : M) (w : World F)
    (hn : 1 ≤ q.DataPacketsPerFlashPage ∧ q.DataPacketsPerFlashPage < 2147483648)
    (hpage : ∀ p ∈ q.emptyFlashPages, IsInt32 p)
    (hzero : q.dataFlashPages = [] → q.readDataPeekIndex = 0)
    (h : CursorInRange q) :
    CursorInRange (flashWriteData env q data metadata w).2.1 := by
  rcases flashWriteData_queue_cases env q data metadata w with
    ⟨-, hq⟩ | ⟨page, rest, hq, -, hwritten, hworld, -, hres⟩
  · rw [hq]; exact h
  · have hhead := writeDataPacketsToFlashPage_header env hf page (nextWriteId q) metadata data
      q.DataPacketsPerFlashPage w (hpage page (by rw [hq]; simp)) (isInt32_nextWriteId q)
      ⟨by omega, hn.2⟩ hwritten
    rw [hworld, hhead] at hres
    rw [hres]
    obtain ⟨h1, h2⟩ := h
    refine ⟨?_, ?_⟩
    · intro x hx
      rcases List.mem_append.mp hx with hx1 | hx1
      · exact h1 x hx1
      · simp only [List.mem_singleton] at hx1
        rw [hx1]
        exact hn
    · intro front rest2 hfr
      have hshape : q.dataFlashPages = [] ∨ ∃ f r, q.dataFlashPages = f :: r := by
        cases q.dataFlashPages <;> simp
      rcases hshape with hnil | ⟨f, r, hcons⟩
      · have hc := hzero hnil
        simp only [hnil, List.nil_append, List.cons.injEq] at hfr
        show 0 ≤ q.readDataPeekIndex ∧ q.readDataPeekIndex < front.count
        rw [hc, ← hfr.1]
        show (0 : Int) ≤ 0 ∧ (0 : Int) < q.DataPacketsPerFlashPage
        omega
      · simp only [hcons, List.cons_append, List.cons.injEq] at hfr
        have := h2 f r hcons
        rw [hfr.1] at this
        exact this

theorem cursorInRange_pop (env : Platform F M D) (q : FlashQueue M) (w : World F)
    (h : CursorInRange q) : CursorInRange (flashPopDatum env q w).2.1 := by
  obtain ⟨h1, h2⟩ := h
  have hshape : q.dataFlashPages = [] ∨ ∃ front rest, q.dataFlashPages = front :: rest := by
    cases q.dataFlashPages <;> simp
  rcases hshape with hq | ⟨front, rest, hq⟩
  · rw [flashPopDatum_nil env q w hq]
    exact ⟨h1, h2⟩
  · obtain ⟨hc0, hc1⟩ := h2 front rest hq
    have hfc := h1 front (by rw [hq]; simp)
    have hidx : toInt32 (q.readDataPeekIndex + 1) = q.readDataPeekIndex + 1 :=
      toInt32_of_isInt32 ⟨by omega, by omega⟩
    rw [flashPopDatum_cons env q w front rest hq, hidx]
    split_ifs with hlt hclear
    · refine ⟨h1, fun f r hfr => ?_⟩
      have hfr2 : q.dataFlashPages = f :: r := hfr
      rw [hq] at hfr2
      simp only [List.cons.injEq] at hfr2
      show 0 ≤ q.readDataPeekIndex + 1 ∧ q.readDataPeekIndex + 1 < f.count
      rw [← hfr2.1]
      omega
    · refine ⟨fun x hx => h1 x (by rw [hq]; exact List.mem_cons_of_mem _ hx), ?_⟩
      intro f r hfr
      have hfr2 : rest = f :: r := hfr
      have := h1 f (by rw [hq, hfr2]; simp)
      show (0 : Int) ≤ 0 ∧ (0 : Int) < f.count
      omega
    · refine ⟨h1, fun f r hfr => ?_⟩
      have hfr2 : q.dataFlashPages = f :: r := hfr
      rw [hq] at hfr2
      simp only [List.cons.injEq] at hfr2
      show 0 ≤ toInt32 (q.readDataPeekIndex + 1 - 1) ∧
        toInt32 (q.readDataPeekIndex + 1 - 1) < f.count
      rw [← hfr2.1, add_sub_cancel_right, toInt32_of_isInt32 ⟨by omega, by omega⟩]
      omega

theorem cursorInRange_of_reachable (env : Platform F M D) (hf : FaithfulFlash env)
    (hsort : SortSpec env) (b lo hi : Int) (hlo : IsInt32 lo) (w0 : World F)
    (hn1 : 1 ≤ (construct env b lo hi w0).1.DataPacketsPerFlashPage)
    (hcounts : PositiveCounts env lo hi w0.flash)
    (q : FlashQueue M) (w : World F) (h : Reachable env b lo hi w0 q w) :
    CursorInRange q := by
  induction h with
  | init => exact cursorInRange_construct env hsort b lo hi hlo w0 hcounts
  | @write q w data metadata hr ih =>
    have hpart := partitioned_of_reachable env (fun l => (hsort l).1) b lo hi hlo w0 q w hr
    have hn := isInt32_packets_of_reachable env b lo hi w0 q w hr
    apply cursorInRange_write env hf q data metadata w _ _
      (cursor_zero_of_reachable env b lo hi w0 q w hr) ih
    · rw [hn]
      exact ⟨hn1, (isInt32_toInt32 _).2⟩
    · intro p hp
      exact isInt32_of_mem_configuredPages hlo
        (mem_configuredPages_of_partitioned hpart (List.mem_append_left _ hp))
  | @pop q w _ ih => exact cursorInRange_pop env q w ih

/-- Claim C16, as amended.  Peek cursor range: over a flash that stores what is written,
given DataPacketsPerFlashPage ≥ 1 and that every data-bearing page the constructor found
stores a count between 1 and the largest int, in every state reachable from the constructor
by `flashWriteData` and `flashPopDatum` calls in which dataFlashPages is non-empty,
0 ≤ readDataPeekIndex < count of the front page; and whenever a `flashWriteData` or
`flashPopDatum` call changes the front of dataFlashPages, the cursor is 0 after the
call. -/
theorem peek_cursor_range (env : Platform F M D) (hf : FaithfulFlash env)
    (hsort : SortSpec env) (b lo hi : Int) (hlo : IsInt32 lo) (w0 : World F)
    (hn1 : 1 ≤ (construct env b lo hi w0).1.DataPacketsPerFlashPage)
    (hcounts : PositiveCounts env lo hi w0.flash)
    (q : FlashQueue M) (w : World F) (h : Reachable env b lo hi w0 q w) :
    (∀ front rest, q.dataFlashPages = front :: rest →
      0 ≤ q.readDataPeekIndex ∧ q.readDataPeekIndex < front.count) ∧
    (∀ (data : List D) (metadata : M),
      (flashWriteData env q data metadata w).2.1.dataFlashPages.head?
        ≠ q.dataFlashPages.head? →
      (flashWriteData env q data metadata w).2.1.readDataPeekIndex = 0) ∧
    ((flashPopDatum env q w).2.1.dataFlashPages.head? ≠ q.dataFlashPages.head? →
      (flashPopDatum env q w).2.1.readDataPeekIndex = 0) := by
  refine ⟨(cursorInRange_of_reachable env hf hsort b lo hi hlo w0 hn1 hcounts q w h).2, ?_, ?_⟩
  · intro data metadata hchange
    rcases flashWriteData_queue_cases env q data metadata w with
      ⟨-, hq⟩ | ⟨page, rest, -, -, -, -, -, hres⟩
    · rw [hq] at hchange
      exact absurd rfl hchange
    · rw [hres] at hchange ⊢
      have hshape : q.dataFlashPages = [] ∨ ∃ f r, q.dataFlashPages = f :: r := by
        cases q.dataFlashPages <;> simp
      rcases hshape with hnil | ⟨f, r, hcons⟩
      · exact cursor_zero_of_reachable env b lo hi w0 q w h hnil
      · exfalso
        apply hchange
        simp [hcons]
  · intro hchange
    rcases flashPopDatum_queue_cases env q w with ⟨i, hq⟩ | ⟨front, rest, -, -, -, -, -, hres⟩
    · rw [hq] at hchange
      exact absurd rfl hchange
    · rw [hres]

end CursorRange

section WriteIds

variable {F M D : Type}

/-- Claim C14, as amended.  Write ids: over a flash that stores what is written, in every
state reachable from the constructor by `flashWriteData` and `flashPopDatum` calls in which
the write id does not wrap around, a `flashWriteData` call that returns true (and does not
wrap the id) appends a header whose flashWriteId is strictly greater than the flashWriteId
of every header that is in dataFlashPages at the time of the call; it is one more than the
id of the back of the queue, and 0 when the queue is empty at the time of the call, so a
value is assigned again after the queue has been drained. -/
theorem write_id_assignment (env : Platform F M D) (hf : FaithfulFlash env)
    (hsort : SortSpec env) (b lo hi : Int) (hlo : IsInt32 lo) (w0 : World F)
    (q : FlashQueue M) (w : World F) (h : ReachableWithoutWrap env b lo hi w0 q w)
    (data : List D) (metadata : M)
    (hnw : ∀ back, q.dataFlashPages.getLast? = some back → IsInt32 (back.flashWriteId + 1))
    (hok : (flashWriteData env q data metadata w).1 = true) :
    ∃ written : FlashPageHeader M,
      (flashWriteData env q data metadata w).2.1.dataFlashPages
        = q.dataFlashPages ++ [written] ∧
      (∀ earlier ∈ q.dataFlashPages, earlier.flashWriteId < written.flashWriteId) ∧
      (∀ back, q.dataFlashPages.getLast? = some back →
        written.flashWriteId = back.flashWriteId + 1) ∧
      (q.dataFlashPages = [] → written.flashWriteId = 0) := by
  have hreach := reachable_of_withoutWrap env b lo hi w0 q w h
  have hpart := partitioned_of_reachable env (fun l => (hsort l).1) b lo hi hlo w0 q w hreach
  have hn : IsInt32 q.DataPacketsPerFlashPage := by
    rw [isInt32_packets_of_reachable env b lo hi w0 q w hreach]
    exact isInt32_toInt32 _
  have hord := (writeOrdered_of_reachable env hf hsort b lo hi hlo w0 q w h).1
  rcases flashWriteData_queue_cases env q data metadata w with
    ⟨hfalse, -⟩ | ⟨page, rest, hq, -, hwritten, hworld, -, hres⟩
  · rw [hfalse] at hok
    cases hok
  · have hpage : IsInt32 page := isInt32_of_mem_configuredPages hlo
      (mem_configuredPages_of_partitioned hpart (by rw [hq]; simp))
    have hhead := writeDataPacketsToFlashPage_header env hf page (nextWriteId q) metadata data
      q.DataPacketsPerFlashPage w hpage (isInt32_nextWriteId q) hn hwritten
    rw [hworld, hhead] at hres
    refine ⟨⟨page, q.DataPacketsPerFlashPage, nextWriteId q, metadata⟩, ?_, ?_, ?_, ?_⟩
    · rw [hres]
    · exact lt_nextWriteId q hord hnw
    · intro back hb
      exact nextWriteId_of_back q back hb (hnw back hb)
    · exact nextWriteId_of_nil q

end WriteIds

section RecordsPerPage

variable {F M D : Type}

/-- Where the page is at least as large as the header (and the sizes are those of a 32-bit
target), the constructor computes the floor of (bytesPerFlashPage - header size) / record
size. -/
theorem dataPacketsPerFlashPage_floor (env : Platform F M D) (b lo hi : Int) (w0 : World F)
    (hb : (env.sizeofHeader : Int) ≤ b) (hb31 : b < 2147483648) (hd : 1 ≤ env.sizeofData) :
    (construct env b lo hi w0).1.DataPacketsPerFlashPage
      = (b - env.sizeofHeader) / env.sizeofData := by
  have h0 : (0 : Int) ≤ b - env.sizeofHeader := by omega
  have h1 : toSizeT b = b := by unfold toSizeT; omega
  have h2 : toSizeT (b - env.sizeofHeader) = b - env.sizeofHeader := by unfold toSizeT; omega
  have h3 : (0 : Int) ≤ (b - env.sizeofHeader) / env.sizeofData :=
    Int.ediv_nonneg h0 (by omega)
  have h4 : (b - env.sizeofHeader) / (env.sizeofData : Int) ≤ b - env.sizeofHeader :=
    Int.ediv_le_self _ h0
  show toInt32 (toSizeT (toSizeT b - env.sizeofHeader) / env.sizeofData) = _
  rw [h1, h2]
  exact toInt32_of_isInt32 ⟨by omega, by omega⟩

/-- Claim C15, the code at the failing input.  With `bytesPerFlashPage = 8`, a 16-byte
header and 4-byte records, the constructor computes DataPacketsPerFlashPage = 1073741822
(the subtraction is done in the unsigned type `size_t` and wraps around), whereas the floor
of (8 - 16) / 4 is -2; for 64, 16 and 4 it computes 12. -/
theorem dataPacketsPerFlashPage_small_page :
    (construct (simPlatform 64) 8 0 1 demoWorld).1.DataPacketsPerFlashPage = 1073741822 ∧
    ((8 : Int) - ((simPlatform 64).sizeofHeader : Int)) / ((simPlatform 64).sizeofData : Int)
      = -2 ∧
    (construct (simPlatform 64) 64 0 1 demoWorld).1.DataPacketsPerFlashPage = 12 ∧
    ((64 : Int) - ((simPlatform 64).sizeofHeader : Int)) / ((simPlatform 64).sizeofData : Int)
      = 12 := by
  decide

end RecordsPerPage

section ClearedPage

variable {F M D : Type}

/-- For every page other than page 0, on a flash that stores what is written, a page
cleared successfully is not data-bearing for the scan. -/
theorem cleared_page_not_data (env : Platform F M D) (hf : FaithfulFlash env) (page : Int)
    (w : World F) (hpage : page ≠ 0) (hok : (clearFlashPage env page w).1 = true) :
    isDataPage env (clearFlashPage env page w).2.flash page = false := by
  simp only [isDataPage, decide_eq_false_iff_not]
  rw [clearFlashPage_header env hf page w hok]
  exact hpage

/-- Claim C13, the code at the failing input.  In the two-page scenario over pages 0 and 1,
after page 0 was written, `clearFlashPage(0)` succeeds (erase, then an all-zero header);
the all-zero header carries page number 0, so the scan finds page 0 data-bearing: the
constructor run over that flash puts a header for page 0 in dataFlashPages and does not
put page 0 in emptyFlashPages. -/
theorem cleared_page_zero_recovered_as_data :
    (clearFlashPage (simPlatform 64) 0 demoAfterA.2.2).1 = true ∧
    readHeader (simPlatform 64) (clearFlashPage (simPlatform 64) 0 demoAfterA.2.2).2.flash 0
      = ⟨0, 0, 0, 0⟩ ∧
    isDataPage (simPlatform 64) (clearFlashPage (simPlatform 64) 0 demoAfterA.2.2).2.flash 0
      = true ∧
    (construct (simPlatform 64) 64 0 1
      (clearFlashPage (simPlatform 64) 0 demoAfterA.2.2).2).1.dataFlashPages
      = [⟨0, 0, 0, 0⟩] ∧
    (construct (simPlatform 64) 64 0 1
      (clearFlashPage (simPlatform 64) 0 demoAfterA.2.2).2).1.emptyFlashPages = [1] := by
  decide

end ClearedPage

section FailureStatus

variable {F M D : Type}

/-- Where the header write returns one of the statuses 0, 1 and 2, a request that passes
the bounds check makes `eraseThenWriteFlashPage` return 0 exactly when the erase, the
header write and the payload write all return 0. -/
theorem eraseThenWriteFlashPage_surfaces (env : Platform F M D) (page : Int)
    (header : List Nat) (nh : Int) (data : List Nat) (nd : Int) (w : World F)
    (hb : env.PAGE_FROM_ADDRESS (env.ADDRESS_OF_PAGE page + nh + nd - 1) = page)
    (hstatus : (env.flashWriteBlock (env.ADDRESS_OF_PAGE page) header nh
        (env.flashPageErase page w.flash).2).1 = 0 ∨
      (env.flashWriteBlock (env.ADDRESS_OF_PAGE page) header nh
        (env.flashPageErase page w.flash).2).1 = 1 ∨
      (env.flashWriteBlock (env.ADDRESS_OF_PAGE page) header nh
        (env.flashPageErase page w.flash).2).1 = 2) :
    (eraseThenWriteFlashPage env page header nh data nd w).1 = 0 ↔
      ((env.flashPageErase page w.flash).1 = 0 ∧
       (env.flashWriteBlock (env.ADDRESS_OF_PAGE page) header nh
        (env.flashPageErase page w.flash).2).1 = 0 ∧
       (env.flashWriteBlock (env.ADDRESS_OF_PAGE page + nh) data nd
        (env.flashWriteBlock (env.ADDRESS_OF_PAGE page) header nh
          (env.flashPageErase page w.flash).2).2).1 = 0) := by
  rcases eraseThenWriteFlashPage_cases env page header nh data nd w with
    hc | hc | hc | hc
  · exact absurd hb hc.1
  · rw [hc.2.2.1]
    exact ⟨fun h => absurd h hc.2.1, fun h => h.1⟩
  · rw [hc.2.2.2.1]
    constructor
    · intro h
      rcases hc.2.2.1 with h1 | h1 <;> rw [h1] at h <;> cases h
    · intro h
      exact h.2.1
  · obtain ⟨-, he, hh1, hh2, hr, -, -, -⟩ := hc
    rw [hr]
    have hh : (env.flashWriteBlock (env.ADDRESS_OF_PAGE page) header nh
        (env.flashPageErase page w.flash).2).1 = 0 := by
      rcases hstatus with h | h | h
      · exact h
      · exact absurd h hh1
      · exact absurd h hh2
    exact ⟨fun h => ⟨he, hh, h⟩, fun h => h.2.2⟩

/-- Outside the status codes 0, 1 and 2: were the header write to return 3 (with the erase
and the payload write returning 0), `eraseThenWriteFlashPage` would go on to the payload
write and return its status 0; the two branches after the header write test the codes 1
and 2 only.  The statements below are therefore about the codes 0, 1 and 2. -/
theorem header_write_status_not_surfaced :
    (eraseThenWriteFlashPage (simPlatform 64) 0 (List.replicate 16 0) 16 [] 0
      (simWorld 255 [0, 3, 0])).2.calls
      = [FlashCall.erase 0 0, FlashCall.write 0 (List.replicate 16 0) 16 3,
          FlashCall.write 16 [] 0 0] ∧
    (eraseThenWriteFlashPage (simPlatform 64) 0 (List.replicate 16 0) 16 [] 0
      (simWorld 255 [0, 3, 0])).1 = 0 ∧
    (clearFlashPage (simPlatform 64) 0 (simWorld 255 [0, 3, 0])).1 = true ∧
    (flashPopDatum (simPlatform 64) demoLastRecord (simWorld 255 [0, 3, 0])).1 = true ∧
    (flashPopDatum (simPlatform 64) demoLastRecord (simWorld 255 [0, 3, 0])).2.2.errors = [] ∧
    (writeDataPacketsToFlashPage (simPlatform 64) 0 0 0 (demoRecords 0) 12
      (simWorld 255 [0, 3, 0])).1 = true := by
  decide

end FailureStatus

section SurfacedFailures

variable {F M D : Type}

/-- The calls of one `eraseThenWriteFlashPage`: at most the erase, the header write and the
payload write, in that order; and when their statuses are among 0, 1 and 2, a non-zero
status of any of them makes the function return non-zero. -/
theorem eraseThenWriteFlashPage_status (env : Platform F M D) (page : Int)
    (header : List Nat) (nh : Int) (data : List Nat) (nd : Int) (w : World F) :
    ((∀ c ∈ callsSince w (eraseThenWriteFlashPage env page header nh data nd w).2,
        c.InStatusDomain) →
      (∃ c ∈ callsSince w (eraseThenWriteFlashPage env page header nh data nd w).2,
        c.status ≠ 0) →
      (eraseThenWriteFlashPage env page header nh data nd w).1 ≠ 0) ∧
    ∃ e h d, callsSince w (eraseThenWriteFlashPage env page header nh data nd w).2 <+:
      [FlashCall.erase page e, FlashCall.write (env.ADDRESS_OF_PAGE page) header nh h,
        FlashCall.write (env.ADDRESS_OF_PAGE page + nh) data nd d] := by
  rcases eraseThenWriteFlashPage_cases env page header nh data nd w with
    hc | hc | hc | hc
  · have hcs := callsSince_append w _ [] (by simpa using hc.2.2.2.1)
    rw [hcs]
    refine ⟨fun _ hex => ?_, 0, 0, 0, List.nil_prefix⟩
    obtain ⟨c, hmem, -⟩ := hex
    cases hmem
  · have hcs := callsSince_append w _ _ hc.2.2.2.2.1
    rw [hcs, hc.2.2.1]
    exact ⟨fun _ _ => hc.2.1, _, 0, 0, ⟨_, rfl⟩⟩
  · have hcs := callsSince_append w _ _ hc.2.2.2.2.2.1
    rw [hcs, hc.2.2.2.1]
    refine ⟨fun _ _ => ?_, 0, _, 0, ⟨_, rfl⟩⟩
    rcases hc.2.2.1 with h1 | h1 <;> rw [h1] <;> decide
  · obtain ⟨-, -, hh1, hh2, hr, -, hcalls, -⟩ := hc
    have hcs := callsSince_append w _ _ hcalls
    rw [hcs, hr]
    refine ⟨fun hdom hex => ?_, 0, _, _, List.prefix_refl _⟩
    have hh := hdom _ (List.mem_cons_of_mem _ (List.mem_cons_self _ _))
    have hh0 : (env.flashWriteBlock (env.ADDRESS_OF_PAGE page) header nh
        (env.flashPageErase page w.flash).2).1 = 0 := by
      rcases hh with h | h | h
      · exact h
      · exact absurd h hh1
      · exact absurd h hh2
    obtain ⟨c, hmem, hne⟩ := hex
    simp only [List.mem_cons, List.mem_singleton, List.not_mem_nil, or_false] at hmem
    rcases hmem with h | h | h
    · rw [h] at hne
      exact absurd rfl hne
    · rw [h] at hne
      exact absurd hh0 hne
    · rw [h] at hne
      exact hne

/-- Claim C17.  Physical failures are surfaced: for the status codes 0, 1 and 2 of the erase
and block-write primitives, if the page erase, the header write or the payload write
returns a non-zero status during `eraseThenWriteFlashPage`, the function returns
non-zero; if that happens during `flashWriteData` or during the page clear of
`flashPopDatum`, the public call returns false.  No primitive is retried within a call:
the calls issued are at most one erase, one header write and one payload write, in that
order. -/
theorem physical_failures_surfaced (env : Platform F M D) (w : World F) :
    (∀ (page : Int) (header : List Nat) (nh : Int) (data : List Nat) (nd : Int),
      ((∀ c ∈ callsSince w (eraseThenWriteFlashPage env page header nh data nd w).2,
          c.InStatusDomain) →
        (∃ c ∈ callsSince w (eraseThenWriteFlashPage env page header nh data nd w).2,
          c.status ≠ 0) →
        (eraseThenWriteFlashPage env page header nh data nd w).1 ≠ 0) ∧
      ∃ e h d, callsSince w (eraseThenWriteFlashPage env page header nh data nd w).2 <+:
        [FlashCall.erase page e, FlashCall.write (env.ADDRESS_OF_PAGE page) header nh h,
          FlashCall.write (env.ADDRESS_OF_PAGE page + nh) data nd d]) ∧
    (∀ (q : FlashQueue M) (data : List D) (metadata : M),
      ((∀ c ∈ callsSince w (flashWriteData env q data metadata w).2.2, c.InStatusDomain) →
        (∃ c ∈ callsSince w (flashWriteData env q data metadata w).2.2, c.status ≠ 0) →
        (flashWriteData env q data metadata w).1 = false) ∧
      ∃ page header nh bytes nd e h d,
        callsSince w (flashWriteData env q data metadata w).2.2 <+:
          [FlashCall.erase page e, FlashCall.write (env.ADDRESS_OF_PAGE page) header nh h,
            FlashCall.write (env.ADDRESS_OF_PAGE page + nh) bytes nd d]) ∧
    (∀ q : FlashQueue M,
      ((∀ c ∈ callsSince w (flashPopDatum env q w).2.2, c.InStatusDomain) →
        (∃ c ∈ callsSince w (flashPopDatum env q w).2.2, c.status ≠ 0) →
        (flashPopDatum env q w).1 = false) ∧
      ∃ page header nh bytes nd e h d,
        callsSince w (flashPopDatum env q w).2.2 <+:
          [FlashCall.erase page e, FlashCall.write (env.ADDRESS_OF_PAGE page) header nh h,
            FlashCall.write (env.ADDRESS_OF_PAGE page + nh) bytes nd d]) := by
  refine ⟨fun page header nh data nd =>
    eraseThenWriteFlashPage_status env page header nh data nd w, ?_, ?_⟩
  · intro q data metadata
    have hshape : q.emptyFlashPages = [] ∨ ∃ p r, q.emptyFlashPages = p :: r := by
      cases q.emptyFlashPages <;> simp
    rcases hshape with hnil | ⟨page, rest, hq⟩
    · rw [flashWriteData_nil env q data metadata w hnil]
      exact ⟨fun _ _ => rfl, 0, [], 0, [], 0, 0, 0, 0, by simp [callsSince]⟩
    · have hst := eraseThenWriteFlashPage_status env page
        (env.headerBytes ⟨page, q.DataPacketsPerFlashPage, nextWriteId q, metadata⟩)
        (toInt32 env.sizeofHeader) (data.map env.dataBytes).flatten
        (toInt32 (toSizeT (toSizeT q.DataPacketsPerFlashPage * env.sizeofData))) w
      have hcalls : callsSince w (flashWriteData env q data metadata w).2.2 =
          callsSince w (eraseThenWriteFlashPage env page
            (env.headerBytes ⟨page, q.DataPacketsPerFlashPage, nextWriteId q, metadata⟩)
            (toInt32 env.sizeofHeader) (data.map env.dataBytes).flatten
            (toInt32 (toSizeT (toSizeT q.DataPacketsPerFlashPage * env.sizeofData))) w).2 := by
        unfold callsSince
        rw [(flashWriteData_cons_world env q data metadata w page rest hq).1]
        rfl
      rw [hcalls]
      refine ⟨fun hdom hex => ?_, ?_⟩
      · have hrc := hst.1 hdom hex
        have hres := flashWriteData_cons_result env q data metadata w page rest hq
        have hw : (writeDataPacketsToFlashPage env page (nextWriteId q) metadata data
            q.DataPacketsPerFlashPage w).1 = false := by
          simp only [writeDataPacketsToFlashPage, decide_eq_false_iff_not]
          exact hrc
        cases hb : (flashWriteData env q data metadata w).1
        · rfl
        · rw [hres.mp hb |>.1] at hw
          cases hw
      · obtain ⟨e, h, d, hp⟩ := hst.2
        exact ⟨_, _, _, _, _, e, h, d, hp⟩
  · intro q
    have hshape : q.dataFlashPages = [] ∨ ∃ f r, q.dataFlashPages = f :: r := by
      cases q.dataFlashPages <;> simp
    rcases hshape with hnil | ⟨front, rest, hq⟩
    · rw [flashPopDatum_nil env q w hnil]
      exact ⟨fun _ _ => rfl, 0, [], 0, [], 0, 0, 0, 0, by simp [callsSince]⟩
    · have hst := eraseThenWriteFlashPage_status env front.pageNumber
        (List.replicate env.sizeofHeader 0) (toInt32 env.sizeofHeader) [] 0 w
      rw [flashPopDatum_cons env q w front rest hq]
      by_cases hlt : toInt32 (q.readDataPeekIndex + 1) < front.count
      · rw [if_pos hlt]
        refine ⟨fun _ hex => ?_, 0, [], 0, [], 0, 0, 0, 0, by simp [callsSince]⟩
        obtain ⟨c, hmem, -⟩ := hex
        simp [callsSince] at hmem
      · rw [if_neg hlt]
        by_cases hclear : (clearFlashPage env front.pageNumber w).1 = true
        · rw [if_pos hclear]
          refine ⟨fun hdom hex => ?_, ?_⟩
          · exfalso
            have hrc := hst.1 hdom hex
            simp only [clearFlashPage, decide_eq_true_eq] at hclear
            exact hrc hclear
          · obtain ⟨e, h, d, hp⟩ := hst.2
            exact ⟨_, _, _, _, _, e, h, d, hp⟩
        · rw [if_neg hclear]
          refine ⟨fun _ _ => rfl, ?_⟩
          obtain ⟨e, h, d, hp⟩ := hst.2
          exact ⟨_, _, _, _, _, e, h, d, hp⟩

end SurfacedFailures

section BoundsCheck

variable {F M D : Type}

/-- The block writes `eraseThenWriteFlashPage` issues are the header at the address of the
page and the payload right behind it, and it issues them only after the bounds check
accepted the request. -/
theorem eraseThenWriteFlashPage_writes (env : Platform F M D) (page : Int)
    (header : List Nat) (nh : Int) (data : List Nat) (nd : Int) (w : World F)
    (dst : Int) (src : List Nat) (cb rc : Int)
    (hmem : FlashCall.write dst src cb rc ∈
      callsSince w (eraseThenWriteFlashPage env page header nh data nd w).2) :
    env.PAGE_FROM_ADDRESS (env.ADDRESS_OF_PAGE page + nh + nd - 1) = page ∧
    ((dst = env.ADDRESS_OF_PAGE page ∧ cb = nh) ∨
      (dst = env.ADDRESS_OF_PAGE page + nh ∧ cb = nd)) := by
  rcases eraseThenWriteFlashPage_cases env page header nh data nd w with
    hc | hc | hc | hc
  · rw [callsSince_append w _ [] (by simpa using hc.2.2.2.1)] at hmem
    cases hmem
  · rw [callsSince_append w _ _ hc.2.2.2.2.1] at hmem
    simp at hmem
  · rw [callsSince_append w _ _ hc.2.2.2.2.2.1] at hmem
    simp only [List.mem_cons, List.mem_singleton, FlashCall.write.injEq, List.not_mem_nil,
      or_false] at hmem
    rcases hmem with h | h
    · cases h
    · exact ⟨hc.1, Or.inl ⟨h.1, h.2.2.1⟩⟩
  · rw [callsSince_append w _ _ hc.2.2.2.2.2.2.1] at hmem
    simp only [List.mem_cons, List.mem_singleton, FlashCall.write.injEq, List.not_mem_nil,
      or_false] at hmem
    rcases hmem with h | h | h
    · cases h
    · exact ⟨hc.1, Or.inl ⟨h.1, h.2.2.1⟩⟩
    · exact ⟨hc.1, Or.inr ⟨h.1, h.2.2.1⟩⟩

/-- Claim C19, as amended.  Page-bounds check: `eraseThenWriteFlashPage` rejects any request
whose last byte (address of page + numBytesHeader + numBytesData - 1) does not lie in the
target page: it returns -1 without calling the erase or write primitives and leaves the
flash as it was; whenever it issues a primitive call the check accepted the request.
Consequently, where the page starts at its own address, pages are intervals of addresses
and both byte counts are non-negative, every byte of every block write it issues (header
and payload) lies in the target page. -/
theorem eraseThenWriteFlashPage_bounds (env : Platform F M D) (page : Int)
    (header : List Nat) (nh : Int) (data : List Nat) (nd : Int) (w : World F) :
    (env.PAGE_FROM_ADDRESS (env.ADDRESS_OF_PAGE page + nh + nd - 1) ≠ page →
      (eraseThenWriteFlashPage env page header nh data nd w).1 = -1 ∧
      callsSince w (eraseThenWriteFlashPage env page header nh data nd w).2 = [] ∧
      (eraseThenWriteFlashPage env page header nh data nd w).2.calls = w.calls ∧
      (eraseThenWriteFlashPage env page header nh data nd w).2.flash = w.flash) ∧
    (callsSince w (eraseThenWriteFlashPage env page header nh data nd w).2 ≠ [] →
      env.PAGE_FROM_ADDRESS (env.ADDRESS_OF_PAGE page + nh + nd - 1) = page) ∧
    (env.PAGE_FROM_ADDRESS (env.ADDRESS_OF_PAGE page) = page →
      (∀ a b, a ≤ b → env.PAGE_FROM_ADDRESS a ≤ env.PAGE_FROM_ADDRESS b) →
      0 ≤ nh → 0 ≤ nd →
      ∀ dst src cb rc, FlashCall.write dst src cb rc ∈
          callsSince w (eraseThenWriteFlashPage env page header nh data nd w).2 →
        ∀ a, dst ≤ a → a < dst + cb → env.PAGE_FROM_ADDRESS a = page) := by
  refine ⟨?_, ?_, ?_⟩
  · intro hb
    rcases eraseThenWriteFlashPage_cases env page header nh data nd w with
      hc | hc | hc | hc
    · exact ⟨hc.2.1, callsSince_append w _ [] (by simpa using hc.2.2.2.1), hc.2.2.2.1,
        hc.2.2.1⟩
    · exact absurd hc.1 hb
    · exact absurd hc.1 hb
    · exact absurd hc.1 hb
  · intro hne
    by_contra hb
    rcases eraseThenWriteFlashPage_cases env page header nh data nd w with
      hc | hc | hc | hc
    · exact hne (callsSince_append w _ [] (by simpa using hc.2.2.2.1))
    · exact hb hc.1
    · exact hb hc.1
    · exact hb hc.1
  · intro hstart hmono hnh hnd dst src cb rc hmem a ha1 ha2
    obtain ⟨hb, hwhich⟩ := eraseThenWriteFlashPage_writes env page header nh data nd w dst src
      cb rc hmem
    have hlow : env.ADDRESS_OF_PAGE page ≤ a := by
      rcases hwhich with ⟨h1, -⟩ | ⟨h1, -⟩ <;> omega
    have hhigh : a ≤ env.ADDRESS_OF_PAGE page + nh + nd - 1 := by
      rcases hwhich with ⟨h1, h2⟩ | ⟨h1, h2⟩ <;> omega
    have m1 := hmono _ _ hlow
    have m2 := hmono _ _ hhigh
    rw [hstart] at m1
    rw [hb] at m2
    exact le_antisymm m2 m1

end BoundsCheck

section LaterWitnesses

/-- Witness for C12: the first write of the script-free two-page scenario. -/
theorem flashWriteData_success_witness :
    ∃ p rest id,
      idealQueue.emptyFlashPages = p :: rest ∧
      idealAfterA.2.1.emptyFlashPages = rest ∧
      idealAfterA.2.1.dataFlashPages = idealQueue.dataFlashPages ++ [⟨p, 12, id, 0⟩] :=
  have h := flashWriteData_success (idealPlatform 64)
    (faithfulFlash_idealPlatform 64 (by decide)) idealQueue (demoRecords 0) 0 (idealWorld 255)
    (by decide)
    (fun p hp => by
      have h0 : idealQueue.emptyFlashPages = [0, 1] := by decide
      rw [h0] at hp
      cases hp
      decide)
    (by decide)
  match h with
  | ⟨p, rest, id, h1, h2, h3, _⟩ => ⟨p, rest, id, h1, h2, h3⟩

/-- Counterexample to C14 as stated: in the two-page scenario the first write is assigned
flashWriteId 0; after its 12 records were popped (every pop returning true) the queue is
empty, and the next write, which also returns true, is assigned flashWriteId 0 again. -/
theorem write_id_reuse_counterexample :
    demoAfterA.1 = true ∧
    demoAfterA.2.1.dataFlashPages = [⟨0, 12, 0, 0⟩] ∧
    demoDrainedA.1.map Prod.snd = List.replicate 12 true ∧
    demoRewritten.1 = true ∧
    demoRewritten.2.1.dataFlashPages = [⟨1, 12, 0, 0⟩] := by
  decide

/-- Witness for the amended C14: the second write of the script-free two-page scenario is
assigned an id above that of the first. -/
theorem write_id_assignment_witness :
    ∃ written : FlashPageHeader Word32,
      idealAfterB.2.1.dataFlashPages = idealAfterA.2.1.dataFlashPages ++ [written] ∧
      ∀ earlier ∈ idealAfterA.2.1.dataFlashPages,
        earlier.flashWriteId < written.flashWriteId :=
  have hback : ∀ back, idealAfterA.2.1.dataFlashPages.getLast? = some back →
      IsInt32 (back.flashWriteId + 1) := fun back hb => by
    have h0 : idealAfterA.2.1.dataFlashPages = [⟨0, 12, 0, 0⟩] := by decide
    rw [h0] at hb
    cases hb
    decide
  have h := write_id_assignment (idealPlatform 64)
    (faithfulFlash_idealPlatform 64 (by decide)) (sortSpec_idealPlatform 64) 64 0 1 (by decide)
    (idealWorld 255) idealAfterA.2.1 idealAfterA.2.2
    (ReachableWithoutWrap.write (demoRecords 0) 0 ReachableWithoutWrap.init
      (fun back hb => by
        have h0 : idealQueue.dataFlashPages = [] := by decide
        rw [h0] at hb
        cases hb))
    (demoRecords 12) 0 hback (by decide)
  match h with
  | ⟨written, h1, h2, _⟩ => ⟨written, h1, h2⟩

/-- Counterexample to C16 as stated.  A session constructed with `bytesPerFlashPage = 16`
over pages 1 and 2 (DataPacketsPerFlashPage = 0) wrote one page, whose header stores count
0.  The queue constructed next over the same pages with `bytesPerFlashPage = 64` has
DataPacketsPerFlashPage = 12; it is not empty, its cursor is 0 and the count of its front
page is 0, so the cursor is not below the count. -/
theorem peek_cursor_range_counterexample :
    (construct (simPlatform 64) 16 1 2 demoWorld).1.DataPacketsPerFlashPage = 0 ∧
    (flashWriteData (simPlatform 64) (construct (simPlatform 64) 16 1 2 demoWorld).1 [] 0
      demoWorld).1 = true ∧
    (construct (simPlatform 64) 64 1 2 headerOnlyWorld).1.DataPacketsPerFlashPage = 12 ∧
    (construct (simPlatform 64) 64 1 2 headerOnlyWorld).1.dataFlashPages = [⟨1, 0, 0, 0⟩] ∧
    (construct (simPlatform 64) 64 1 2 headerOnlyWorld).1.readDataPeekIndex = 0 ∧
    ¬ ((construct (simPlatform 64) 64 1 2 headerOnlyWorld).1.readDataPeekIndex <
      (⟨1, 0, 0, 0⟩ : FlashPageHeader Word32).count) := by
  decide

/-- Witness for the amended C16: the script-free two-page scenario after the first
write. -/
theorem peek_cursor_range_witness :
    PositiveCounts (idealPlatform 64) 0 1 (idealWorld 255).flash ∧
    ∀ front rest, idealAfterA.2.1.dataFlashPages = front :: rest →
      0 ≤ idealAfterA.2.1.readDataPeekIndex ∧ idealAfterA.2.1.readDataPeekIndex < front.count :=
  have hc : PositiveCounts (idealPlatform 64) 0 1 (idealWorld 255).flash := by
    unfold PositiveCounts
    decide
  ⟨hc, (peek_cursor_range (idealPlatform 64) (faithfulFlash_idealPlatform 64 (by decide))
    (sortSpec_idealPlatform 64) 64 0 1 (by decide) (idealWorld 255) (by decide) hc
    idealAfterA.2.1 idealAfterA.2.2 (Reachable.write (demoRecords 0) 0 Reachable.init)).1⟩

/-- Witness for C18: the scan of the two-page scenario after the first write finds page 1
empty and page 0 data-bearing. -/
theorem construct_scan_witness :
    (construct (simPlatform 64) 64 0 1 demoAfterA.2.2).1.emptyFlashPages = [1] ∧
    (construct (simPlatform 64) 64 0 1 demoAfterA.2.2).2 = demoAfterA.2.2 :=
  have h := construct_scan (simPlatform 64) (sortSpec_simPlatform 64) 64 0 1 (by decide)
    demoAfterA.2.2
  ⟨h.1.trans (by decide), h.2.2.2.2.2.2.2⟩

/-- Counterexample to C19 as stated: with pages of 8 bytes and `bytesPerFlashPage = 8`, the
constructor computes DataPacketsPerFlashPage = 1073741822 and the payload byte count
becomes -8; the last byte of the request, 8 + 16 - 8 - 1 = 15, lies in page 1, so the check
accepts it, and the write of the 16-byte header at address 8 is issued although its last
byte, address 23, lies in page 2. -/
theorem eraseThenWriteFlashPage_bounds_counterexample :
    spillQueue.DataPacketsPerFlashPage = 1073741822 ∧
    payloadBytes (simPlatform 8) spillQueue.DataPacketsPerFlashPage = -8 ∧
    spillWrite.2.2.calls =
      [FlashCall.erase 1 0,
        FlashCall.write 8 ((simPlatform 8).headerBytes ⟨1, 1073741822, 0, 0⟩) 16 0,
        FlashCall.write 24 [] (-8) 0] ∧
    (simPlatform 8).PAGE_FROM_ADDRESS (8 + 16 - 1) = 2 ∧
    spillWrite.1 = true := by
  decide

/-- Witness for the amended C19: every byte of the two block writes of the first write of
the two-page scenario lies in page 0. -/
theorem eraseThenWriteFlashPage_bounds_witness :
    ∀ dst src cb rc, FlashCall.write dst src cb rc ∈
        callsSince demoWorld (eraseThenWriteFlashPage (simPlatform 64) 0
          ((simPlatform 64).headerBytes ⟨0, 12, 0, 0⟩) 16
          ((demoRecords 0).map (simPlatform 64).dataBytes).flatten 48 demoWorld).2 →
      ∀ a, dst ≤ a → a < dst + cb → (simPlatform 64).PAGE_FROM_ADDRESS a = 0 :=
  (eraseThenWriteFlashPage_bounds (simPlatform 64) 0
    ((simPlatform 64).headerBytes ⟨0, 12, 0, 0⟩) 16
    ((demoRecords 0).map (simPlatform 64).dataBytes).flatten 48 demoWorld).2.2
    (by decide)
    (fun a b hab => Int.ediv_le_ediv (by decide) hab)
    (by decide) (by decide)

/-- Witness for C20: on the script-free device, the queue over pages 0 and 1 after one
write and twelve pops (all returning true) is empty with cursor 0; the write that follows
returns true, takes the front page 1 of the pool, and the record peeked next is 24, the
first record of the array just written. -/
theorem cursor_zero_on_empty_queue_witness :
    idealAfterA.1 = true ∧
    idealDrainedA.1.map Prod.snd = List.replicate 12 true ∧
    idealDrainedA.2.1.dataFlashPages = [] ∧
    idealDrainedA.2.1.emptyFlashPages = [1, 0] ∧
    idealDrainedA.2.1.readDataPeekIndex = 0 ∧
    idealRewritten.1 = true ∧
    idealRewritten.2.1.dataFlashPages = [⟨1, 12, 0, 0⟩] ∧
    idealRewritten.2.1.readDataPeekIndex = 0 ∧
    flashPeekDatum (idealPlatform 64) idealRewritten.2.1 idealRewritten.2.2 = some 24 :=
  have hempty : idealDrainedA.2.1.dataFlashPages = [] := by decide
  have hok : idealRewritten.1 = true := by decide
  have h := cursor_zero_on_empty_queue (idealPlatform 64) 64 0 1 (idealWorld 255)
    idealDrainedA.2.1 idealDrainedA.2.2
    (reachable_drain (idealPlatform 64) 64 0 1 (idealWorld 255) 12 idealAfterA.2.1
      idealAfterA.2.2 (Reachable.write (demoRecords 0) 0 Reachable.init))
    hempty
  ⟨by decide, by decide, hempty, by decide, h.1, hok, by decide, by decide,
    (h.2.2 (faithfulFlash_idealPlatform 64 (by decide)) (demoRecords 24) 0 12 (by decide)
      (by decide) (by decide) (by decide) hok).trans (by decide)⟩

/-- Witness for C17: in the two-page scenario a write whose header write returns status 2
returns false; with the cursor on the last record of page 0, a pop whose payload write
returns status 1 during the page clear returns false; an `eraseThenWriteFlashPage` whose
erase returns status 1 returns 1. -/
theorem physical_failures_surfaced_witness :
    (callsSince (simWorld 255 [0, 2])
        (flashWriteData (simPlatform 64) demoQueue (demoRecords 0) 0
          (simWorld 255 [0, 2])).2.2
      = [FlashCall.erase 0 0,
          FlashCall.write 0 ((simPlatform 64).headerBytes ⟨0, 12, 0, 0⟩) 16 2] ∧
      (flashWriteData (simPlatform 64) demoQueue (demoRecords 0) 0
        (simWorld 255 [0, 2])).1 = false) ∧
    (callsSince (simWorld 255 [0, 0, 1])
        (flashPopDatum (simPlatform 64) demoLastRecord (simWorld 255 [0, 0, 1])).2.2
      = [FlashCall.erase 0 0, FlashCall.write 0 (List.replicate 16 0) 16 0,
          FlashCall.write 16 [] 0 1] ∧
      (flashPopDatum (simPlatform 64) demoLastRecord (simWorld 255 [0, 0, 1])).1 = false) ∧
    (callsSince (simWorld 255 [1])
        (eraseThenWriteFlashPage (simPlatform 64) 0 (List.replicate 16 0) 16 [] 0
          (simWorld 255 [1])).2
      = [FlashCall.erase 0 1] ∧
      (eraseThenWriteFlashPage (simPlatform 64) 0 (List.replicate 16 0) 16 [] 0
        (simWorld 255 [1])).1 ≠ 0) :=
  ⟨⟨by decide,
      ((physical_failures_surfaced (simPlatform 64) (simWorld 255 [0, 2])).2.1 demoQueue
        (demoRecords 0) 0).1 (by decide) (by decide)⟩,
    ⟨by decide,
      ((physical_failures_surfaced (simPlatform 64) (simWorld 255 [0, 0, 1])).2.2
        demoLastRecord).1 (by decide) (by decide)⟩,
    ⟨by decide,
      ((physical_failures_surfaced (simPlatform 64) (simWorld 255 [1])).1 0
        (List.replicate 16 0) 16 [] 0).1 (by decide) (by decide)⟩⟩

end LaterWitnesses

end ArduinoFlashQueue
